import Mathlib

/-!
Verification development for the delta-synchronization engine of the
cham-lang repository (apps/native/src-tauri: sync.rs, sync_table_map.rs,
db/mod.rs, db/collections.rs).

The Rust code is shallowly embedded: SQLite tables become Lean lists of
row structures, JSON payloads become an inductive Json value, wall-clock
time (Utc::now().timestamp()) becomes an explicit `now : Int` parameter,
and fallible operations return an explicit error component.  Surrogate
UUIDs of fully-replaced child rows (vocabulary definitions, practice
results, completed modes) are not part of the modelled state: child rows
are flattened into their parent row as lists, exactly as the Rust model
structs (crate::models) carry them.
-/

set_option maxHeartbeats 1000000

namespace ChamSync

/-- Minimal model of serde_json::Value.  Numbers are exact rationals
(wide enough for every integer and float literal the code handles). -/
inductive Json where
  | null : Json
  | bool (b : Bool) : Json
  | num (q : Rat) : Json
  | str (s : String) : Json
  | arr (xs : List Json) : Json
  | obj (fields : List (String × Json)) : Json

namespace Json

/-- Value::is_null. -/
def isNull : Json → Bool
  | null => true
  | _ => false

/-- serde_json indexing `data["k"]`: field lookup on an object, Null on a
missing key or a non-object. -/
def getField : Json → String → Json
  | obj fields, k => ((fields.find? (fun p => p.1 == k)).map Prod.snd).getD null
  | _, _ => null

/-- Value::as_str. -/
def asStr : Json → Option String
  | str s => some s
  | _ => none

/-- Value::as_i64: succeeds only on integer-valued numbers. -/
def asI64 : Json → Option Int
  | num q => if q.den = 1 then some q.num else none
  | _ => none

/-- Value::as_f64. -/
def asF64 : Json → Option Rat
  | num q => some q
  | _ => none

/-- Value::as_bool. -/
def asBool : Json → Option Bool
  | bool b => some b
  | _ => none

/-- Value::as_array. -/
def asArr : Json → Option (List Json)
  | arr xs => some xs
  | _ => none

/-- obj.retain over the fields of an object: drop null values
(`obj.retain(|_, v| !v.is_null())` in the collectors). -/
def retainNonNull : Json → Json
  | obj fields => obj (fields.filter (fun p => !p.2.isNull))
  | j => j

end Json

/-- qm_sync_client::SyncRecord, the wire unit. -/
structure SyncRecord where
  table_name : String
  row_id : String
  data : Json
  version : Int
  deleted : Bool

/-! ## Local row types

One structure per synced SQLite table, with the columns the sync engine
reads or writes (schema: db/mod.rs init_schema).  The unused audit column
deleted_at is omitted: no sync path reads it.  Child tables that the code
always rewrites wholesale (vocabulary definitions / sentences / topics /
tags / related words, practice results, completed modes) are flattened
into their parent row as lists, mirroring the crate::models structs. -/

/-- crate::models::Definition (modelled from usage in sync.rs; the
models.rs of the native app is not under src/). -/
structure Definition where
  meaning : String
  translation : Option String
  «example» : Option String
deriving DecidableEq, Repr

/-- crate::models::RelatedWord; the relationship enum is carried as its
lowercase wire string. -/
structure RelatedWord where
  word_id : String
  word : String
  relationship : String
deriving DecidableEq, Repr

/-- A row of the collections table. -/
structure CollectionRow where
  id : String
  name : String
  description : String
  language : String
  shared_by : Option String
  is_public : Bool
  word_count : Int
  created_at : Int
  updated_at : Int
  sync_version : Int
  synced_at : Option Int
  deleted : Bool
deriving DecidableEq, Repr

/-- A row of the vocabularies table, children flattened.  word_type is
carried as its lowercase wire string (the closed enum of models.rs). -/
structure VocabularyRow where
  id : String
  word : String
  word_type : String
  level : String
  ipa : String
  audio_url : Option String
  concept : Option String
  language : String
  collection_id : String
  definitions : List Definition
  example_sentences : List String
  topics : List String
  tags : List String
  related_words : List RelatedWord
  created_at : Int
  updated_at : Int
  sync_version : Int
  synced_at : Option Int
  deleted : Bool
deriving DecidableEq, Repr

/-- A row of the word_progress table, completed modes flattened. -/
structure WordProgressRow where
  id : String
  language : String
  vocabulary_id : String
  word : String
  correct_count : Int
  incorrect_count : Int
  total_reviews : Int
  mastery_level : Int
  next_review_date : Int
  interval_days : Int
  easiness_factor : Rat
  consecutive_correct_count : Int
  leitner_box : Int
  last_interval_days : Int
  failed_in_session : Bool
  retry_count : Int
  last_practiced : Int
  completed_modes : List String
  created_at : Int
  updated_at : Int
  sync_version : Int
  synced_at : Option Int
  deleted : Bool
deriving DecidableEq, Repr

/-- A row of the learning_settings table. -/
structure LearningSettingsRow where
  id : String
  sr_algorithm : String
  leitner_box_count : Int
  consecutive_correct_required : Int
  show_failed_words_in_session : Bool
  new_words_per_day : Option Int
  daily_review_limit : Option Int
  auto_advance_timeout_seconds : Int
  show_hint_in_fillword : Bool
  reminder_enabled : Bool
  reminder_time : String
  created_at : Int
  updated_at : Int
  sync_version : Int
  synced_at : Option Int
  deleted : Bool
deriving DecidableEq, Repr

/-- One flattened practice_results child row (surrogate id and
created_at dropped; order kept by list position). -/
structure PracticeResultRow where
  vocabulary_id : Option String
  word : String
  correct : Bool
  practice_mode : String
  time_spent_seconds : Int
deriving DecidableEq, Repr

/-- A row of the practice_sessions table, results flattened. -/
structure PracticeSessionRow where
  id : String
  collection_id : String
  mode : String
  language : String
  topic : Option String
  level : Option String
  total_questions : Int
  correct_answers : Int
  started_at : Int
  completed_at : Int
  duration_seconds : Int
  results : List PracticeResultRow
  sync_version : Int
  synced_at : Option Int
  deleted : Bool
deriving DecidableEq, Repr

/-- A row of the practice_progress table. -/
structure PracticeProgressRow where
  id : String
  language : String
  total_sessions : Int
  total_words_practiced : Int
  current_streak : Int
  longest_streak : Int
  last_practice_date : Int
  created_at : Int
  updated_at : Int
  sync_version : Int
  synced_at : Option Int
  deleted : Bool
deriving DecidableEq, Repr

/-- A row of the user_learning_languages table. -/
structure UserLearningLanguageRow where
  id : String
  language : String
  created_at : Int
  sync_version : Int
  synced_at : Option Int
  deleted : Bool
deriving DecidableEq, Repr

/-- A row of the topics table. -/
structure TopicRow where
  id : String
  name : String
  created_at : Int
  sync_version : Int
  synced_at : Option Int
  deleted : Bool
deriving DecidableEq, Repr

/-- A row of the tags table. -/
structure TagRow where
  id : String
  name : String
  created_at : Int
  sync_version : Int
  synced_at : Option Int
  deleted : Bool
deriving DecidableEq, Repr

/-- A row of the collection_shared_users table. -/
structure CsuRow where
  id : String
  collection_id : String
  user_id : String
  permission : String
  created_at : Int
  sync_version : Int
  synced_at : Option Int
  deleted : Bool
deriving DecidableEq, Repr

/-- The local SQLite store: the ten synced tables plus the
sync_checkpoint key/value table. -/
structure DbState where
  collections : List CollectionRow
  vocabularies : List VocabularyRow
  word_progress : List WordProgressRow
  learning_settings : List LearningSettingsRow
  practice_sessions : List PracticeSessionRow
  practice_progress : List PracticeProgressRow
  user_learning_languages : List UserLearningLanguageRow
  topics : List TopicRow
  tags : List TagRow
  collection_shared_users : List CsuRow
  sync_checkpoint : List (String × String)
deriving DecidableEq, Repr

end ChamSync

namespace ChamSync

/-! ## Generic table operations

A SQLite table is a list of rows; the primary key is a projection.
SQL UPDATE / DELETE WHERE id = k touch every row whose key equals k,
INSERT appends, and the upsert used by the apply engine (exists-check
followed by UPDATE or INSERT, or ON CONFLICT(id) DO UPDATE) takes the
update path exactly when a row with that key exists. -/

section TableOps

variable {ρ : Type} (key : ρ → String)

/-- First row with the given key (SELECT ... WHERE id = k LIMIT of 1). -/
def findRow (t : List ρ) (k : String) : Option ρ :=
  t.find? (fun x => key x == k)

/-- Existence check (get_*(...).is_some()). -/
def hasRow (t : List ρ) (k : String) : Bool :=
  t.any (fun x => key x == k)

/-- UPDATE ... WHERE id = k. -/
def updateRows (t : List ρ) (k : String) (f : ρ → ρ) : List ρ :=
  t.map (fun x => if key x == k then f x else x)

/-- Upsert by key: UPDATE when a row exists, INSERT otherwise. -/
def upsertRow (t : List ρ) (k : String) (fresh : ρ) (f : ρ → ρ) : List ρ :=
  if hasRow key t k then updateRows key t k f else t ++ [fresh]

/-- DELETE FROM ... WHERE id = k. -/
def deleteRows (t : List ρ) (k : String) : List ρ :=
  t.filter (fun x => !(key x == k))

/-- query_deleted_records: SELECT id, sync_version WHERE deleted = 1 AND
synced_at IS NULL, generically over the key/version/flag projections. -/
def deletedPairs (t : List ρ) (ver : ρ → Int) (del : ρ → Bool)
    (sy : ρ → Option Int) : List (String × Int) :=
  (t.filter (fun x => del x && (sy x).isNone)).map (fun x => (key x, ver x))

end TableOps

/-! ## Table name mapping (sync_table_map.rs) -/

def TABLE_MAP : List (String × String) :=
  [("wordProgress", "word_progress"),
   ("learningSettings", "learning_settings"),
   ("practiceSessions", "practice_sessions"),
   ("practiceProgress", "practice_progress"),
   ("userLearningLanguages", "user_learning_languages"),
   ("collectionSharedUsers", "collection_shared_users")]

/-- sync_to_db: camelCase wire name to snake_case local name, identity
fallback. -/
def sync_to_db (sync_name : String) : String :=
  ((TABLE_MAP.find? (fun p => p.1 == sync_name)).map Prod.snd).getD sync_name

/-- db_to_sync: local name back to wire name, identity fallback. -/
def db_to_sync (db_name : String) : String :=
  ((TABLE_MAP.find? (fun p => p.2 == db_name)).map Prod.fst).getD db_name

/-- SYNCED_TABLES from sync.rs. -/
def SYNCED_TABLES : List String :=
  ["collections", "vocabularies", "wordProgress", "learningSettings",
   "practiceSessions", "practiceProgress", "userLearningLanguages",
   "topics", "tags", "collectionSharedUsers"]

/-! ## Apply-time dependency ranks and ordering (sync.rs lines 408-440) -/

/-- Sort key of the non_deleted partition: parents first. -/
def nonDeletedRank (t : String) : Nat :=
  match t with
  | "topics" => 0
  | "tags" => 1
  | "collections" => 2
  | "userLearningLanguages" => 3
  | "collectionSharedUsers" => 4
  | "vocabularies" => 5
  | "wordProgress" => 6
  | "learningSettings" => 7
  | "practiceSessions" => 8
  | "practiceProgress" => 9
  | _ => 10

/-- Sort key of the deleted partition: children first, parents last. -/
def deletedRank (t : String) : Nat :=
  match t with
  | "practiceProgress" => 0
  | "practiceSessions" => 1
  | "wordProgress" => 2
  | "collectionSharedUsers" => 3
  | "vocabularies" => 4
  | "userLearningLanguages" => 5
  | "collections" => 6
  | "learningSettings" => 7
  | "topics" => 8
  | "tags" => 9
  | _ => 10

/-- Rust Vec::sort_by_key is a stable sort, so sorting by a small numeric
key equals concatenating, in key order, the sublists of records carrying
each key value (each sublist in original order). -/
def bucketsBy (rank : String → Nat) (l : List SyncRecord) : List SyncRecord :=
  (l.filter (fun r => rank r.table_name == 0)) ++
  (l.filter (fun r => rank r.table_name == 1)) ++
  (l.filter (fun r => rank r.table_name == 2)) ++
  (l.filter (fun r => rank r.table_name == 3)) ++
  (l.filter (fun r => rank r.table_name == 4)) ++
  (l.filter (fun r => rank r.table_name == 5)) ++
  (l.filter (fun r => rank r.table_name == 6)) ++
  (l.filter (fun r => rank r.table_name == 7)) ++
  (l.filter (fun r => rank r.table_name == 8)) ++
  (l.filter (fun r => rank r.table_name == 9)) ++
  (l.filter (fun r => rank r.table_name == 10))

/-- The non_deleted partition of apply_remote_changes, in applied order. -/
def sortNonDeleted (records : List SyncRecord) : List SyncRecord :=
  bucketsBy nonDeletedRank (records.filter (fun r => !r.deleted))

/-- The deleted partition of apply_remote_changes, in applied order. -/
def sortDeleted (records : List SyncRecord) : List SyncRecord :=
  bucketsBy deletedRank (records.filter (fun r => r.deleted))

end ChamSync

namespace ChamSync

/-! ## Payload decoding helpers (apply side) -/

/-- Modelled from the spec: db/helpers.rs of the native app is not under
src/.  Section 9 of the spec describes parse_word_type as a closed-enum
parse of the lowercase wire name; the enum value is carried in this model
as that string, so the parse is the identity on it. -/
def parse_word_type (s : String) : String := s

/-- Modelled from the spec: db/helpers.rs of the native app is not under
src/; same convention as parse_word_type. -/
def parse_word_relationship (s : String) : String := s

/-- Decode of the definitions array in apply_vocabulary_change. -/
def decodeDefinitions (j : Json) : List Definition :=
  ((j.asArr).map (fun arr => arr.map (fun d =>
    { meaning := (d.getField "meaning").asStr.getD ""
      translation := (d.getField "translation").asStr
      «example» := (d.getField "example").asStr }))).getD []

/-- Decode of a string array (exampleSentences, topics, tags):
filter_map(as_str). -/
def decodeStrings (j : Json) : List String :=
  ((j.asArr).map (fun arr => arr.filterMap Json.asStr)).getD []

/-- Decode of the relatedWords array in apply_vocabulary_change. -/
def decodeRelatedWords (j : Json) : List RelatedWord :=
  ((j.asArr).map (fun arr => arr.map (fun r =>
    { word_id := (r.getField "wordId").asStr.getD ""
      word := (r.getField "word").asStr.getD ""
      relationship :=
        parse_word_relationship ((r.getField "relationship").asStr.getD "related") }))).getD []

/-- Decode of the results array in import_practice_session. -/
def decodeResults (j : Json) : List PracticeResultRow :=
  ((j.asArr).map (fun arr => arr.map (fun r =>
    ({ vocabulary_id := (r.getField "vocabularyId").asStr
       word := (r.getField "word").asStr.getD ""
       correct := (r.getField "correct").asBool.getD false
       practice_mode := (r.getField "mode").asStr.getD "flashcard"
       time_spent_seconds := (r.getField "timeSpentSeconds").asI64.getD 0 } :
      PracticeResultRow)))).getD []

/-! ## Per-table apply functions (sync.rs lines 506-806)

Each apply function is an upsert by row_id.  The update path is given as
a row transformer writing exactly the columns the code writes on an
existing row; the insert path is that same transformer applied to a base
row holding the values only the INSERT sets (the columns the update path
never touches), which yields exactly the inserted row. -/

/-- shared_by derivation from ownerId in apply_collection_change. -/
def sharedByFromData (uid : Option String) (data : Json) : Option String :=
  ((data.getField "ownerId").asStr).bind (fun owner_id =>
    if owner_id ≠ "" ∧ uid ≠ some owner_id then some owner_id else none)

/-- Columns written on an existing collections row: update_collection
(name, description, is_public, updated_at), the shared_by UPDATE, and the
sync_version/synced_at UPDATE. -/
def collUpd (uid : Option String) (now : Int) (r : SyncRecord)
    (c : CollectionRow) : CollectionRow :=
  { c with
    name := (r.data.getField "name").asStr.getD ""
    description := (r.data.getField "description").asStr.getD ""
    is_public := (r.data.getField "isPublic").asBool.getD false
    shared_by := sharedByFromData uid r.data
    updated_at := now
    sync_version := r.version
    synced_at := some now }

/-- Columns only the INSERT path (import_collection_with_id) sets:
language from the payload, word_count 0, created_at, deleted default 0. -/
def collBase (now : Int) (r : SyncRecord) : CollectionRow :=
  { id := r.row_id
    name := ""
    description := ""
    language := (r.data.getField "language").asStr.getD ""
    shared_by := none
    is_public := false
    word_count := 0
    created_at := now
    updated_at := now
    sync_version := r.version
    synced_at := some now
    deleted := false }

/-- apply_collection_change: upsert by row_id on the collections table. -/
def apply_collection_change (uid : Option String) (now : Int) (r : SyncRecord)
    (t : List CollectionRow) : List CollectionRow :=
  upsertRow CollectionRow.id t r.row_id
    (collUpd uid now r (collBase now r)) (collUpd uid now r)

/-- Columns written on an existing vocabularies row: every field of
UpdateVocabularyRequest (all Some in apply_vocabulary_change), plus
updated_at and the sync_version/synced_at UPDATE.  language and
created_at are not in the request and are preserved.  update_vocabulary
itself is in the native db/vocabularies.rs, which is not under src/; its
write set is modelled from the spec (upsert by row_id, overwrite domain
fields) and the request struct built in sync.rs. -/
def vocabUpd (now : Int) (r : SyncRecord) (cid : String)
    (v : VocabularyRow) : VocabularyRow :=
  { v with
    word := (r.data.getField "word").asStr.getD ""
    word_type := parse_word_type ((r.data.getField "wordType").asStr.getD "n/a")
    level := (r.data.getField "level").asStr.getD ""
    ipa := (r.data.getField "ipa").asStr.getD ""
    audio_url := (r.data.getField "audioUrl").asStr
    concept := (r.data.getField "concept").asStr
    definitions := decodeDefinitions (r.data.getField "definitions")
    example_sentences := decodeStrings (r.data.getField "exampleSentences")
    topics := decodeStrings (r.data.getField "topics")
    tags := decodeStrings (r.data.getField "tags")
    related_words := decodeRelatedWords (r.data.getField "relatedWords")
    collection_id := cid
    updated_at := now
    sync_version := r.version
    synced_at := some now }

/-- Columns only the INSERT path (import_vocabulary_with_id, modelled
from the spec for the same reason as vocabUpd) sets. -/
def vocabBase (now : Int) (r : SyncRecord) : VocabularyRow :=
  { id := r.row_id
    word := ""
    word_type := ""
    level := ""
    ipa := ""
    audio_url := none
    concept := none
    language := (r.data.getField "language").asStr.getD ""
    collection_id := ""
    definitions := []
    example_sentences := []
    topics := []
    tags := []
    related_words := []
    created_at := now
    updated_at := now
    sync_version := r.version
    synced_at := some now
    deleted := false }

/-- apply_vocabulary_change: fails the record when collectionId is
missing from the payload, otherwise upserts by row_id. -/
def apply_vocabulary_change (now : Int) (r : SyncRecord)
    (t : List VocabularyRow) : Except String (List VocabularyRow) :=
  match (r.data.getField "collectionId").asStr with
  | none => .error "Missing collectionId"
  | some cid =>
    .ok (upsertRow VocabularyRow.id t r.row_id
      (vocabUpd now r cid (vocabBase now r)) (vocabUpd now r cid))

/-- Columns in the ON CONFLICT DO UPDATE clause of import_word_progress,
plus the completed-modes replace (DELETE then re-insert, both paths) and
the sync_version/synced_at UPDATE of apply_word_progress_change. -/
def wpUpd (now : Int) (r : SyncRecord) (w : WordProgressRow) : WordProgressRow :=
  { w with
    correct_count := (r.data.getField "correctCount").asI64.getD 0
    incorrect_count := (r.data.getField "incorrectCount").asI64.getD 0
    total_reviews := (r.data.getField "totalReviews").asI64.getD 0
    mastery_level := (r.data.getField "masteryLevel").asI64.getD 0
    next_review_date := (r.data.getField "nextReviewDate").asI64.getD now
    interval_days := (r.data.getField "intervalDays").asI64.getD 0
    easiness_factor := (r.data.getField "easinessFactor").asF64.getD (5 / 2 : Rat)
    consecutive_correct_count := (r.data.getField "consecutiveCorrectCount").asI64.getD 0
    leitner_box := (r.data.getField "leitnerBox").asI64.getD 1
    last_interval_days := (r.data.getField "lastIntervalDays").asI64.getD 0
    failed_in_session := (r.data.getField "failedInSession").asBool.getD false
    retry_count := (r.data.getField "retryCount").asI64.getD 0
    last_practiced := (r.data.getField "lastPracticed").asI64.getD now
    completed_modes := decodeStrings (r.data.getField "completedModesInCycle")
    updated_at := now
    sync_version := r.version
    synced_at := some now }

/-- Columns only the INSERT path of import_word_progress sets: id,
language (payload, else the language of the referenced vocabulary row,
else "en"), vocabulary_id, word, created_at. -/
def wpBase (now : Int) (V : List VocabularyRow) (r : SyncRecord) : WordProgressRow :=
  let vocabulary_id := (r.data.getField "vocabularyId").asStr.getD ""
  { id := r.row_id
    language :=
      match (r.data.getField "language").asStr with
      | some s => s
      | none => ((findRow VocabularyRow.id V vocabulary_id).map
          (fun v => v.language)).getD "en"
    vocabulary_id := vocabulary_id
    word := (r.data.getField "word").asStr.getD ""
    correct_count := 0
    incorrect_count := 0
    total_reviews := 0
    mastery_level := 0
    next_review_date := now
    interval_days := 0
    easiness_factor := (5 / 2 : Rat)
    consecutive_correct_count := 0
    leitner_box := 1
    last_interval_days := 0
    failed_in_session := false
    retry_count := 0
    last_practiced := now
    completed_modes := []
    created_at := now
    updated_at := now
    sync_version := r.version
    synced_at := some now
    deleted := false }

/-- apply_word_progress_change (import_word_progress plus the
sync_version/synced_at UPDATE): upsert by id; V is the current
vocabularies table read by the insert-path language fallback.  The real
statement can additionally fail on the word_progress
UNIQUE(language, vocabulary_id) constraint of init_schema, which ON
CONFLICT(id) does not cover; that secondary-constraint error path is not
modelled, so no-error statements about the apply pass are confined to
tables without secondary UNIQUE constraints (see the C4 theorem). -/
def apply_word_progress_change (now : Int) (V : List VocabularyRow)
    (r : SyncRecord) (t : List WordProgressRow) : List WordProgressRow :=
  upsertRow WordProgressRow.id t r.row_id
    (wpUpd now r (wpBase now V r)) (wpUpd now r)

/-- ON CONFLICT DO UPDATE clause of import_learning_settings plus the
sync_version/synced_at UPDATE of apply_learning_settings_change. -/
def lsUpd (now : Int) (r : SyncRecord) (s : LearningSettingsRow) : LearningSettingsRow :=
  { s with
    sr_algorithm := (r.data.getField "srAlgorithm").asStr.getD "sm2"
    leitner_box_count := (r.data.getField "leitnerBoxCount").asI64.getD 5
    consecutive_correct_required := (r.data.getField "consecutiveCorrectRequired").asI64.getD 3
    show_failed_words_in_session := (r.data.getField "showFailedWordsInSession").asBool.getD true
    new_words_per_day := (r.data.getField "newWordsPerDay").asI64
    daily_review_limit := (r.data.getField "dailyReviewLimit").asI64
    auto_advance_timeout_seconds := (r.data.getField "autoAdvanceTimeoutSeconds").asI64.getD 2
    show_hint_in_fillword := (r.data.getField "showHintInFillword").asBool.getD true
    reminder_enabled := (r.data.getField "reminderEnabled").asBool.getD false
    reminder_time := (r.data.getField "reminderTime").asStr.getD "19:00"
    updated_at := (r.data.getField "updatedAt").asI64.getD now
    sync_version := r.version
    synced_at := some now }

/-- Columns only the INSERT path of import_learning_settings sets. -/
def lsBase (now : Int) (r : SyncRecord) : LearningSettingsRow :=
  { id := r.row_id
    sr_algorithm := ""
    leitner_box_count := 0
    consecutive_correct_required := 0
    show_failed_words_in_session := false
    new_words_per_day := none
    daily_review_limit := none
    auto_advance_timeout_seconds := 0
    show_hint_in_fillword := false
    reminder_enabled := false
    reminder_time := ""
    created_at := (r.data.getField "createdAt").asI64.getD now
    updated_at := now
    sync_version := r.version
    synced_at := some now
    deleted := false }

/-- apply_learning_settings_change. -/
def apply_learning_settings_change (now : Int) (r : SyncRecord)
    (t : List LearningSettingsRow) : List LearningSettingsRow :=
  upsertRow LearningSettingsRow.id t r.row_id
    (lsUpd now r (lsBase now r)) (lsUpd now r)

/-- ON CONFLICT DO UPDATE clause of import_practice_session (mode,
total_questions, correct_answers, completed_at, duration_seconds,
sync_version, synced_at) plus the practice-results replace (both paths)
and the sync_version/synced_at UPDATE of apply_practice_session_change. -/
def psUpd (now : Int) (r : SyncRecord) (s : PracticeSessionRow) : PracticeSessionRow :=
  { s with
    mode := (r.data.getField "mode").asStr.getD "flashcard"
    total_questions := (r.data.getField "totalQuestions").asI64.getD 0
    correct_answers := (r.data.getField "correctAnswers").asI64.getD 0
    completed_at := (r.data.getField "completedAt").asI64.getD now
    duration_seconds := (r.data.getField "durationSeconds").asI64.getD 0
    results := decodeResults (r.data.getField "results")
    sync_version := r.version
    synced_at := some now }

/-- Columns only the INSERT path of import_practice_session sets. -/
def psBase (now : Int) (r : SyncRecord) : PracticeSessionRow :=
  { id := r.row_id
    collection_id := (r.data.getField "collectionId").asStr.getD ""
    mode := ""
    language := (r.data.getField "language").asStr.getD "en"
    topic := (r.data.getField "topic").asStr
    level := (r.data.getField "level").asStr
    total_questions := 0
    correct_answers := 0
    started_at := (r.data.getField "startedAt").asI64.getD now
    completed_at := now
    duration_seconds := 0
    results := []
    sync_version := r.version
    synced_at := some now
    deleted := false }

/-- apply_practice_session_change. -/
def apply_practice_session_change (now : Int) (r : SyncRecord)
    (t : List PracticeSessionRow) : List PracticeSessionRow :=
  upsertRow PracticeSessionRow.id t r.row_id
    (psUpd now r (psBase now r)) (psUpd now r)

/-- ON CONFLICT DO UPDATE clause of the practice_progress upsert in
apply_practice_progress_change. -/
def ppUpd (now : Int) (r : SyncRecord) (p : PracticeProgressRow) : PracticeProgressRow :=
  { p with
    total_sessions := (r.data.getField "totalSessions").asI64.getD 0
    total_words_practiced := (r.data.getField "totalWordsPracticed").asI64.getD 0
    current_streak := (r.data.getField "currentStreak").asI64.getD 0
    longest_streak := (r.data.getField "longestStreak").asI64.getD 0
    last_practice_date := (r.data.getField "lastPracticeDate").asI64.getD now
    updated_at := (r.data.getField "updatedAt").asI64.getD now
    sync_version := r.version
    synced_at := some now }

/-- Columns only the INSERT path of the practice_progress upsert sets. -/
def ppBase (now : Int) (r : SyncRecord) : PracticeProgressRow :=
  { id := r.row_id
    language := (r.data.getField "language").asStr.getD "en"
    total_sessions := 0
    total_words_practiced := 0
    current_streak := 0
    longest_streak := 0
    last_practice_date := now
    created_at := (r.data.getField "createdAt").asI64.getD now
    updated_at := now
    sync_version := r.version
    synced_at := some now
    deleted := false }

/-- apply_practice_progress_change.  The real statement can
additionally fail on the practice_progress.language UNIQUE constraint of
init_schema, which ON CONFLICT(id) does not cover; that
secondary-constraint error path is not modelled (see the C4 theorem). -/
def apply_practice_progress_change (now : Int) (r : SyncRecord)
    (t : List PracticeProgressRow) : List PracticeProgressRow :=
  upsertRow PracticeProgressRow.id t r.row_id
    (ppUpd now r (ppBase now r)) (ppUpd now r)

/-- ON CONFLICT DO UPDATE clause of the user_learning_languages upsert. -/
def ullUpd (now : Int) (r : SyncRecord) (u : UserLearningLanguageRow) : UserLearningLanguageRow :=
  { u with
    language := (r.data.getField "language").asStr.getD "en"
    sync_version := r.version
    synced_at := some now }

/-- Columns only the INSERT path of the user_learning_languages upsert sets. -/
def ullBase (now : Int) (r : SyncRecord) : UserLearningLanguageRow :=
  { id := r.row_id
    language := ""
    created_at := (r.data.getField "createdAt").asI64.getD now
    sync_version := r.version
    synced_at := some now
    deleted := false }

/-- apply_user_learning_language_change.  The real statement can
additionally fail on the user_learning_languages.language UNIQUE
constraint of init_schema, which ON CONFLICT(id) does not cover; that
secondary-constraint error path is not modelled (see the C4 theorem). -/
def apply_user_learning_language_change (now : Int) (r : SyncRecord)
    (t : List UserLearningLanguageRow) : List UserLearningLanguageRow :=
  upsertRow UserLearningLanguageRow.id t r.row_id
    (ullUpd now r (ullBase now r)) (ullUpd now r)

/-- ON CONFLICT DO UPDATE clause of the topics upsert. -/
def topicUpd (now : Int) (r : SyncRecord) (x : TopicRow) : TopicRow :=
  { x with
    name := (r.data.getField "name").asStr.getD ""
    sync_version := r.version
    synced_at := some now }

/-- Columns only the INSERT path of the topics upsert sets. -/
def topicBase (now : Int) (r : SyncRecord) : TopicRow :=
  { id := r.row_id
    name := ""
    created_at := (r.data.getField "createdAt").asI64.getD now
    sync_version := r.version
    synced_at := some now
    deleted := false }

/-- apply_topic_change.  The real INSERT can additionally fail on the
topics.name UNIQUE constraint of init_schema when a new id reuses an
existing name, which ON CONFLICT(id) does not cover; that
secondary-constraint error path is not modelled (see the C4 theorem). -/
def apply_topic_change (now : Int) (r : SyncRecord)
    (t : List TopicRow) : List TopicRow :=
  upsertRow TopicRow.id t r.row_id (topicUpd now r (topicBase now r)) (topicUpd now r)

/-- ON CONFLICT DO UPDATE clause of the tags upsert. -/
def tagUpd (now : Int) (r : SyncRecord) (x : TagRow) : TagRow :=
  { x with
    name := (r.data.getField "name").asStr.getD ""
    sync_version := r.version
    synced_at := some now }

/-- Columns only the INSERT path of the tags upsert sets. -/
def tagBase (now : Int) (r : SyncRecord) : TagRow :=
  { id := r.row_id
    name := ""
    created_at := (r.data.getField "createdAt").asI64.getD now
    sync_version := r.version
    synced_at := some now
    deleted := false }

/-- apply_tag_change.  The real INSERT can additionally fail on the
tags.name UNIQUE constraint of init_schema when a new id reuses an
existing name, which ON CONFLICT(id) does not cover; that
secondary-constraint error path is not modelled (see the C4 theorem). -/
def apply_tag_change (now : Int) (r : SyncRecord)
    (t : List TagRow) : List TagRow :=
  upsertRow TagRow.id t r.row_id (tagUpd now r (tagBase now r)) (tagUpd now r)

/-- ON CONFLICT DO UPDATE clause of the collection_shared_users upsert. -/
def csuUpd (now : Int) (r : SyncRecord) (x : CsuRow) : CsuRow :=
  { x with
    permission := (r.data.getField "permission").asStr.getD "viewer"
    sync_version := r.version
    synced_at := some now }

/-- Columns only the INSERT path of the collection_shared_users upsert sets. -/
def csuBase (now : Int) (r : SyncRecord) : CsuRow :=
  { id := r.row_id
    collection_id := (r.data.getField "collectionId").asStr.getD ""
    user_id := (r.data.getField "userId").asStr.getD ""
    permission := ""
    created_at := (r.data.getField "createdAt").asI64.getD now
    sync_version := r.version
    synced_at := some now
    deleted := false }

/-- apply_collection_shared_user_change.  The real statement can
additionally fail on the collection_shared_users
UNIQUE(collection_id, user_id) constraint of init_schema, which ON
CONFLICT(id) does not cover; that secondary-constraint error path is not
modelled (see the C4 theorem). -/
def apply_collection_shared_user_change (now : Int) (r : SyncRecord)
    (t : List CsuRow) : List CsuRow :=
  upsertRow CsuRow.id t r.row_id (csuUpd now r (csuBase now r)) (csuUpd now r)

end ChamSync

namespace ChamSync

/-! ## Hard delete, apply engine, mark, checkpoint (sync.rs / db/mod.rs) -/

/-- hard_delete_record: DELETE FROM {table} WHERE id = ?1.  A table name
outside the schema makes the statement fail, which the callers propagate
as an error; that case is `none` here. -/
def hard_delete_record (table_name : String) (id : String) (s : DbState) :
    Option DbState :=
  match table_name with
  | "collections" => some { s with collections := deleteRows CollectionRow.id s.collections id }
  | "vocabularies" => some { s with vocabularies := deleteRows VocabularyRow.id s.vocabularies id }
  | "word_progress" => some { s with word_progress := deleteRows WordProgressRow.id s.word_progress id }
  | "learning_settings" => some { s with learning_settings := deleteRows LearningSettingsRow.id s.learning_settings id }
  | "practice_sessions" => some { s with practice_sessions := deleteRows PracticeSessionRow.id s.practice_sessions id }
  | "practice_progress" => some { s with practice_progress := deleteRows PracticeProgressRow.id s.practice_progress id }
  | "user_learning_languages" => some { s with user_learning_languages := deleteRows UserLearningLanguageRow.id s.user_learning_languages id }
  | "topics" => some { s with topics := deleteRows TopicRow.id s.topics id }
  | "tags" => some { s with tags := deleteRows TagRow.id s.tags id }
  | "collection_shared_users" => some { s with collection_shared_users := deleteRows CsuRow.id s.collection_shared_users id }
  | _ => none

/-- COUNT(*) FROM vocabularies WHERE collection_id = ?1 AND deleted = 0. -/
def countVocab (V : List VocabularyRow) (cid : String) : Int :=
  ((V.filter (fun v => v.collection_id == cid && !v.deleted)).length : Int)

/-- update_collection_word_count (db/collections.rs lines 284-302). -/
def update_collection_word_count (now : Int) (cid : String) (s : DbState) : DbState :=
  { s with collections := (updateRows CollectionRow.id s.collections cid
      (fun c => { c with word_count := countVocab s.vocabularies cid, updated_at := now })) }

/-- The affected_collection_ids accumulator.  The Rust code uses a
HashSet, whose iteration order is arbitrary; only membership is
observable (recomputations of distinct ids touch disjoint rows), and this
model fixes first-insertion order. -/
def insertAffected (id : String) (l : List String) : List String :=
  if id ∈ l then l else l ++ [id]

/-- HashSet::remove. -/
def removeAffected (id : String) (l : List String) : List String :=
  l.filter (fun x => !(x == id))

/-- Accumulator of the two apply loops: current store, affected
collection ids, first error. -/
structure ApplyAcc where
  st : DbState
  affected : List String
  err : Option String

/-- One iteration of the non-deleted loop of apply_remote_changes:
dispatch on the table name; an unknown table only logs.  An earlier
error short-circuits the remaining iterations (the Rust loop returns). -/
def applyNdStep (uid : Option String) (now : Int) (acc : ApplyAcc)
    (r : SyncRecord) : ApplyAcc :=
  match acc.err with
  | some _ => acc
  | none =>
    match r.table_name with
    | "collections" =>
      { acc with st := { acc.st with
          collections := apply_collection_change uid now r acc.st.collections } }
    | "vocabularies" =>
      let old_collection_id :=
        (findRow VocabularyRow.id acc.st.vocabularies r.row_id).map
          (fun v => v.collection_id)
      match apply_vocabulary_change now r acc.st.vocabularies with
      | .error e => { acc with err := some e }
      | .ok v =>
        let aff :=
          match (r.data.getField "collectionId").asStr with
          | some new_cid => insertAffected new_cid acc.affected
          | none => acc.affected
        let aff :=
          match old_collection_id with
          | some old_cid => insertAffected old_cid aff
          | none => aff
        { st := { acc.st with vocabularies := v }, affected := aff, err := none }
    | "wordProgress" =>
      { acc with st := { acc.st with
          word_progress := apply_word_progress_change now acc.st.vocabularies r acc.st.word_progress } }
    | "learningSettings" =>
      { acc with st := { acc.st with
          learning_settings := apply_learning_settings_change now r acc.st.learning_settings } }
    | "practiceSessions" =>
      { acc with st := { acc.st with
          practice_sessions := apply_practice_session_change now r acc.st.practice_sessions } }
    | "practiceProgress" =>
      { acc with st := { acc.st with
          practice_progress := apply_practice_progress_change now r acc.st.practice_progress } }
    | "userLearningLanguages" =>
      { acc with st := { acc.st with
          user_learning_languages := apply_user_learning_language_change now r acc.st.user_learning_languages } }
    | "topics" =>
      { acc with st := { acc.st with
          topics := apply_topic_change now r acc.st.topics } }
    | "tags" =>
      { acc with st := { acc.st with
          tags := apply_tag_change now r acc.st.tags } }
    | "collectionSharedUsers" =>
      { acc with st := { acc.st with
          collection_shared_users := apply_collection_shared_user_change now r acc.st.collection_shared_users } }
    | _ => acc

/-- One iteration of the deleted loop of apply_remote_changes: track the
collection of a vocabulary about to be deleted, hard-delete the row,
drop deleted collections from the affected set. -/
def applyDelStep (acc : ApplyAcc) (r : SyncRecord) : ApplyAcc :=
  match acc.err with
  | some _ => acc
  | none =>
    let aff :=
      if r.table_name == "vocabularies" then
        match findRow VocabularyRow.id acc.st.vocabularies r.row_id with
        | some v => insertAffected v.collection_id acc.affected
        | none => acc.affected
      else acc.affected
    match hard_delete_record (sync_to_db r.table_name) r.row_id acc.st with
    | some st =>
      if r.table_name == "collections" then
        { st := st, affected := removeAffected r.row_id aff, err := none }
      else
        { st := st, affected := aff, err := none }
    | none =>
      let e := "no such table: " ++ sync_to_db r.table_name
      { acc with affected := aff, err := some e }

/-- The final recomputation loop of apply_remote_changes: one
update_collection_word_count per affected collection id (failures are
only logged in the Rust code; the SQL itself cannot fail here). -/
def recomputeAffected (aff : List String) (now : Int) (s : DbState) : DbState :=
  aff.foldl (fun st cid => update_collection_word_count now cid st) s

/-- apply_remote_changes (sync.rs lines 408-504).  Returns the store
after the pass together with the first error; on an error the partial
state already committed is kept (apply is per-record, no outer
transaction). -/
def apply_remote_changes (uid : Option String) (now : Int)
    (records : List SyncRecord) (s : DbState) : DbState × Option String :=
  let non_deleted := sortNonDeleted records
  let deleted := sortDeleted records
  let a1 := non_deleted.foldl (applyNdStep uid now) ⟨s, [], none⟩
  match a1.err with
  | some e => (a1.st, some e)
  | none =>
    let a2 := deleted.foldl applyDelStep a1
    match a2.err with
    | some e => (a2.st, some e)
    | none => (recomputeAffected a2.affected now a2.st, none)

/-- The UPDATE of mark_records_synced on one non-deleted record:
synced_at set, sync_version incremented; `none` when the table name is
outside the schema (the SQL would fail). -/
def markNonDeleted (table_name : String) (id : String) (synced_at : Int)
    (s : DbState) : Option DbState :=
  match table_name with
  | "collections" => some { s with collections := (updateRows CollectionRow.id s.collections id
      (fun c => { c with synced_at := some synced_at, sync_version := c.sync_version + 1 })) }
  | "vocabularies" => some { s with vocabularies := (updateRows VocabularyRow.id s.vocabularies id
      (fun c => { c with synced_at := some synced_at, sync_version := c.sync_version + 1 })) }
  | "word_progress" => some { s with word_progress := (updateRows WordProgressRow.id s.word_progress id
      (fun c => { c with synced_at := some synced_at, sync_version := c.sync_version + 1 })) }
  | "learning_settings" => some { s with learning_settings := (updateRows LearningSettingsRow.id s.learning_settings id
      (fun c => { c with synced_at := some synced_at, sync_version := c.sync_version + 1 })) }
  | "practice_sessions" => some { s with practice_sessions := (updateRows PracticeSessionRow.id s.practice_sessions id
      (fun c => { c with synced_at := some synced_at, sync_version := c.sync_version + 1 })) }
  | "practice_progress" => some { s with practice_progress := (updateRows PracticeProgressRow.id s.practice_progress id
      (fun c => { c with synced_at := some synced_at, sync_version := c.sync_version + 1 })) }
  | "user_learning_languages" => some { s with user_learning_languages := (updateRows UserLearningLanguageRow.id s.user_learning_languages id
      (fun c => { c with synced_at := some synced_at, sync_version := c.sync_version + 1 })) }
  | "topics" => some { s with topics := (updateRows TopicRow.id s.topics id
      (fun c => { c with synced_at := some synced_at, sync_version := c.sync_version + 1 })) }
  | "tags" => some { s with tags := (updateRows TagRow.id s.tags id
      (fun c => { c with synced_at := some synced_at, sync_version := c.sync_version + 1 })) }
  | "collection_shared_users" => some { s with collection_shared_users := (updateRows CsuRow.id s.collection_shared_users id
      (fun c => { c with synced_at := some synced_at, sync_version := c.sync_version + 1 })) }
  | _ => none

/-- The loop body of mark_records_synced: hard-delete a pushed delete,
otherwise set synced_at and bump sync_version; a failed statement stops
the loop (the ? operator). -/
def markStep (synced_at : Int) (acc : DbState × Option String)
    (r : SyncRecord) : DbState × Option String :=
  match acc.2 with
  | some _ => acc
  | none =>
    if r.deleted then
      match hard_delete_record (sync_to_db r.table_name) r.row_id acc.1 with
      | some st => (st, none)
      | none => (acc.1, some ("no such table: " ++ sync_to_db r.table_name))
    else
      match markNonDeleted (sync_to_db r.table_name) r.row_id synced_at acc.1 with
      | some st => (st, none)
      | none => (acc.1, some ("no such table: " ++ sync_to_db r.table_name))

/-- mark_records_synced (sync.rs lines 824-842). -/
def mark_records_synced (records : List SyncRecord) (synced_at : Int)
    (s : DbState) : DbState × Option String :=
  records.foldl (markStep synced_at) (s, none)

/-- INSERT OR REPLACE INTO sync_checkpoint for one key. -/
def setCheckpointKey (k v : String) (t : List (String × String)) :
    List (String × String) :=
  if t.any (fun p => p.1 == k) then
    t.map (fun p => if p.1 == k then (k, v) else p)
  else t ++ [(k, v)]

/-- LocalDatabase::save_checkpoint: write updated_at, then id. -/
def save_checkpoint (updated_at id : String) (s : DbState) : DbState :=
  { s with sync_checkpoint :=
      setCheckpointKey "id" id (setCheckpointKey "updated_at" updated_at s.sync_checkpoint) }

/-- LocalDatabase::get_checkpoint (db/mod.rs lines 935-957): read both
keys; Some only when both rows exist. -/
def get_checkpoint (t : List (String × String)) : Option (String × String) :=
  let updated_at := (t.find? (fun p => p.1 == "updated_at")).map Prod.snd
  let id := (t.find? (fun p => p.1 == "id")).map Prod.snd
  match updated_at, id with
  | some ts, some i => some (ts, i)
  | _, _ => none

end ChamSync

namespace ChamSync

/-! ## Collector (sync.rs lines 157-404) -/

/-- Json builder for an integer timestamp or counter. -/
def Json.ofInt (n : Int) : Json := .num (n : Rat)

/-- Json builder for an optional string (absent encodes as null, removed
by the retain pass). -/
def Json.ofOptStr : Option String → Json
  | some s => .str s
  | none => .null

/-- Json builder for an optional integer. -/
def Json.ofOptInt : Option Int → Json
  | some n => Json.ofInt n
  | none => .null

/-- get_user_collections (db/collections.rs lines 115-189): all
non-deleted collection rows.  The ORDER BY updated_at/name of the SQL
only affects presentation order and is not replicated here; the
shared_with subquery populates a derived view the sync engine never
reads. -/
def get_user_collections (s : DbState) : List CollectionRow :=
  s.collections.filter (fun c => !c.deleted)

/-- Modelled from the spec: the native db/vocabularies.rs is not under
src/.  Per spec section 4.3 the collector selects rows of the table; the
dirty filter is applied by the caller, and tombstoned rows travel through
the separate deleted scan, so this getter returns the non-deleted rows. -/
def get_all_vocabularies (s : DbState) : List VocabularyRow :=
  s.vocabularies.filter (fun v => !v.deleted)

/-- get_unsynced_word_progress (db/mod.rs lines 1274-1346):
WHERE synced_at IS NULL AND deleted = 0. -/
def get_unsynced_word_progress (s : DbState) : List WordProgressRow :=
  s.word_progress.filter (fun w => w.synced_at.isNone && !w.deleted)

/-- Modelled from the spec: the native db/settings.rs is not under src/.
learning_settings holds a single row; the getter returns it when
present. -/
def get_learning_settings (s : DbState) : Option LearningSettingsRow :=
  s.learning_settings.head?

/-- get_unsynced_practice_sessions (db/mod.rs lines 1348-1439):
WHERE synced_at IS NULL AND deleted = 0. -/
def get_unsynced_practice_sessions (s : DbState) : List PracticeSessionRow :=
  s.practice_sessions.filter (fun w => w.synced_at.isNone && !w.deleted)

/-- query_deleted_records (db/mod.rs lines 1004-1013) dispatched over the
schema tables; the collector only calls it with the ten synced tables. -/
def query_deleted_records (table_name : String) (s : DbState) : List (String × Int) :=
  match table_name with
  | "collections" => deletedPairs CollectionRow.id s.collections (fun x => x.sync_version) (fun x => x.deleted) (fun x => x.synced_at)
  | "vocabularies" => deletedPairs VocabularyRow.id s.vocabularies (fun x => x.sync_version) (fun x => x.deleted) (fun x => x.synced_at)
  | "word_progress" => deletedPairs WordProgressRow.id s.word_progress (fun x => x.sync_version) (fun x => x.deleted) (fun x => x.synced_at)
  | "learning_settings" => deletedPairs LearningSettingsRow.id s.learning_settings (fun x => x.sync_version) (fun x => x.deleted) (fun x => x.synced_at)
  | "practice_sessions" => deletedPairs PracticeSessionRow.id s.practice_sessions (fun x => x.sync_version) (fun x => x.deleted) (fun x => x.synced_at)
  | "practice_progress" => deletedPairs PracticeProgressRow.id s.practice_progress (fun x => x.sync_version) (fun x => x.deleted) (fun x => x.synced_at)
  | "user_learning_languages" => deletedPairs UserLearningLanguageRow.id s.user_learning_languages (fun x => x.sync_version) (fun x => x.deleted) (fun x => x.synced_at)
  | "topics" => deletedPairs TopicRow.id s.topics (fun x => x.sync_version) (fun x => x.deleted) (fun x => x.synced_at)
  | "tags" => deletedPairs TagRow.id s.tags (fun x => x.sync_version) (fun x => x.deleted) (fun x => x.synced_at)
  | "collection_shared_users" => deletedPairs CsuRow.id s.collection_shared_users (fun x => x.sync_version) (fun x => x.deleted) (fun x => x.synced_at)
  | _ => []

/-- collection_to_sync_record (sync.rs lines 216-242). -/
def collection_to_sync_record (uid : Option String) (c : CollectionRow) : SyncRecord :=
  { table_name := "collections"
    row_id := c.id
    data := (Json.obj
      [("id", .str c.id), ("name", .str c.name),
       ("description", .str c.description), ("language", .str c.language),
       ("ownerId", Json.ofOptStr uid), ("sharedBy", Json.ofOptStr c.shared_by),
       ("isPublic", .bool c.is_public), ("wordCount", Json.ofInt c.word_count),
       ("createdAt", Json.ofInt c.created_at), ("updatedAt", Json.ofInt c.updated_at),
       ("syncVersion", Json.ofInt c.sync_version)]).retainNonNull
    version := c.sync_version
    deleted := false }

/-- vocabulary_to_sync_record (sync.rs lines 244-293).  The row id is
always present on a stored row, so the unwrap_or_default of the model
struct Option resolves to the id itself. -/
def vocabulary_to_sync_record (v : VocabularyRow) : SyncRecord :=
  { table_name := "vocabularies"
    row_id := v.id
    data := (Json.obj
      [("id", .str v.id), ("word", .str v.word), ("wordType", .str v.word_type),
       ("level", .str v.level), ("ipa", .str v.ipa),
       ("audioUrl", Json.ofOptStr v.audio_url), ("concept", Json.ofOptStr v.concept),
       ("language", .str v.language), ("collectionId", .str v.collection_id),
       ("definitions", .arr (v.definitions.map (fun d => Json.obj
          [("meaning", .str d.meaning), ("translation", Json.ofOptStr d.translation),
           ("example", Json.ofOptStr d.«example»)]))),
       ("exampleSentences", .arr (v.example_sentences.map Json.str)),
       ("topics", .arr (v.topics.map Json.str)),
       ("tags", .arr (v.tags.map Json.str)),
       ("relatedWords", .arr (v.related_words.map (fun rw => Json.obj
          [("wordId", .str rw.word_id), ("word", .str rw.word),
           ("relationship", .str rw.relationship)]))),
       ("createdAt", Json.ofInt v.created_at), ("updatedAt", Json.ofInt v.updated_at),
       ("syncVersion", Json.ofInt v.sync_version)]).retainNonNull
    version := v.sync_version
    deleted := false }

/-- word_progress_to_sync_record (sync.rs lines 295-333); note the
literal empty language and the createdAt/updatedAt stamped with now. -/
def word_progress_to_sync_record (now : Int) (p : WordProgressRow) : SyncRecord :=
  { table_name := "wordProgress"
    row_id := p.id
    data := (Json.obj
      [("id", .str p.id), ("language", .str ""),
       ("vocabularyId", .str p.vocabulary_id), ("word", .str p.word),
       ("correctCount", Json.ofInt p.correct_count),
       ("incorrectCount", Json.ofInt p.incorrect_count),
       ("lastPracticed", Json.ofInt p.last_practiced),
       ("masteryLevel", Json.ofInt p.mastery_level),
       ("nextReviewDate", Json.ofInt p.next_review_date),
       ("intervalDays", Json.ofInt p.interval_days),
       ("easinessFactor", .num p.easiness_factor),
       ("consecutiveCorrectCount", Json.ofInt p.consecutive_correct_count),
       ("leitnerBox", Json.ofInt p.leitner_box),
       ("lastIntervalDays", Json.ofInt p.last_interval_days),
       ("totalReviews", Json.ofInt p.total_reviews),
       ("failedInSession", .bool p.failed_in_session),
       ("retryCount", Json.ofInt p.retry_count),
       ("completedModesInCycle", .arr (p.completed_modes.map Json.str)),
       ("createdAt", Json.ofInt now), ("updatedAt", Json.ofInt now),
       ("syncVersion", Json.ofInt p.sync_version)]).retainNonNull
    version := p.sync_version
    deleted := false }

/-- learning_settings_to_sync_record (sync.rs lines 335-364). -/
def learning_settings_to_sync_record (st : LearningSettingsRow) : SyncRecord :=
  { table_name := "learningSettings"
    row_id := st.id
    data := (Json.obj
      [("id", .str st.id), ("srAlgorithm", .str st.sr_algorithm),
       ("leitnerBoxCount", Json.ofInt st.leitner_box_count),
       ("consecutiveCorrectRequired", Json.ofInt st.consecutive_correct_required),
       ("showFailedWordsInSession", .bool st.show_failed_words_in_session),
       ("newWordsPerDay", Json.ofOptInt st.new_words_per_day),
       ("dailyReviewLimit", Json.ofOptInt st.daily_review_limit),
       ("autoAdvanceTimeoutSeconds", Json.ofInt st.auto_advance_timeout_seconds),
       ("showHintInFillword", .bool st.show_hint_in_fillword),
       ("reminderEnabled", .bool st.reminder_enabled),
       ("reminderTime", .str st.reminder_time),
       ("createdAt", Json.ofInt st.created_at), ("updatedAt", Json.ofInt st.updated_at),
       ("syncVersion", Json.ofInt st.sync_version)]).retainNonNull
    version := st.sync_version
    deleted := false }

/-- practice_session_to_sync_record (sync.rs lines 366-404). -/
def practice_session_to_sync_record (sess : PracticeSessionRow) : SyncRecord :=
  { table_name := "practiceSessions"
    row_id := sess.id
    data := (Json.obj
      [("id", .str sess.id), ("collectionId", .str sess.collection_id),
       ("mode", .str sess.mode), ("language", .str sess.language),
       ("topic", Json.ofOptStr sess.topic), ("level", Json.ofOptStr sess.level),
       ("totalQuestions", Json.ofInt sess.total_questions),
       ("correctAnswers", Json.ofInt sess.correct_answers),
       ("startedAt", Json.ofInt sess.started_at),
       ("completedAt", Json.ofInt sess.completed_at),
       ("durationSeconds", Json.ofInt sess.duration_seconds),
       ("results", .arr (sess.results.map (fun r => Json.obj
          [("vocabularyId", Json.ofOptStr r.vocabulary_id), ("word", .str r.word),
           ("correct", .bool r.correct), ("mode", .str r.practice_mode),
           ("timeSpentSeconds", Json.ofInt r.time_spent_seconds)]))),
       ("syncVersion", Json.ofInt sess.sync_version)]).retainNonNull
    version := sess.sync_version
    deleted := false }

/-- The deleted=true records of one synced table: payload-free tombstone
records carrying only row id and version. -/
def deletedRecordsFor (sync_name : String) (s : DbState) : List SyncRecord :=
  (query_deleted_records (sync_to_db sync_name) s).map (fun p =>
    { table_name := sync_name, row_id := p.1, data := Json.obj [],
      version := p.2, deleted := true })

/-- collect_local_changes (sync.rs lines 157-214): the soft-deleted scan
over every synced table, then the unsynced active collections (skipping
shared ones), vocabularies, word progress, the learning-settings
singleton, and practice sessions.  The trailing TODO of the source
(line 210) leaves practice_progress, user_learning_languages, topics,
tags and collection_shared_users uncollected. -/
def collect_local_changes (uid : Option String) (now : Int) (s : DbState) :
    List SyncRecord :=
  ((SYNCED_TABLES.map (fun n => deletedRecordsFor n s)).flatten) ++
  (((get_user_collections s).filter
      (fun c => c.synced_at.isNone && c.shared_by.isNone)).map
    (collection_to_sync_record uid)) ++
  (((get_all_vocabularies s).filter (fun v => v.synced_at.isNone)).map
    vocabulary_to_sync_record) ++
  ((get_unsynced_word_progress s).map (word_progress_to_sync_record now)) ++
  (match get_learning_settings s with
   | some st => if st.synced_at.isNone then [learning_settings_to_sync_record st] else []
   | none => []) ++
  ((get_unsynced_practice_sessions s).map practice_session_to_sync_record)

/-! ## The sync pass (sync.rs sync_now, lines 86-154) -/

/-- qm-sync push response part. -/
structure PushResponse where
  synced : Nat
  conflicts : List String

/-- qm-sync pull response part; the checkpoint travels as its persisted
RFC3339 string plus id. -/
structure PullResponse where
  records : List SyncRecord
  checkpoint_updated_at : String
  checkpoint_id : String

/-- qm-sync delta response. -/
structure DeltaResponse where
  push : Option PushResponse
  pull : Option PullResponse

/-- SyncResult (sync.rs lines 34-43). -/
structure SyncResult where
  pushed : Nat
  pulled : Nat
  conflicts : Nat
  success : Bool
  error : Option String
  synced_at : Int

/-- sync_now after the collector has produced local_changes and the
single delta round trip has returned `response` (the transport is an
external collaborator; a transport failure is the error case of
`response`).  start_time is the pass timestamp used for marking, now the
clock of the apply pass. -/
def sync_now (uid : Option String) (start_time now : Int)
    (local_changes : List SyncRecord) (response : Except String DeltaResponse)
    (s : DbState) : Except String SyncResult × DbState :=
  match response with
  | .error e => (.error ("Sync failed: " ++ e), s)
  | .ok resp =>
    let pushPart :=
      match resp.push with
      | some push =>
        let m := mark_records_synced local_changes start_time s
        (push.synced, push.conflicts.length, m.1, m.2)
      | none => (0, 0, s, none)
    match pushPart.2.2.2 with
    | some e => (.error e, pushPart.2.2.1)
    | none =>
      let pushed := pushPart.1
      let conflicts := pushPart.2.1
      let s1 := pushPart.2.2.1
      match resp.pull with
      | some pull =>
        let a := apply_remote_changes uid now pull.records s1
        match a.2 with
        | .some e => (.error e, a.1)
        | .none =>
          let s3 := save_checkpoint pull.checkpoint_updated_at pull.checkpoint_id a.1
          (.ok { pushed := pushed, pulled := pull.records.length,
                 conflicts := conflicts, success := true, error := none,
                 synced_at := start_time }, s3)
      | none =>
        (.ok { pushed := pushed, pulled := 0, conflicts := conflicts,
               success := true, error := none, synced_at := start_time }, s1)

end ChamSync

namespace ChamSync

/-! ## Generic facts about the table operations -/

section TableLemmas

variable {ρ : Type} (key : ρ → String)

theorem findRow_deleteRows_self (t : List ρ) (k : String) :
    findRow key (deleteRows key t k) k = none := by
  induction t with
  | nil => rfl
  | cons x xs ih =>
    simp only [deleteRows, findRow] at ih ⊢
    cases hx : (key x == k) with
    | true => simpa [List.filter_cons, hx] using ih
    | false => simpa [List.filter_cons, List.find?_cons, hx] using ih

theorem findRow_deleteRows_ne (t : List ρ) (k k' : String) (h : k ≠ k') :
    findRow key (deleteRows key t k') k = findRow key t k := by
  induction t with
  | nil => rfl
  | cons x xs ih =>
    simp only [deleteRows, findRow] at ih ⊢
    cases hx : (key x == k') with
    | true =>
      have hxk : (key x == k) = false := by
        refine beq_eq_false_iff_ne.mpr (fun hk => h ?_)
        rw [← hk, beq_iff_eq.mp hx]
      simpa [List.filter_cons, List.find?_cons, hx, hxk] using ih
    | false =>
      cases hxk : (key x == k) with
      | true => simp [List.filter_cons, List.find?_cons, hx, hxk]
      | false => simpa [List.filter_cons, List.find?_cons, hx, hxk] using ih

theorem findRow_updateRows_self (t : List ρ) (k : String) (f : ρ → ρ)
    (hf : ∀ x, key (f x) = key x) :
    findRow key (updateRows key t k f) k = (findRow key t k).map f := by
  induction t with
  | nil => rfl
  | cons x xs ih =>
    simp only [updateRows, findRow, List.map_cons] at ih ⊢
    cases hx : (key x == k) with
    | true =>
      have hfx : (key (f x) == k) = true := by rw [hf]; exact hx
      rw [if_pos rfl, List.find?_cons_of_pos (p := fun y => key y == k) _ hfx, List.find?_cons_of_pos (p := fun y => key y == k) _ hx]
      rfl
    | false =>
      rw [if_neg (fun hc => Bool.false_ne_true hc), List.find?_cons_of_neg (p := fun y => key y == k) _ (by simp [hx]),
        List.find?_cons_of_neg (p := fun y => key y == k) _ (by simp [hx])]
      exact ih

theorem findRow_updateRows_ne (t : List ρ) (k k' : String) (f : ρ → ρ)
    (hf : ∀ x, key (f x) = key x) (h : k ≠ k') :
    findRow key (updateRows key t k' f) k = findRow key t k := by
  induction t with
  | nil => rfl
  | cons x xs ih =>
    simp only [updateRows, findRow, List.map_cons] at ih ⊢
    cases hx : (key x == k') with
    | true =>
      have hxk : (key x == k) = false := by
        refine beq_eq_false_iff_ne.mpr (fun hk => h ?_)
        rw [← hk, beq_iff_eq.mp hx]
      have hfx : (key (f x) == k) = false := by rw [hf]; exact hxk
      rw [if_pos rfl, List.find?_cons_of_neg (p := fun y => key y == k) _ (by simp [hfx]),
        List.find?_cons_of_neg (p := fun y => key y == k) _ (by simp [hxk])]
      exact ih
    | false =>
      rw [if_neg (fun hc => Bool.false_ne_true hc)]
      cases hxk : (key x == k) with
      | true => rw [List.find?_cons_of_pos (p := fun y => key y == k) _ hxk, List.find?_cons_of_pos (p := fun y => key y == k) _ hxk]
      | false =>
        rw [List.find?_cons_of_neg (p := fun y => key y == k) _ (by simp [hxk]),
          List.find?_cons_of_neg (p := fun y => key y == k) _ (by simp [hxk])]
        exact ih

end TableLemmas

end ChamSync

namespace ChamSync

/-! ## Structure of the bucket ordering -/

/-- Concatenation of the rank buckets of l over a list of key values. -/
def bucketConcat (rank : String → Nat) (l : List SyncRecord) : List Nat → List SyncRecord
  | [] => []
  | i :: is => (l.filter (fun r => rank r.table_name == i)) ++ bucketConcat rank l is

theorem bucketsBy_eq_bucketConcat (rank : String → Nat) (l : List SyncRecord) :
    bucketsBy rank l = bucketConcat rank l [0, 1, 2, 3, 4, 5, 6, 7, 8, 9, 10] := by
  simp [bucketsBy, bucketConcat]

theorem mem_bucketConcat {rank : String → Nat} {l : List SyncRecord}
    {is : List Nat} {x : SyncRecord} (h : x ∈ bucketConcat rank l is) :
    x ∈ l ∧ rank x.table_name ∈ is := by
  induction is with
  | nil => cases h
  | cons i is ih =>
    rcases List.mem_append.mp h with h1 | h2
    · rcases List.mem_filter.mp h1 with ⟨hl, hr⟩
      exact ⟨hl, by simp at hr; simp [hr]⟩
    · rcases ih h2 with ⟨hl, hr⟩
      exact ⟨hl, List.mem_cons_of_mem _ hr⟩

theorem bucketConcat_pairwise (rank : String → Nat) (l : List SyncRecord)
    (is : List Nat) (his : is.Pairwise (· ≤ ·)) :
    (bucketConcat rank l is).Pairwise
      (fun a b => rank a.table_name ≤ rank b.table_name) := by
  induction is with
  | nil => exact List.Pairwise.nil
  | cons i is ih =>
    rcases List.pairwise_cons.mp his with ⟨hhead, htail⟩
    refine List.pairwise_append.mpr ⟨?_, ih htail, ?_⟩
    · refine List.pairwise_of_forall_mem_list (fun a ha b hb => ?_)
      have h1 : rank a.table_name = i := by simpa using (List.mem_filter.mp ha).2
      have h2 : rank b.table_name = i := by simpa using (List.mem_filter.mp hb).2
      rw [h1, h2]
    · intro a ha b hb
      have h1 : rank a.table_name = i := by simpa using (List.mem_filter.mp ha).2
      have h2 : rank b.table_name ∈ is := (mem_bucketConcat hb).2
      rw [h1]
      exact hhead _ h2

theorem mem_of_mem_bucketsBy {rank : String → Nat} {l : List SyncRecord}
    {x : SyncRecord} (h : x ∈ bucketsBy rank l) : x ∈ l := by
  rw [bucketsBy_eq_bucketConcat] at h
  exact (mem_bucketConcat h).1

theorem mem_of_mem_sortNonDeleted {l : List SyncRecord} {x : SyncRecord}
    (h : x ∈ sortNonDeleted l) : x ∈ l ∧ x.deleted = false := by
  have h1 := mem_of_mem_bucketsBy h
  rcases List.mem_filter.mp h1 with ⟨hl, hr⟩
  exact ⟨hl, by simpa using hr⟩

theorem mem_of_mem_sortDeleted {l : List SyncRecord} {x : SyncRecord}
    (h : x ∈ sortDeleted l) : x ∈ l ∧ x.deleted = true := by
  have h1 := mem_of_mem_bucketsBy h
  rcases List.mem_filter.mp h1 with ⟨hl, hr⟩
  exact ⟨hl, by simpa using hr⟩

/-- The snake_case schema tables the apply/mark SQL can touch. -/
def DB_TABLES : List String :=
  ["collections", "vocabularies", "word_progress", "learning_settings",
   "practice_sessions", "practice_progress", "user_learning_languages",
   "topics", "tags", "collection_shared_users"]

theorem sync_to_db_mem_db_tables : ∀ n ∈ SYNCED_TABLES, sync_to_db n ∈ DB_TABLES := by
  decide

/-- The empty local store. -/
def emptyState : DbState :=
  { collections := [], vocabularies := [], word_progress := [],
    learning_settings := [], practice_sessions := [], practice_progress := [],
    user_learning_languages := [], topics := [], tags := [],
    collection_shared_users := [], sync_checkpoint := [] }

end ChamSync

namespace ChamSync

/-! ## Claim C9 -/

/-- C9: get_checkpoint returns a checkpoint exactly when both the
updated_at and the id key are present in the sync_checkpoint table; with
only one of the two present it returns none, i.e. a partially written
checkpoint counts as no checkpoint. -/
theorem get_checkpoint_requires_both_keys (t : List (String × String)) :
    (get_checkpoint t).isSome =
      ((t.find? (fun p => p.1 == "updated_at")).isSome &&
       (t.find? (fun p => p.1 == "id")).isSome) := by
  unfold get_checkpoint
  cases t.find? (fun p => p.1 == "updated_at") <;>
    cases t.find? (fun p => p.1 == "id") <;> rfl

/-! ## Claim C6 -/

/-- C6: when the single delta round trip fails, sync_now surfaces the
transport error and the local store is returned unchanged: nothing is
marked synced, nothing is purged, and the stored checkpoint is not
modified. -/
theorem sync_now_transport_error_leaves_state (uid : Option String)
    (start_time now : Int) (local_changes : List SyncRecord) (e : String)
    (s : DbState) :
    sync_now uid start_time now local_changes (Except.error e) s =
      (Except.error ("Sync failed: " ++ e), s) := rfl

/-! ## Claim C2 -/

/-- A deleted tags record and a deleted topics record, as a pull response
could deliver them. -/
def c2TagDel : SyncRecord :=
  { table_name := "tags", row_id := "tag-1", data := Json.obj [],
    version := 1, deleted := true }

/-- Companion topics record for the C2 counterexample. -/
def c2TopicDel : SyncRecord :=
  { table_name := "topics", row_id := "topic-1", data := Json.obj [],
    version := 1, deleted := true }

/-- C2 counterexample: topics has the strictly smaller non-deleted rank,
so the claimed exact-reverse order would apply the tags record first;
the code applies the topics record first (deletedRank topics = 8 <
9 = deletedRank tags). -/
theorem deleted_order_not_exact_reverse :
    nonDeletedRank c2TopicDel.table_name < nonDeletedRank c2TagDel.table_name ∧
    sortDeleted [c2TagDel, c2TopicDel] = [c2TopicDel, c2TagDel] := by
  exact ⟨by decide, rfl⟩

/-- C2 amended: the deleted records are applied in nondecreasing order of
the fixed child-first delete rank of the code (practiceProgress,
practiceSessions, wordProgress, collectionSharedUsers, vocabularies,
userLearningLanguages, collections, learningSettings, topics, tags,
unknown), which is not the exact reverse of the non-deleted rank. -/
theorem deleted_order_sorted_by_delete_rank (records : List SyncRecord) :
    (sortDeleted records).Pairwise
      (fun a b => deletedRank a.table_name ≤ deletedRank b.table_name) := by
  unfold sortDeleted
  rw [bucketsBy_eq_bucketConcat]
  exact bucketConcat_pairwise _ _ _ (by decide)

/-! ## Claim C1 -/

/-- A dirty, non-deleted topics row. -/
def c1TopicRow : TopicRow :=
  { id := "topic-7", name := "animals", created_at := 5, sync_version := 1,
    synced_at := none, deleted := false }

/-- A store whose only pending change is the dirty topics row. -/
def c1State : DbState := { emptyState with topics := [c1TopicRow] }

/-- C1 (evaluation at the failing input): the store holds a dirty,
non-deleted topics row, yet collect_local_changes emits no record at all
for it — the trailing TODO of collect_local_changes never collects dirty
rows of practiceProgress, userLearningLanguages, topics, tags or
collectionSharedUsers, contradicting the spec requirement that every
synced table contributes its dirty rows. -/
theorem collect_omits_dirty_secondary_tables :
    (c1TopicRow ∈ c1State.topics ∧ c1TopicRow.synced_at = none ∧
      c1TopicRow.deleted = false) ∧
    collect_local_changes none 0 c1State = [] := by
  exact ⟨⟨List.mem_singleton.mpr rfl, rfl, rfl⟩, rfl⟩

/-! ## Claim C4, counterexample -/

/-- A pulled vocabularies record whose payload is missing collectionId
(empty object). -/
def c4VocabRec : SyncRecord :=
  { table_name := "vocabularies", row_id := "vocab-1", data := Json.obj [],
    version := 1, deleted := false }

/-- C4 counterexample: a single missing field of one record makes
apply_remote_changes return an error, aborting the batch, contrary to
the claim that decoding never fails a record. -/
theorem apply_fails_on_missing_collection_id :
    (apply_remote_changes none 0 [c4VocabRec] emptyState).2 =
      some "Missing collectionId" := rfl

end ChamSync

namespace ChamSync

/-! ## Claim C4, amended -/

theorem hard_delete_record_isSome (tb id : String) (s : DbState)
    (h : tb ∈ DB_TABLES) : (hard_delete_record tb id s).isSome = true := by
  fin_cases h <;> rfl

theorem ndFold_err_none (uid : Option String) (now : Int) :
    ∀ (l : List SyncRecord) (acc : ApplyAcc),
      (∀ r ∈ l, r.table_name = "vocabularies" →
        ((r.data.getField "collectionId").asStr).isSome = true) →
      acc.err = none → (l.foldl (applyNdStep uid now) acc).err = none := by
  intro l
  induction l with
  | nil => intro acc _ h; simpa using h
  | cons r l ih =>
    intro acc hall hacc
    rw [List.foldl_cons]
    refine ih _ (fun x hx => hall x (List.mem_cons_of_mem _ hx)) ?_
    obtain ⟨st, aff, err⟩ := acc
    have herr : err = none := hacc
    subst herr
    unfold applyNdStep
    split
    case _ heq => exact absurd heq (by simp)
    split
    all_goals try rfl
    rename_i htn
    have hsome := hall r (List.mem_cons_self _ _) htn
    rcases Option.isSome_iff_exists.mp hsome with ⟨cid, hcid⟩
    unfold apply_vocabulary_change
    rw [hcid]

theorem delFold_err_none :
    ∀ (l : List SyncRecord) (acc : ApplyAcc),
      (∀ r ∈ l, r.table_name ∈ SYNCED_TABLES) →
      acc.err = none → (l.foldl applyDelStep acc).err = none := by
  intro l
  induction l with
  | nil => intro acc _ h; simpa using h
  | cons r l ih =>
    intro acc hall hacc
    rw [List.foldl_cons]
    refine ih _ (fun x hx => hall x (List.mem_cons_of_mem _ hx)) ?_
    obtain ⟨st, aff, err⟩ := acc
    have herr : err = none := hacc
    subst herr
    have hdb : sync_to_db r.table_name ∈ DB_TABLES :=
      sync_to_db_mem_db_tables _ (hall r (List.mem_cons_self _ _))
    have hsome := hard_delete_record_isSome (sync_to_db r.table_name) r.row_id st hdb
    rcases Option.isSome_iff_exists.mp hsome with ⟨st2, hst⟩
    unfold applyDelStep
    dsimp only
    rw [hst]
    dsimp only
    split <;> rfl

end ChamSync

namespace ChamSync

/-- C4 amended: payload decoding is lenient — every missing or mistyped
field resolves to a default — except the collectionId of a non-deleted
vocabularies record, whose absence errors the record and aborts the
batch.  The no-error statement proved here is confined to batches whose
non-deleted records target collections, vocabularies, learningSettings
or practiceSessions: the apply statements of those tables can only
conflict on id, whereas the six remaining tables carry secondary UNIQUE
constraints in init_schema (topics.name, tags.name,
user_learning_languages.language, practice_progress.language,
word_progress(language, vocabulary_id),
collection_shared_users(collection_id, user_id)) that ON CONFLICT(id)
does not cover — a further real error source, beyond decoding, that the
table models do not track.  Deleted records only need to name synced
tables: a DELETE violates no UNIQUE constraint. -/
theorem apply_no_error_on_id_conflict_tables
    (uid : Option String) (now : Int) (records : List SyncRecord) (s : DbState)
    (htbl : ∀ r ∈ records, r.deleted = false → r.table_name ∈
      ["collections", "vocabularies", "learningSettings", "practiceSessions"])
    (hvocab : ∀ r ∈ records, r.deleted = false → r.table_name = "vocabularies" →
      ((r.data.getField "collectionId").asStr).isSome = true)
    (hdel : ∀ r ∈ records, r.deleted = true → r.table_name ∈ SYNCED_TABLES) :
    (apply_remote_changes uid now records s).2 = none := by
  have ha1 : (List.foldl (applyNdStep uid now) ⟨s, [], none⟩
      (sortNonDeleted records)).err = none := by
    refine ndFold_err_none uid now _ _ (fun r hr htn => ?_) rfl
    rcases mem_of_mem_sortNonDeleted hr with ⟨hmem, hnd⟩
    exact hvocab r hmem hnd htn
  have ha2 : (List.foldl applyDelStep
      (List.foldl (applyNdStep uid now) ⟨s, [], none⟩ (sortNonDeleted records))
      (sortDeleted records)).err = none := by
    refine delFold_err_none _ _ (fun r hr => ?_) ha1
    rcases mem_of_mem_sortDeleted hr with ⟨hmem, hd⟩
    exact hdel r hmem hd
  unfold apply_remote_changes
  simp only [ha1, ha2]

/-- A learningSettings record with a sparse payload (C4 witness data):
its table's apply statement can only conflict on id. -/
def c4LsOk : SyncRecord :=
  { table_name := "learningSettings", row_id := "ls-9", data := Json.obj [],
    version := 1, deleted := false }

/-- A deleted collections record (C4 witness data). -/
def c4CollDel : SyncRecord :=
  { table_name := "collections", row_id := "coll-9", data := Json.obj [],
    version := 2, deleted := true }

/-- C4 amended, witness: a concrete batch satisfying the hypotheses is
applied without error. -/
theorem apply_no_error_on_id_conflict_tables_witness :
    (∀ r ∈ [c4LsOk, c4CollDel], r.deleted = false → r.table_name ∈
      ["collections", "vocabularies", "learningSettings", "practiceSessions"]) ∧
    (∀ r ∈ [c4LsOk, c4CollDel], r.deleted = false →
      r.table_name = "vocabularies" →
      ((r.data.getField "collectionId").asStr).isSome = true) ∧
    (∀ r ∈ [c4LsOk, c4CollDel], r.deleted = true →
      r.table_name ∈ SYNCED_TABLES) ∧
    (apply_remote_changes none 0 [c4LsOk, c4CollDel] emptyState).2 = none :=
  ⟨by decide, by decide, by decide,
    apply_no_error_on_id_conflict_tables none 0 [c4LsOk, c4CollDel] emptyState
      (by decide) (by decide) (by decide)⟩

end ChamSync

namespace ChamSync

/-! ## Claim C8 -/

/-- C8: collect_local_changes never emits a non-deleted collections
record for a collection whose shared_by is set: every non-deleted
collections record of the outbound batch stems from a stored collection
row with shared_by NULL (and synced_at NULL, deleted 0) — the exclusion
is part of the collector's selection predicate. -/
theorem collector_excludes_shared_collections
    (uid : Option String) (now : Int) (s : DbState) (r : SyncRecord)
    (hr : r ∈ collect_local_changes uid now s)
    (htable : r.table_name = "collections") (hdel : r.deleted = false) :
    ∃ c ∈ s.collections, c.id = r.row_id ∧ c.shared_by = none ∧
      c.synced_at = none ∧ c.deleted = false := by
  unfold collect_local_changes at hr
  simp only [List.append_assoc] at hr
  rcases List.mem_append.mp hr with h | h
  · -- the soft-deleted scan only emits deleted=true records
    exfalso
    rcases List.mem_flatten.mp h with ⟨lst, hlst, hrl⟩
    rcases List.mem_map.mp hlst with ⟨n, _, rfl⟩
    rcases List.mem_map.mp hrl with ⟨p, _, rfl⟩
    simp at hdel
  rcases List.mem_append.mp h with h | h
  · -- the collections segment
    rcases List.mem_map.mp h with ⟨c, hc, rfl⟩
    rcases List.mem_filter.mp hc with ⟨hc1, hc2⟩
    rcases List.mem_filter.mp hc1 with ⟨hc3, hc4⟩
    have hc2' : c.synced_at.isNone = true ∧ c.shared_by.isNone = true := by
      simpa using hc2
    refine ⟨c, hc3, rfl, ?_, ?_, ?_⟩
    · simpa [Option.isNone_iff_eq_none] using hc2'.2
    · simpa [Option.isNone_iff_eq_none] using hc2'.1
    · simpa using hc4
  rcases List.mem_append.mp h with h | h
  · exfalso
    rcases List.mem_map.mp h with ⟨v, _, rfl⟩
    simp [vocabulary_to_sync_record] at htable
  rcases List.mem_append.mp h with h | h
  · exfalso
    rcases List.mem_map.mp h with ⟨w, _, rfl⟩
    simp [word_progress_to_sync_record] at htable
  rcases List.mem_append.mp h with h | h
  · exfalso
    revert h
    cases h1 : get_learning_settings s with
    | none => intro h; cases h
    | some st3 =>
      intro h
      dsimp only at h
      by_cases h2 : st3.synced_at.isNone = true
      · rw [if_pos h2] at h
        have := List.mem_singleton.mp h
        subst this
        simp [learning_settings_to_sync_record] at htable
      · rw [if_neg h2] at h
        cases h
  · exfalso
    rcases List.mem_map.mp h with ⟨w, _, rfl⟩
    simp [practice_session_to_sync_record] at htable

end ChamSync

namespace ChamSync

/-- A collection shared by another user, still dirty locally. -/
def c8SharedColl : CollectionRow :=
  { id := "coll-shared", name := "from a friend", description := "",
    language := "en", shared_by := some "user-2", is_public := false,
    word_count := 0, created_at := 1, updated_at := 1, sync_version := 1,
    synced_at := none, deleted := false }

/-- An owned dirty collection. -/
def c8OwnColl : CollectionRow :=
  { id := "coll-own", name := "mine", description := "", language := "en",
    shared_by := none, is_public := false, word_count := 0, created_at := 1,
    updated_at := 1, sync_version := 1, synced_at := none, deleted := false }

/-- Store with one shared and one owned dirty collection. -/
def c8State : DbState := { emptyState with collections := [c8SharedColl, c8OwnColl] }

/-- C8 witness: on a store holding a shared dirty collection and an owned
dirty one, the single emitted collections record resolves to the owned,
unshared collection. -/
theorem collector_excludes_shared_collections_witness :
    ∃ c ∈ c8State.collections,
      c.id = (collection_to_sync_record none c8OwnColl).row_id ∧
      c.shared_by = none ∧ c.synced_at = none ∧ c.deleted = false := by
  refine collector_excludes_shared_collections none 0 c8State
    (collection_to_sync_record none c8OwnColl) ?_ rfl rfl
  rw [show collect_local_changes none 0 c8State =
    [collection_to_sync_record none c8OwnColl] from rfl]
  exact List.mem_singleton.mpr rfl

/-! ## Claim C5 -/

/-- Uniform view of the sync bookkeeping of one row: its synced_at and
sync_version, by schema table name and id. -/
def rowSyncMeta (s : DbState) (tb id : String) : Option (Option Int × Int) :=
  match tb with
  | "collections" => (findRow CollectionRow.id s.collections id).map (fun x => (x.synced_at, x.sync_version))
  | "vocabularies" => (findRow VocabularyRow.id s.vocabularies id).map (fun x => (x.synced_at, x.sync_version))
  | "word_progress" => (findRow WordProgressRow.id s.word_progress id).map (fun x => (x.synced_at, x.sync_version))
  | "learning_settings" => (findRow LearningSettingsRow.id s.learning_settings id).map (fun x => (x.synced_at, x.sync_version))
  | "practice_sessions" => (findRow PracticeSessionRow.id s.practice_sessions id).map (fun x => (x.synced_at, x.sync_version))
  | "practice_progress" => (findRow PracticeProgressRow.id s.practice_progress id).map (fun x => (x.synced_at, x.sync_version))
  | "user_learning_languages" => (findRow UserLearningLanguageRow.id s.user_learning_languages id).map (fun x => (x.synced_at, x.sync_version))
  | "topics" => (findRow TopicRow.id s.topics id).map (fun x => (x.synced_at, x.sync_version))
  | "tags" => (findRow TagRow.id s.tags id).map (fun x => (x.synced_at, x.sync_version))
  | "collection_shared_users" => (findRow CsuRow.id s.collection_shared_users id).map (fun x => (x.synced_at, x.sync_version))
  | _ => none

theorem markNonDeleted_spec (tb id : String) (t : Int) (s : DbState)
    (h : tb ∈ DB_TABLES) :
    ∃ s2, markNonDeleted tb id t s = some s2 ∧
      rowSyncMeta s2 tb id =
        (rowSyncMeta s tb id).map (fun p => (some t, p.2 + 1)) ∧
      ∀ tb2 id2, ¬(tb2 = tb ∧ id2 = id) →
        rowSyncMeta s2 tb2 id2 = rowSyncMeta s tb2 id2 := by
  fin_cases h <;>
  · refine ⟨_, rfl, ?_, ?_⟩
    · simp only [rowSyncMeta, markNonDeleted]
      rw [findRow_updateRows_self _ _ _ _ (by intro x; rfl)]
      cases findRow _ _ _ <;> rfl
    · intro tb2 id2 hne
      unfold rowSyncMeta
      split <;>
        first
          | rfl
          | (rw [findRow_updateRows_ne _ _ _ _ _ (by intro x; rfl)
              (fun hh => hne ⟨rfl, hh⟩)])

theorem hard_delete_record_spec (tb id : String) (s : DbState)
    (h : tb ∈ DB_TABLES) :
    ∃ s2, hard_delete_record tb id s = some s2 ∧
      rowSyncMeta s2 tb id = none ∧
      ∀ tb2 id2, ¬(tb2 = tb ∧ id2 = id) →
        rowSyncMeta s2 tb2 id2 = rowSyncMeta s tb2 id2 := by
  fin_cases h <;>
  · refine ⟨_, rfl, ?_, ?_⟩
    · simp only [rowSyncMeta, hard_delete_record]
      rw [findRow_deleteRows_self]
      rfl
    · intro tb2 id2 hne
      unfold rowSyncMeta
      split <;>
        first
          | rfl
          | (rw [findRow_deleteRows_ne _ _ _ _ (fun hh => hne ⟨rfl, hh⟩)])

end ChamSync

namespace ChamSync

theorem markNonDeleted_isSome (tb id : String) (t : Int) (s : DbState)
    (h : tb ∈ DB_TABLES) : (markNonDeleted tb id t s).isSome = true := by
  fin_cases h <;> rfl

theorem markFold_err_none (t : Int) :
    ∀ (l : List SyncRecord) (acc : DbState × Option String),
      (∀ x ∈ l, x.table_name ∈ SYNCED_TABLES) → acc.2 = none →
      (l.foldl (markStep t) acc).2 = none := by
  intro l
  induction l with
  | nil => intro acc _ h; simpa using h
  | cons x l ih =>
    intro acc hall hacc
    rw [List.foldl_cons]
    refine ih _ (fun y hy => hall y (List.mem_cons_of_mem _ hy)) ?_
    obtain ⟨st, err⟩ := acc
    have herr : err = none := hacc
    subst herr
    have hdb := sync_to_db_mem_db_tables _ (hall x (List.mem_cons_self _ _))
    unfold markStep
    dsimp only
    by_cases hd : x.deleted = true
    · rw [if_pos hd]
      rcases Option.isSome_iff_exists.mp
        (hard_delete_record_isSome (sync_to_db x.table_name) x.row_id st hdb)
        with ⟨s2, heq⟩
      rw [heq]
    · rw [if_neg hd]
      rcases Option.isSome_iff_exists.mp
        (markNonDeleted_isSome (sync_to_db x.table_name) x.row_id t st hdb)
        with ⟨s2, heq⟩
      rw [heq]

theorem markStep_other (t : Int) (acc : DbState × Option String)
    (x : SyncRecord) (hx : x.table_name ∈ SYNCED_TABLES) (hacc : acc.2 = none)
    (tb2 id2 : String)
    (hne : ¬(tb2 = sync_to_db x.table_name ∧ id2 = x.row_id)) :
    (markStep t acc x).2 = none ∧
    rowSyncMeta (markStep t acc x).1 tb2 id2 = rowSyncMeta acc.1 tb2 id2 := by
  obtain ⟨st, err⟩ := acc
  have herr : err = none := hacc
  subst herr
  have hdb := sync_to_db_mem_db_tables _ hx
  unfold markStep
  dsimp only
  by_cases hd : x.deleted = true
  · rw [if_pos hd]
    rcases hard_delete_record_spec (sync_to_db x.table_name) x.row_id st hdb with
      ⟨s2, heq, _, hpres⟩
    rw [heq]
    exact ⟨rfl, hpres tb2 id2 hne⟩
  · rw [if_neg hd]
    rcases markNonDeleted_spec (sync_to_db x.table_name) x.row_id t st hdb with
      ⟨s2, heq, _, hpres⟩
    rw [heq]
    exact ⟨rfl, hpres tb2 id2 hne⟩

theorem markStep_self (t : Int) (acc : DbState × Option String)
    (r : SyncRecord) (hr : r.table_name ∈ SYNCED_TABLES) (hacc : acc.2 = none) :
    (markStep t acc r).2 = none ∧
    (r.deleted = true →
      rowSyncMeta (markStep t acc r).1 (sync_to_db r.table_name) r.row_id = none) ∧
    (r.deleted = false →
      rowSyncMeta (markStep t acc r).1 (sync_to_db r.table_name) r.row_id =
        (rowSyncMeta acc.1 (sync_to_db r.table_name) r.row_id).map
          (fun p => (some t, p.2 + 1))) := by
  obtain ⟨st, err⟩ := acc
  have herr : err = none := hacc
  subst herr
  have hdb := sync_to_db_mem_db_tables _ hr
  unfold markStep
  dsimp only
  by_cases hd : r.deleted = true
  · rw [if_pos hd]
    rcases hard_delete_record_spec (sync_to_db r.table_name) r.row_id st hdb with
      ⟨s2, heq, hself, _⟩
    rw [heq]
    exact ⟨rfl, fun _ => hself, fun hnd => absurd hd (by simp [hnd])⟩
  · rw [if_neg hd]
    rcases markNonDeleted_spec (sync_to_db r.table_name) r.row_id t st hdb with
      ⟨s2, heq, hself, _⟩
    rw [heq]
    exact ⟨rfl, fun hdel => absurd hdel hd, fun _ => hself⟩

theorem markFold_preserve (t : Int) :
    ∀ (l : List SyncRecord) (acc : DbState × Option String),
      (∀ x ∈ l, x.table_name ∈ SYNCED_TABLES) → acc.2 = none →
      ∀ tb2 id2 : String,
        (∀ x ∈ l, ¬(tb2 = sync_to_db x.table_name ∧ id2 = x.row_id)) →
        (l.foldl (markStep t) acc).2 = none ∧
        rowSyncMeta (l.foldl (markStep t) acc).1 tb2 id2 =
          rowSyncMeta acc.1 tb2 id2 := by
  intro l
  induction l with
  | nil => intro acc _ hacc tb2 id2 _; exact ⟨hacc, rfl⟩
  | cons x l ih =>
    intro acc hall hacc tb2 id2 hne
    rw [List.foldl_cons]
    have hstep := markStep_other t acc x (hall x (List.mem_cons_self _ _)) hacc
      tb2 id2 (hne x (List.mem_cons_self _ _))
    have := ih (markStep t acc x) (fun y hy => hall y (List.mem_cons_of_mem _ hy))
      hstep.1 tb2 id2 (fun y hy => hne y (List.mem_cons_of_mem _ hy))
    exact ⟨this.1, this.2.trans hstep.2⟩

/-- C5: after a push acknowledgement, mark_records_synced processes every
record of the outbound batch: a non-deleted record's row gets synced_at
set to the pass timestamp and sync_version incremented by one (when the
row does not exist the UPDATE is a no-op, captured by the Option.map),
and a deleted record's row is physically removed from its table. -/
theorem mark_records_synced_marks_each_record
    (records : List SyncRecord) (t : Int) (s : DbState) (r : SyncRecord)
    (hr : r ∈ records)
    (hnd : (records.map (fun x => (sync_to_db x.table_name, x.row_id))).Nodup)
    (htb : ∀ x ∈ records, x.table_name ∈ SYNCED_TABLES) :
    (r.deleted = true →
      rowSyncMeta (mark_records_synced records t s).1
        (sync_to_db r.table_name) r.row_id = none) ∧
    (r.deleted = false →
      rowSyncMeta (mark_records_synced records t s).1
        (sync_to_db r.table_name) r.row_id =
        (rowSyncMeta s (sync_to_db r.table_name) r.row_id).map
          (fun p => (some t, p.2 + 1))) := by
  obtain ⟨l1, l2, rfl⟩ := List.append_of_mem hr
  have hnd2 := hnd
  rw [List.map_append, List.map_cons] at hnd2
  have hdisj := List.disjoint_of_nodup_append hnd2
  have hKl1 : ∀ x ∈ l1,
      ¬(sync_to_db r.table_name = sync_to_db x.table_name ∧
        r.row_id = x.row_id) := by
    intro x hx ⟨h1, h2⟩
    exact hdisj (List.mem_map.mpr ⟨x, hx, by rw [h1, h2]⟩)
      (List.mem_cons_self _ _)
  have hKl2 : ∀ x ∈ l2,
      ¬(sync_to_db r.table_name = sync_to_db x.table_name ∧
        r.row_id = x.row_id) := by
    have hcons := (List.Nodup.of_append_right hnd2)
    rcases List.nodup_cons.mp hcons with ⟨hnotmem, _⟩
    intro x hx ⟨h1, h2⟩
    exact hnotmem (List.mem_map.mpr ⟨x, hx, by rw [h1, h2]⟩)
  have htb1 : ∀ x ∈ l1, x.table_name ∈ SYNCED_TABLES := fun x hx =>
    htb x (List.mem_append.mpr (Or.inl hx))
  have htbr : r.table_name ∈ SYNCED_TABLES :=
    htb r (List.mem_append.mpr (Or.inr (List.mem_cons_self _ _)))
  have htb2 : ∀ x ∈ l2, x.table_name ∈ SYNCED_TABLES := fun x hx =>
    htb x (List.mem_append.mpr (Or.inr (List.mem_cons_of_mem _ hx)))
  unfold mark_records_synced
  rw [List.foldl_append, List.foldl_cons]
  have hfold1 := markFold_preserve t l1 (s, none) htb1 rfl
    (sync_to_db r.table_name) r.row_id hKl1
  have hstep := markStep_self t _ r htbr hfold1.1
  have hfold2 := markFold_preserve t l2 _ htb2 hstep.1
    (sync_to_db r.table_name) r.row_id hKl2
  refine ⟨fun hd => ?_, fun hnd3 => ?_⟩
  · rw [hfold2.2]
    exact hstep.2.1 hd
  · rw [hfold2.2, hstep.2.2 hnd3, hfold1.2]

end ChamSync

namespace ChamSync

/-- Dirty topics row for the C5 witness. -/
def c5TopicRow : TopicRow :=
  { id := "t5", name := "food", created_at := 0, sync_version := 3,
    synced_at := none, deleted := false }

/-- Soft-deleted tags row for the C5 witness. -/
def c5TagRow : TagRow :=
  { id := "g5", name := "old", created_at := 0, sync_version := 2,
    synced_at := none, deleted := true }

/-- Store for the C5 witness. -/
def c5State : DbState :=
  { emptyState with topics := [c5TopicRow], tags := [c5TagRow] }

/-- Outbound record of the dirty topics row. -/
def c5TopicRec : SyncRecord :=
  { table_name := "topics", row_id := "t5", data := Json.obj [],
    version := 3, deleted := false }

/-- Outbound tombstone of the tags row. -/
def c5TagRec : SyncRecord :=
  { table_name := "tags", row_id := "g5", data := Json.obj [],
    version := 2, deleted := true }

/-- C5 witness: marking a concrete two-record batch sets synced_at and
bumps sync_version on the non-deleted row. -/
theorem mark_records_synced_marks_each_record_witness :
    (c5TopicRec ∈ [c5TagRec, c5TopicRec]) ∧
    (([c5TagRec, c5TopicRec].map
      (fun x => (sync_to_db x.table_name, x.row_id))).Nodup) ∧
    (∀ x ∈ [c5TagRec, c5TopicRec], x.table_name ∈ SYNCED_TABLES) ∧
    ((c5TopicRec.deleted = true →
      rowSyncMeta (mark_records_synced [c5TagRec, c5TopicRec] 77 c5State).1
        (sync_to_db c5TopicRec.table_name) c5TopicRec.row_id = none) ∧
    (c5TopicRec.deleted = false →
      rowSyncMeta (mark_records_synced [c5TagRec, c5TopicRec] 77 c5State).1
        (sync_to_db c5TopicRec.table_name) c5TopicRec.row_id =
        (rowSyncMeta c5State (sync_to_db c5TopicRec.table_name)
          c5TopicRec.row_id).map (fun p => (some 77, p.2 + 1)))) :=
  ⟨List.mem_cons_of_mem _ (List.mem_singleton.mpr rfl), by decide, by decide,
    mark_records_synced_marks_each_record [c5TagRec, c5TopicRec] 77 c5State
      c5TopicRec (List.mem_cons_of_mem _ (List.mem_singleton.mpr rfl))
      (by decide) (by decide)⟩

/-! ## Claim C10 -/

/-- C10: when the delta response contains a push part, sync_now runs
mark_records_synced over the whole outbound batch, including records
whose row_id the authority reported as a conflict: a conflicted
non-deleted record still gets synced_at set and sync_version bumped, and
a conflicted delete is still purged. -/
theorem conflicted_records_still_marked
    (uid : Option String) (start_time now : Int)
    (local_changes : List SyncRecord) (s : DbState) (n : Nat)
    (conflicts : List String) (r : SyncRecord)
    (hr : r ∈ local_changes)
    (hconf : r.row_id ∈ conflicts)
    (hnd : (local_changes.map
      (fun x => (sync_to_db x.table_name, x.row_id))).Nodup)
    (htb : ∀ x ∈ local_changes, x.table_name ∈ SYNCED_TABLES) :
    (sync_now uid start_time now local_changes
        (Except.ok ⟨some ⟨n, conflicts⟩, none⟩) s).2 =
      (mark_records_synced local_changes start_time s).1 ∧
    (r.deleted = true →
      rowSyncMeta (sync_now uid start_time now local_changes
          (Except.ok ⟨some ⟨n, conflicts⟩, none⟩) s).2
        (sync_to_db r.table_name) r.row_id = none) ∧
    (r.deleted = false →
      rowSyncMeta (sync_now uid start_time now local_changes
          (Except.ok ⟨some ⟨n, conflicts⟩, none⟩) s).2
        (sync_to_db r.table_name) r.row_id =
        (rowSyncMeta s (sync_to_db r.table_name) r.row_id).map
          (fun p => (some start_time, p.2 + 1))) := by
  have herr : (mark_records_synced local_changes start_time s).2 = none := by
    unfold mark_records_synced
    exact markFold_err_none start_time local_changes (s, none) htb rfl
  have hstate : (sync_now uid start_time now local_changes
      (Except.ok ⟨some ⟨n, conflicts⟩, none⟩) s).2 =
      (mark_records_synced local_changes start_time s).1 := by
    unfold sync_now
    dsimp only
    rw [herr]
  have hmark := mark_records_synced_marks_each_record local_changes start_time
    s r hr hnd htb
  refine ⟨hstate, fun hd => ?_, fun hnd2 => ?_⟩
  · rw [hstate]; exact hmark.1 hd
  · rw [hstate]; exact hmark.2 hnd2

end ChamSync

namespace ChamSync

/-! ## Closed form of the word-count recomputation -/

theorem mem_insertAffected_self (y : String) (l : List String) :
    y ∈ insertAffected y l := by
  unfold insertAffected
  by_cases h : y ∈ l
  · rw [if_pos h]; exact h
  · rw [if_neg h]; simp

theorem mem_insertAffected_of_mem (x y : String) (l : List String)
    (h : x ∈ l) : x ∈ insertAffected y l := by
  unfold insertAffected
  by_cases hy : y ∈ l
  · rw [if_pos hy]; exact h
  · rw [if_neg hy]; exact List.mem_append.mpr (Or.inl h)

/-- One row of the conditional map that recomputeAffected amounts to. -/
def recompRow (V : List VocabularyRow) (aff : List String) (now : Int)
    (c : CollectionRow) : CollectionRow :=
  if c.id ∈ aff then
    { c with word_count := countVocab V c.id, updated_at := now }
  else c

theorem recompRow_id (V : List VocabularyRow) (aff : List String) (now : Int)
    (c : CollectionRow) : (recompRow V aff now c).id = c.id := by
  unfold recompRow
  split <;> rfl

/-- The recomputation loop, as one conditional map over the collections
table: every iteration reads exactly the same vocabularies table (the
loop never writes it), so iterations for distinct ids touch disjoint
rows and repeated iterations for one id write identical values. -/
theorem recomputeAffected_eq (aff : List String) :
    ∀ (now : Int) (st : DbState),
    recomputeAffected aff now st =
      { st with collections := st.collections.map (recompRow st.vocabularies aff now) } := by
  induction aff with
  | nil =>
    intro now st
    show st = _
    have : st.collections.map (recompRow st.vocabularies [] now) =
        st.collections.map (fun c => c) :=
      List.map_congr_left (fun c _ => by rw [recompRow, if_neg (by simp)])
    rw [this, List.map_id']
  | cons a aff ih =>
    intro now st
    show recomputeAffected aff now (update_collection_word_count now a st) = _
    rw [ih]
    show ({ st with collections := ((updateRows CollectionRow.id st.collections a _).map _) } : DbState) = _
    congr 1
    unfold updateRows
    rw [List.map_map]
    refine List.map_congr_left (fun c _ => ?_)
    by_cases h1 : c.id = a
    · rw [← h1] at *
      simp only [Function.comp_apply,
        if_pos (show (CollectionRow.id c == c.id) = true by simp [CollectionRow.id])]
      unfold recompRow
      by_cases h2 : c.id ∈ aff
      · rw [if_pos h2, if_pos (List.mem_cons_self _ _)] <;> try rfl
      · rw [if_neg (by simpa using h2), if_pos (List.mem_cons_self _ _)] <;> try rfl
    · simp only [Function.comp_apply,
        if_neg (show ¬((CollectionRow.id c == a) = true) by simp [CollectionRow.id, h1])]
      unfold recompRow
      by_cases h2 : c.id ∈ aff
      · rw [if_pos h2, if_pos (List.mem_cons_of_mem _ h2)] <;> try rfl
      · rw [if_neg h2, if_neg (by simp [h1, h2])] <;> try rfl

end ChamSync

namespace ChamSync

/-- Evaluation of one non-deleted vocabularies record in the apply loop:
the table is upserted by row_id and the affected set gains the payload
collection id and, when the row already existed, its previous collection
id. -/
theorem applyNdStep_vocab (uid : Option String) (now : Int) (st : DbState)
    (aff : List String) (r : SyncRecord) (cid : String)
    (htn : r.table_name = "vocabularies")
    (hcid : (r.data.getField "collectionId").asStr = some cid) :
    applyNdStep uid now ⟨st, aff, none⟩ r =
      ⟨{ st with vocabularies := (upsertRow VocabularyRow.id st.vocabularies r.row_id
          (vocabUpd now r cid (vocabBase now r)) (vocabUpd now r cid)) },
        (match (findRow VocabularyRow.id st.vocabularies r.row_id).map
            (fun v => v.collection_id) with
         | some ocid => insertAffected ocid (insertAffected cid aff)
         | none => insertAffected cid aff),
        none⟩ := by
  obtain ⟨tn, rid, data, ver, del⟩ := r
  have htn2 : tn = "vocabularies" := htn
  subst htn2
  simp only [applyNdStep]
  unfold apply_vocabulary_change
  simp only at hcid
  rw [hcid]

/-- C7: a pulled non-deleted vocabularies record that moves an existing
vocabulary from collection A to collection B leaves, after
apply_remote_changes, both the A rows and the B rows of the collections
table with word_count equal to the number of non-deleted vocabularies
referencing them in the final store (both old and new parent are
recomputed). -/
theorem reparent_recomputes_both_counts (uid : Option String) (now : Int)
    (s : DbState) (rid A B : String) (data : Json) (ver : Int)
    (v : VocabularyRow)
    (hv : findRow VocabularyRow.id s.vocabularies rid = some v)
    (hA : v.collection_id = A)
    (hB : (data.getField "collectionId").asStr = some B) :
    ∀ c ∈ (apply_remote_changes uid now
        [⟨"vocabularies", rid, data, ver, false⟩] s).1.collections,
      (c.id = A ∨ c.id = B) →
      c.word_count = countVocab (apply_remote_changes uid now
        [⟨"vocabularies", rid, data, ver, false⟩] s).1.vocabularies c.id := by
  have hstep := applyNdStep_vocab uid now s []
    ⟨"vocabularies", rid, data, ver, false⟩ B rfl hB
  rw [hv] at hstep
  dsimp only [Option.map] at hstep
  rw [hA] at hstep
  have happly : apply_remote_changes uid now
      [⟨"vocabularies", rid, data, ver, false⟩] s =
      (recomputeAffected (insertAffected A (insertAffected B [])) now
        { s with vocabularies := (upsertRow VocabularyRow.id s.vocabularies rid
            (vocabUpd now ⟨"vocabularies", rid, data, ver, false⟩ B
              (vocabBase now ⟨"vocabularies", rid, data, ver, false⟩))
            (vocabUpd now ⟨"vocabularies", rid, data, ver, false⟩ B)) }, none) := by
    unfold apply_remote_changes
    rw [show sortNonDeleted [(⟨"vocabularies", rid, data, ver, false⟩ : SyncRecord)] =
      [⟨"vocabularies", rid, data, ver, false⟩] from rfl]
    rw [show sortDeleted [(⟨"vocabularies", rid, data, ver, false⟩ : SyncRecord)] =
      ([] : List SyncRecord) from rfl]
    dsimp only
    rw [List.foldl_cons, hstep]
    rfl
  rw [happly, recomputeAffected_eq]
  intro c hc hor
  rcases List.mem_map.mp hc with ⟨c0, hc0, rfl⟩
  by_cases hmem : c0.id ∈ insertAffected A (insertAffected B [])
  · unfold recompRow
    rw [if_pos hmem] <;> try rfl
  · exfalso
    refine hmem ?_
    rcases hor with h | h
    · rw [recompRow_id] at h
      rw [h]
      exact mem_insertAffected_self _ _
    · rw [recompRow_id] at h
      rw [h]
      exact mem_insertAffected_of_mem _ _ _ (mem_insertAffected_self _ _)
end ChamSync

namespace ChamSync

/-- Collection A for the C7 witness. -/
def c7CollA : CollectionRow :=
  { id := "A", name := "old home", description := "", language := "en",
    shared_by := none, is_public := false, word_count := 1, created_at := 0,
    updated_at := 0, sync_version := 1, synced_at := some 1, deleted := false }

/-- Collection B for the C7 witness. -/
def c7CollB : CollectionRow :=
  { id := "B", name := "new home", description := "", language := "en",
    shared_by := none, is_public := false, word_count := 0, created_at := 0,
    updated_at := 0, sync_version := 1, synced_at := some 1, deleted := false }

/-- The vocabulary that the C7 record moves from A to B. -/
def c7Vocab : VocabularyRow :=
  { id := "v1", word := "cat", word_type := "noun", level := "", ipa := "",
    audio_url := none, concept := none, language := "en",
    collection_id := "A", definitions := [], example_sentences := [],
    topics := [], tags := [], related_words := [], created_at := 0,
    updated_at := 0, sync_version := 1, synced_at := some 1, deleted := false }

/-- C7 witness store. -/
def c7State : DbState :=
  { emptyState with collections := [c7CollA, c7CollB], vocabularies := [c7Vocab] }

/-- Payload of the reparenting record. -/
def c7Data : Json := Json.obj [("collectionId", Json.str "B")]

/-- C7 witness: a concrete reparent from A to B leaves both word counts
equal to the final per-collection vocabulary counts. -/
theorem reparent_recomputes_both_counts_witness :
    findRow VocabularyRow.id c7State.vocabularies "v1" = some c7Vocab ∧
    c7Vocab.collection_id = "A" ∧
    (c7Data.getField "collectionId").asStr = some "B" ∧
    ∀ c ∈ (apply_remote_changes none 9
        [⟨"vocabularies", "v1", c7Data, 2, false⟩] c7State).1.collections,
      (c.id = "A" ∨ c.id = "B") →
      c.word_count = countVocab (apply_remote_changes none 9
        [⟨"vocabularies", "v1", c7Data, 2, false⟩] c7State).1.vocabularies c.id :=
  ⟨rfl, rfl, rfl,
    reparent_recomputes_both_counts none 9 c7State "v1" "A" "B" c7Data 2
      c7Vocab rfl rfl rfl⟩

/-- C10 witness: with a push response whose conflicts list contains the
topics record's row id, the record is still marked. -/
theorem conflicted_records_still_marked_witness :
    (c5TopicRec ∈ [c5TagRec, c5TopicRec]) ∧
    (c5TopicRec.row_id ∈ ["t5", "g5"]) ∧
    (([c5TagRec, c5TopicRec].map
      (fun x => (sync_to_db x.table_name, x.row_id))).Nodup) ∧
    (∀ x ∈ [c5TagRec, c5TopicRec], x.table_name ∈ SYNCED_TABLES) ∧
    ((sync_now none 77 0 [c5TagRec, c5TopicRec]
        (Except.ok ⟨some ⟨0, ["t5", "g5"]⟩, none⟩) c5State).2 =
      (mark_records_synced [c5TagRec, c5TopicRec] 77 c5State).1 ∧
    (c5TopicRec.deleted = true →
      rowSyncMeta (sync_now none 77 0 [c5TagRec, c5TopicRec]
          (Except.ok ⟨some ⟨0, ["t5", "g5"]⟩, none⟩) c5State).2
        (sync_to_db c5TopicRec.table_name) c5TopicRec.row_id = none) ∧
    (c5TopicRec.deleted = false →
      rowSyncMeta (sync_now none 77 0 [c5TagRec, c5TopicRec]
          (Except.ok ⟨some ⟨0, ["t5", "g5"]⟩, none⟩) c5State).2
        (sync_to_db c5TopicRec.table_name) c5TopicRec.row_id =
        (rowSyncMeta c5State (sync_to_db c5TopicRec.table_name)
          c5TopicRec.row_id).map (fun p => (some 77, p.2 + 1)))) :=
  ⟨List.mem_cons_of_mem _ (List.mem_singleton.mpr rfl), by decide, by decide,
    by decide,
    conflicted_records_still_marked none 77 0 [c5TagRec, c5TopicRec] c5State 0
      ["t5", "g5"] c5TopicRec
      (List.mem_cons_of_mem _ (List.mem_singleton.mpr rfl)) (by decide)
      (by decide) (by decide)⟩

end ChamSync

namespace ChamSync

/-! ## Generic phase machinery for the idempotence of the apply pass

The rank-sorted loop of apply_remote_changes visits the records of one
table as one contiguous block, so the whole loop factors into per-table
phases; the lemmas of this section handle one table generically. -/

section PhaseMachinery

variable {ρ : Type} (key : ρ → String)

/-- All rows of one key satisfy P. -/
def allKey (t : List ρ) (k : String) (P : ρ → Prop) : Prop :=
  ∀ x ∈ t, key x = k → P x

theorem hasRow_false_forall {t : List ρ} {k : String}
    (h : hasRow key t k = false) : ∀ x ∈ t, (key x == k) = false := by
  intro x hx
  cases hxk : (key x == k) with
  | false => rfl
  | true =>
    exfalso
    have h2 : hasRow key t k = true := by
      simp only [hasRow]
      exact List.any_eq_true.mpr ⟨x, hx, hxk⟩
    rw [h] at h2
    cases h2

theorem hasRow_updateRows (t : List ρ) (k k' : String) (f : ρ → ρ)
    (hf : ∀ x, key (f x) = key x) :
    hasRow key (updateRows key t k' f) k = hasRow key t k := by
  induction t with
  | nil => rfl
  | cons x xs ih =>
    simp only [updateRows, hasRow, List.map_cons, List.any_cons] at ih ⊢
    by_cases hx : (key x == k') = true
    · rw [if_pos hx, hf]
      rw [ih]
    · rw [if_neg hx]
      rw [ih]

theorem hasRow_append_single (t : List ρ) (k : String) (x : ρ) :
    hasRow key (t ++ [x]) k = (hasRow key t k || (key x == k)) := by
  simp [hasRow, List.any_append]

theorem hasRow_upsert_ne (t : List ρ) (k k' : String) (fr : ρ) (f : ρ → ρ)
    (hfr : key fr = k') (hf : ∀ x, key (f x) = key x) (h : k ≠ k') :
    hasRow key (upsertRow key t k' fr f) k = hasRow key t k := by
  unfold upsertRow
  by_cases hh : hasRow key t k' = true
  · rw [if_pos hh, hasRow_updateRows _ _ _ _ _ hf]
  · rw [if_neg hh, hasRow_append_single]
    have : (key fr == k) = false := by
      rw [hfr]
      exact beq_eq_false_iff_ne.mpr (fun hk => h hk.symm)
    rw [this, Bool.or_false]

theorem hasRow_upsert_self (t : List ρ) (k : String) (fr : ρ) (f : ρ → ρ)
    (hfr : key fr = k) (hf : ∀ x, key (f x) = key x) :
    hasRow key (upsertRow key t k fr f) k = true := by
  unfold upsertRow
  by_cases hh : hasRow key t k = true
  · rw [if_pos hh, hasRow_updateRows _ _ _ _ _ hf]
    exact hh
  · rw [if_neg hh, hasRow_append_single]
    simp [hfr]

theorem allKey_updateRows (t : List ρ) (k k' : String) (f : ρ → ρ)
    (hf : ∀ x, key (f x) = key x) (P : ρ → Prop)
    (h : allKey key t k P) (hP : ∀ x, key x = k → P x → P (f x)) :
    allKey key (updateRows key t k' f) k P := by
  intro y hy hky
  rcases List.mem_map.mp hy with ⟨x, hx, rfl⟩
  by_cases hxk : (key x == k') = true
  · rw [if_pos hxk] at hky ⊢
    rw [hf] at hky
    exact hP x hky (h x hx hky)
  · rw [if_neg hxk] at hky ⊢
    exact h x hx hky

theorem allKey_upsert_ne (t : List ρ) (k k' : String) (fr : ρ) (f : ρ → ρ)
    (hfr : key fr = k') (hf : ∀ x, key (f x) = key x) (hne : k ≠ k')
    (P : ρ → Prop) (h : allKey key t k P) :
    allKey key (upsertRow key t k' fr f) k P := by
  unfold upsertRow
  by_cases hh : hasRow key t k' = true
  · rw [if_pos hh]
    intro y hy hky
    rcases List.mem_map.mp hy with ⟨x, hx, rfl⟩
    by_cases hxk : (key x == k') = true
    · rw [if_pos hxk] at hky ⊢
      rw [hf] at hky
      exact absurd (hky.symm.trans (beq_iff_eq.mp hxk)) hne
    · rw [if_neg hxk] at hky ⊢
      exact h x hx hky
  · rw [if_neg hh]
    intro y hy hky
    rcases List.mem_append.mp hy with hy1 | hy2
    · exact h y hy1 hky
    · rcases List.mem_singleton.mp hy2 with rfl
      exact absurd (hky.symm.trans hfr) hne

theorem allKey_upsert_self (t : List ρ) (k : String) (fr : ρ)
    (upd : ρ → ρ) (hUU : ∀ x, upd (upd x) = upd x) (hUF : upd fr = fr) :
    allKey key (upsertRow key t k fr upd) k (fun y => upd y = y) := by
  unfold upsertRow
  by_cases hh : hasRow key t k = true
  · rw [if_pos hh]
    intro y hy hky
    rcases List.mem_map.mp hy with ⟨x, hx, rfl⟩
    by_cases hxk : (key x == k) = true
    · rw [if_pos hxk]
      exact hUU x
    · rw [if_neg hxk] at hky ⊢
      exact absurd hky (by simpa using hxk)
  · rw [if_neg hh]
    rw [Bool.not_eq_true] at hh
    intro y hy hky
    rcases List.mem_append.mp hy with hy1 | hy2
    · exact absurd hky (by simpa using hasRow_false_forall key hh y hy1)
    · rcases List.mem_singleton.mp hy2 with rfl
      exact hUF

theorem allKey_deleteRows (t : List ρ) (k k' : String) (P : ρ → Prop)
    (h : allKey key t k P) : allKey key (deleteRows key t k') k P :=
  fun y hy hky => h y (List.mem_filter.mp hy).1 hky

theorem deleteRows_noRow (t : List ρ) (k : String)
    (h : hasRow key t k = false) : deleteRows key t k = t := by
  unfold deleteRows
  refine List.filter_eq_self.mpr (fun x hx => ?_)
  simp [hasRow_false_forall key h x hx]

theorem hasRow_deleteRows_false (t : List ρ) (k k' : String)
    (h : hasRow key t k = false) :
    hasRow key (deleteRows key t k') k = false := by
  cases hh : hasRow key (deleteRows key t k') k with
  | false => rfl
  | true =>
    exfalso
    simp only [hasRow] at hh
    rcases List.any_eq_true.mp hh with ⟨x, hx, hxk⟩
    have := hasRow_false_forall key h x (List.mem_filter.mp hx).1
    rw [this] at hxk
    cases hxk

theorem hasRow_deleteRows_ne (t : List ρ) (k k' : String) (hne : k ≠ k') :
    hasRow key (deleteRows key t k') k = hasRow key t k := by
  cases h : hasRow key t k with
  | false => exact hasRow_deleteRows_false key t k k' h
  | true =>
    simp only [hasRow] at h ⊢
    rcases List.any_eq_true.mp h with ⟨x, hx, hxk⟩
    refine List.any_eq_true.mpr ⟨x, ?_, hxk⟩
    refine List.mem_filter.mpr ⟨hx, ?_⟩
    have : (key x == k') = false := by
      refine beq_eq_false_iff_ne.mpr (fun hk => hne ?_)
      rw [← beq_iff_eq.mp hxk, hk]
    simp [this]

theorem hasRow_deleteRows_self (t : List ρ) (k : String) :
    hasRow key (deleteRows key t k) k = false := by
  cases hh : hasRow key (deleteRows key t k) k with
  | false => rfl
  | true =>
    exfalso
    simp only [hasRow] at hh
    rcases List.any_eq_true.mp hh with ⟨x, hx, hxk⟩
    have := (List.mem_filter.mp hx).2
    rw [hxk] at this
    cases this

theorem upsertRow_noop (t : List ρ) (k : String) (fr : ρ) (upd : ρ → ρ)
    (hh : hasRow key t k = true)
    (hfix : allKey key t k (fun y => upd y = y)) :
    upsertRow key t k fr upd = t := by
  unfold upsertRow
  rw [if_pos hh]
  unfold updateRows
  have : t.map (fun x => if (key x == k) = true then upd x else x) =
      t.map (fun x => x) := by
    refine List.map_congr_left (fun x hx => ?_)
    by_cases hxk : (key x == k) = true
    · rw [if_pos hxk]
      exact hfix x hx (beq_iff_eq.mp hxk)
    · rw [if_neg hxk]
  rw [this, List.map_id']

theorem deleteRows_updateRows_comm (t : List ρ) (k k' : String) (f : ρ → ρ)
    (hf : ∀ x, key (f x) = key x) :
    deleteRows key (updateRows key t k f) k' =
      updateRows key (deleteRows key t k') k f := by
  induction t with
  | nil => rfl
  | cons x xs ih =>
    simp only [updateRows, deleteRows, List.map_cons, List.filter_cons] at ih ⊢
    by_cases hx : (key x == k) = true
    · rw [if_pos hx, hf]
      by_cases hx' : (key x == k') = true
      · simp only [hx', Bool.not_true, if_neg (Bool.false_ne_true)]
        exact ih
      · simp only [show (key x == k') = false by simpa using hx', Bool.not_false,
          if_true, List.map_cons, if_pos hx]
        rw [ih]
    · rw [if_neg hx]
      by_cases hx' : (key x == k') = true
      · simp only [hx', Bool.not_true, if_neg (Bool.false_ne_true)]
        exact ih
      · simp only [show (key x == k') = false by simpa using hx', Bool.not_false,
          if_true, List.map_cons, if_neg hx]
        rw [ih]

theorem deleteRows_upsert_comm (t : List ρ) (k k' : String) (fr : ρ)
    (f : ρ → ρ) (hfr : key fr = k) (hf : ∀ x, key (f x) = key x)
    (hne : k ≠ k') :
    deleteRows key (upsertRow key t k fr f) k' =
      upsertRow key (deleteRows key t k') k fr f := by
  unfold upsertRow
  by_cases hh : hasRow key t k = true
  · rw [if_pos hh, if_pos (by rw [hasRow_deleteRows_ne key t k k' hne]; exact hh)]
    exact deleteRows_updateRows_comm key t k k' f hf
  · rw [if_neg hh, if_neg (by rw [hasRow_deleteRows_ne key t k k' hne]; exact hh)]
    unfold deleteRows
    rw [List.filter_append]
    have : (key fr == k') = false := by
      rw [hfr]
      exact beq_eq_false_iff_ne.mpr hne
    simp [this]

theorem hasRow_map (t : List ρ) (k : String) (f : ρ → ρ)
    (hf : ∀ x, key (f x) = key x) :
    hasRow key (t.map f) k = hasRow key t k := by
  induction t with
  | nil => rfl
  | cons x xs ih =>
    simp only [hasRow, List.map_cons, List.any_cons] at ih ⊢
    rw [hf, ih]

theorem allKey_map (t : List ρ) (k : String) (f : ρ → ρ) (P : ρ → Prop)
    (hf : ∀ x, key (f x) = key x) (hP : ∀ x, P x → P (f x))
    (h : allKey key t k P) : allKey key (t.map f) k P := by
  intro y hy hky
  rcases List.mem_map.mp hy with ⟨x, hx, rfl⟩
  rw [hf] at hky
  exact hP x (h x hx hky)

theorem findRow_some_of_hasRow (t : List ρ) (k : String)
    (h : hasRow key t k = true) :
    ∃ v, findRow key t k = some v ∧ v ∈ t ∧ key v = k := by
  simp only [hasRow] at h
  rcases List.any_eq_true.mp h with ⟨x, hx, hxk⟩
  have hs : (findRow key t k).isSome = true := by
    unfold findRow
    rw [List.find?_isSome]
    exact ⟨x, hx, hxk⟩
  rcases Option.isSome_iff_exists.mp hs with ⟨v, hv⟩
  refine ⟨v, hv, List.mem_of_find?_eq_some hv, ?_⟩
  have := List.find?_some hv
  exact beq_iff_eq.mp this

theorem findRow_none_of_hasRow_false (t : List ρ) (k : String)
    (h : hasRow key t k = false) : findRow key t k = none := by
  unfold findRow
  rw [List.find?_eq_none]
  intro x hx
  rw [hasRow_false_forall key h x hx]
  exact Bool.false_ne_true

end PhaseMachinery

end ChamSync

namespace ChamSync

/-! ## Claim C3: idempotent pull replay — affected-set bookkeeping -/

/-- The payload collection id of a vocabularies record ("" when absent;
under the no-missing-collectionId hypothesis it is the decoded id). -/
def cidOf (r : SyncRecord) : String :=
  ((r.data.getField "collectionId").asStr).getD ""

/-- The affected-set contribution of a replayed non-deleted pass: one
insertion per vocabularies record (old and new collection id coincide on
a replay). -/
def ndAff : List SyncRecord → List String → List String
  | [], aff => aff
  | r :: rs, aff =>
    ndAff rs (if r.table_name == "vocabularies" then insertAffected (cidOf r) aff else aff)

/-- The affected-set contribution of a replayed deleted pass: the rows
are already gone, so only the collections removals remain. -/
def dlAff : List SyncRecord → List String → List String
  | [], aff => aff
  | r :: rs, aff =>
    dlAff rs (if r.table_name == "collections" then removeAffected r.row_id aff else aff)

theorem mem_insertAffected_iff (x c : String) (l : List String) :
    x ∈ insertAffected c l ↔ x = c ∨ x ∈ l := by
  unfold insertAffected
  by_cases h : c ∈ l
  · rw [if_pos h]
    constructor
    · exact Or.inr
    · rintro (rfl | hx)
      exacts [h, hx]
  · rw [if_neg h]
    simp [List.mem_append, or_comm]

theorem mem_removeAffected_iff (x c : String) (l : List String) :
    x ∈ removeAffected c l ↔ x ∈ l ∧ x ≠ c := by
  unfold removeAffected
  rw [List.mem_filter]
  simp

theorem insertAffected_of_mem (c : String) (l : List String) (h : c ∈ l) :
    insertAffected c l = l := by
  rw [insertAffected, if_pos h]

theorem insertAffected_idem (c : String) (l : List String) :
    insertAffected c (insertAffected c l) = insertAffected c l :=
  insertAffected_of_mem c _ (mem_insertAffected_self c l)

theorem mem_ndAff (nds : List SyncRecord) :
    ∀ (aff : List String) (x : String), x ∈ ndAff nds aff →
      x ∈ aff ∨ ∃ r, r ∈ nds ∧ r.table_name = "vocabularies" ∧ cidOf r = x := by
  induction nds with
  | nil => intro aff x h; exact Or.inl h
  | cons r rs ih =>
    intro aff x h
    rw [ndAff] at h
    rcases ih _ x h with hx | ⟨r', hr', ht', hc'⟩
    · by_cases htn : (r.table_name == "vocabularies") = true
      · rw [if_pos htn] at hx
        rcases (mem_insertAffected_iff x (cidOf r) aff).mp hx with rfl | hx2
        · exact Or.inr ⟨r, List.mem_cons_self _ _, beq_iff_eq.mp htn, rfl⟩
        · exact Or.inl hx2
      · rw [if_neg htn] at hx
        exact Or.inl hx
    · exact Or.inr ⟨r', List.mem_cons_of_mem _ hr', ht', hc'⟩

theorem mem_dlAff (dls : List SyncRecord) :
    ∀ (aff : List String) (x : String), x ∈ dlAff dls aff →
      x ∈ aff ∧ ∀ d ∈ dls, d.table_name = "collections" → d.row_id ≠ x := by
  induction dls with
  | nil =>
    intro aff x h
    exact ⟨h, fun d hd => absurd hd (List.not_mem_nil d)⟩
  | cons d ds ih =>
    intro aff x h
    rw [dlAff] at h
    rcases ih _ x h with ⟨hx, hrest⟩
    by_cases htn : (d.table_name == "collections") = true
    · rw [if_pos htn] at hx
      rcases (mem_removeAffected_iff x d.row_id aff).mp hx with ⟨hx2, hne⟩
      refine ⟨hx2, fun d' hd' ht' => ?_⟩
      rcases List.mem_cons.mp hd' with rfl | hd2
      · exact fun he => hne (he.symm)
      · exact hrest d' hd2 ht'
    · rw [if_neg htn] at hx
      refine ⟨hx, fun d' hd' ht' => ?_⟩
      rcases List.mem_cons.mp hd' with rfl | hd2
      · exact absurd (beq_iff_eq.mpr ht') htn
      · exact hrest d' hd2 ht'

end ChamSync

namespace ChamSync

/-! ## Claim C3: per-record row facts after a first apply pass -/

/-- After a record has been applied, its row exists and every row of its
key is a fixed point of the record's column-write transformer: the
second application of the same record rewrites identical values. -/
def RowFixed (uid : Option String) (now : Int) (st : DbState) (r : SyncRecord) : Prop :=
  (r.table_name = "collections" →
    hasRow CollectionRow.id st.collections r.row_id = true ∧
    allKey CollectionRow.id st.collections r.row_id (fun y => collUpd uid now r y = y)) ∧
  (r.table_name = "vocabularies" →
    hasRow VocabularyRow.id st.vocabularies r.row_id = true ∧
    allKey VocabularyRow.id st.vocabularies r.row_id (fun y => vocabUpd now r (cidOf r) y = y)) ∧
  (r.table_name = "wordProgress" →
    hasRow WordProgressRow.id st.word_progress r.row_id = true ∧
    allKey WordProgressRow.id st.word_progress r.row_id (fun y => wpUpd now r y = y)) ∧
  (r.table_name = "learningSettings" →
    hasRow LearningSettingsRow.id st.learning_settings r.row_id = true ∧
    allKey LearningSettingsRow.id st.learning_settings r.row_id (fun y => lsUpd now r y = y)) ∧
  (r.table_name = "practiceSessions" →
    hasRow PracticeSessionRow.id st.practice_sessions r.row_id = true ∧
    allKey PracticeSessionRow.id st.practice_sessions r.row_id (fun y => psUpd now r y = y)) ∧
  (r.table_name = "practiceProgress" →
    hasRow PracticeProgressRow.id st.practice_progress r.row_id = true ∧
    allKey PracticeProgressRow.id st.practice_progress r.row_id (fun y => ppUpd now r y = y)) ∧
  (r.table_name = "userLearningLanguages" →
    hasRow UserLearningLanguageRow.id st.user_learning_languages r.row_id = true ∧
    allKey UserLearningLanguageRow.id st.user_learning_languages r.row_id (fun y => ullUpd now r y = y)) ∧
  (r.table_name = "topics" →
    hasRow TopicRow.id st.topics r.row_id = true ∧
    allKey TopicRow.id st.topics r.row_id (fun y => topicUpd now r y = y)) ∧
  (r.table_name = "tags" →
    hasRow TagRow.id st.tags r.row_id = true ∧
    allKey TagRow.id st.tags r.row_id (fun y => tagUpd now r y = y)) ∧
  (r.table_name = "collectionSharedUsers" →
    hasRow CsuRow.id st.collection_shared_users r.row_id = true ∧
    allKey CsuRow.id st.collection_shared_users r.row_id (fun y => csuUpd now r y = y))

/-- After a deleted record has been applied, no row of its key remains in
its table: the second application deletes nothing. -/
def RowGone (st : DbState) (r : SyncRecord) : Prop :=
  (r.table_name = "collections" → hasRow CollectionRow.id st.collections r.row_id = false) ∧
  (r.table_name = "vocabularies" → hasRow VocabularyRow.id st.vocabularies r.row_id = false) ∧
  (r.table_name = "wordProgress" → hasRow WordProgressRow.id st.word_progress r.row_id = false) ∧
  (r.table_name = "learningSettings" → hasRow LearningSettingsRow.id st.learning_settings r.row_id = false) ∧
  (r.table_name = "practiceSessions" → hasRow PracticeSessionRow.id st.practice_sessions r.row_id = false) ∧
  (r.table_name = "practiceProgress" → hasRow PracticeProgressRow.id st.practice_progress r.row_id = false) ∧
  (r.table_name = "userLearningLanguages" → hasRow UserLearningLanguageRow.id st.user_learning_languages r.row_id = false) ∧
  (r.table_name = "topics" → hasRow TopicRow.id st.topics r.row_id = false) ∧
  (r.table_name = "tags" → hasRow TagRow.id st.tags r.row_id = false) ∧
  (r.table_name = "collectionSharedUsers" → hasRow CsuRow.id st.collection_shared_users r.row_id = false)

/-! Each column-write transformer writes constant values (computed from
the record alone) into a fixed field set, so it is idempotent, keeps the
primary key, and maps the insert-path base row to a fixed point. -/

theorem collUpd_idem (uid : Option String) (now : Int) (r : SyncRecord) :
    ∀ x, collUpd uid now r (collUpd uid now r x) = collUpd uid now r x := fun _ => rfl

theorem vocabUpd_idem (now : Int) (r : SyncRecord) (cid : String) :
    ∀ x, vocabUpd now r cid (vocabUpd now r cid x) = vocabUpd now r cid x := fun _ => rfl

theorem wpUpd_idem (now : Int) (r : SyncRecord) :
    ∀ x, wpUpd now r (wpUpd now r x) = wpUpd now r x := fun _ => rfl

theorem lsUpd_idem (now : Int) (r : SyncRecord) :
    ∀ x, lsUpd now r (lsUpd now r x) = lsUpd now r x := fun _ => rfl

theorem psUpd_idem (now : Int) (r : SyncRecord) :
    ∀ x, psUpd now r (psUpd now r x) = psUpd now r x := fun _ => rfl

theorem ppUpd_idem (now : Int) (r : SyncRecord) :
    ∀ x, ppUpd now r (ppUpd now r x) = ppUpd now r x := fun _ => rfl

theorem ullUpd_idem (now : Int) (r : SyncRecord) :
    ∀ x, ullUpd now r (ullUpd now r x) = ullUpd now r x := fun _ => rfl

theorem topicUpd_idem (now : Int) (r : SyncRecord) :
    ∀ x, topicUpd now r (topicUpd now r x) = topicUpd now r x := fun _ => rfl

theorem tagUpd_idem (now : Int) (r : SyncRecord) :
    ∀ x, tagUpd now r (tagUpd now r x) = tagUpd now r x := fun _ => rfl

theorem csuUpd_idem (now : Int) (r : SyncRecord) :
    ∀ x, csuUpd now r (csuUpd now r x) = csuUpd now r x := fun _ => rfl

theorem collUpd_key (uid : Option String) (now : Int) (r : SyncRecord) :
    ∀ x, CollectionRow.id (collUpd uid now r x) = CollectionRow.id x := fun _ => rfl

theorem vocabUpd_key (now : Int) (r : SyncRecord) (cid : String) :
    ∀ x, VocabularyRow.id (vocabUpd now r cid x) = VocabularyRow.id x := fun _ => rfl

theorem wpUpd_key (now : Int) (r : SyncRecord) :
    ∀ x, WordProgressRow.id (wpUpd now r x) = WordProgressRow.id x := fun _ => rfl

theorem lsUpd_key (now : Int) (r : SyncRecord) :
    ∀ x, LearningSettingsRow.id (lsUpd now r x) = LearningSettingsRow.id x := fun _ => rfl

theorem psUpd_key (now : Int) (r : SyncRecord) :
    ∀ x, PracticeSessionRow.id (psUpd now r x) = PracticeSessionRow.id x := fun _ => rfl

theorem ppUpd_key (now : Int) (r : SyncRecord) :
    ∀ x, PracticeProgressRow.id (ppUpd now r x) = PracticeProgressRow.id x := fun _ => rfl

theorem ullUpd_key (now : Int) (r : SyncRecord) :
    ∀ x, UserLearningLanguageRow.id (ullUpd now r x) = UserLearningLanguageRow.id x := fun _ => rfl

theorem topicUpd_key (now : Int) (r : SyncRecord) :
    ∀ x, TopicRow.id (topicUpd now r x) = TopicRow.id x := fun _ => rfl

theorem tagUpd_key (now : Int) (r : SyncRecord) :
    ∀ x, TagRow.id (tagUpd now r x) = TagRow.id x := fun _ => rfl

theorem csuUpd_key (now : Int) (r : SyncRecord) :
    ∀ x, CsuRow.id (csuUpd now r x) = CsuRow.id x := fun _ => rfl

theorem collFresh_key (uid : Option String) (now : Int) (r : SyncRecord) :
    CollectionRow.id (collUpd uid now r (collBase now r)) = r.row_id := rfl

theorem vocabFresh_key (now : Int) (r : SyncRecord) (cid : String) :
    VocabularyRow.id (vocabUpd now r cid (vocabBase now r)) = r.row_id := rfl

theorem wpFresh_key (now : Int) (V : List VocabularyRow) (r : SyncRecord) :
    WordProgressRow.id (wpUpd now r (wpBase now V r)) = r.row_id := rfl

theorem lsFresh_key (now : Int) (r : SyncRecord) :
    LearningSettingsRow.id (lsUpd now r (lsBase now r)) = r.row_id := rfl

theorem psFresh_key (now : Int) (r : SyncRecord) :
    PracticeSessionRow.id (psUpd now r (psBase now r)) = r.row_id := rfl

theorem ppFresh_key (now : Int) (r : SyncRecord) :
    PracticeProgressRow.id (ppUpd now r (ppBase now r)) = r.row_id := rfl

theorem ullFresh_key (now : Int) (r : SyncRecord) :
    UserLearningLanguageRow.id (ullUpd now r (ullBase now r)) = r.row_id := rfl

theorem topicFresh_key (now : Int) (r : SyncRecord) :
    TopicRow.id (topicUpd now r (topicBase now r)) = r.row_id := rfl

theorem tagFresh_key (now : Int) (r : SyncRecord) :
    TagRow.id (tagUpd now r (tagBase now r)) = r.row_id := rfl

theorem csuFresh_key (now : Int) (r : SyncRecord) :
    CsuRow.id (csuUpd now r (csuBase now r)) = r.row_id := rfl

end ChamSync

namespace ChamSync

/-! ## Claim C3: one-step evaluation of the two apply loops -/

/-- applyNdStep on a collections record, evaluated. -/
theorem ndStep_coll (uid : Option String) (now : Int) (st : DbState)
    (aff : List String) (r : SyncRecord) (h : r.table_name = "collections") :
    applyNdStep uid now ⟨st, aff, none⟩ r =
      ⟨{ st with collections := apply_collection_change uid now r st.collections }, aff, none⟩ := by
  obtain ⟨tn, rid, data, ver, del⟩ := r
  have h2 : tn = "collections" := h
  subst h2
  rfl

/-- applyNdStep on a wordProgress record, evaluated. -/
theorem ndStep_wp (uid : Option String) (now : Int) (st : DbState)
    (aff : List String) (r : SyncRecord) (h : r.table_name = "wordProgress") :
    applyNdStep uid now ⟨st, aff, none⟩ r =
      ⟨{ st with word_progress := apply_word_progress_change now st.vocabularies r st.word_progress }, aff, none⟩ := by
  obtain ⟨tn, rid, data, ver, del⟩ := r
  have h2 : tn = "wordProgress" := h
  subst h2
  rfl

/-- applyNdStep on a learningSettings record, evaluated. -/
theorem ndStep_ls (uid : Option String) (now : Int) (st : DbState)
    (aff : List String) (r : SyncRecord) (h : r.table_name = "learningSettings") :
    applyNdStep uid now ⟨st, aff, none⟩ r =
      ⟨{ st with learning_settings := apply_learning_settings_change now r st.learning_settings }, aff, none⟩ := by
  obtain ⟨tn, rid, data, ver, del⟩ := r
  have h2 : tn = "learningSettings" := h
  subst h2
  rfl

/-- applyNdStep on a practiceSessions record, evaluated. -/
theorem ndStep_ps (uid : Option String) (now : Int) (st : DbState)
    (aff : List String) (r : SyncRecord) (h : r.table_name = "practiceSessions") :
    applyNdStep uid now ⟨st, aff, none⟩ r =
      ⟨{ st with practice_sessions := apply_practice_session_change now r st.practice_sessions }, aff, none⟩ := by
  obtain ⟨tn, rid, data, ver, del⟩ := r
  have h2 : tn = "practiceSessions" := h
  subst h2
  rfl

/-- applyNdStep on a practiceProgress record, evaluated. -/
theorem ndStep_pp (uid : Option String) (now : Int) (st : DbState)
    (aff : List String) (r : SyncRecord) (h : r.table_name = "practiceProgress") :
    applyNdStep uid now ⟨st, aff, none⟩ r =
      ⟨{ st with practice_progress := apply_practice_progress_change now r st.practice_progress }, aff, none⟩ := by
  obtain ⟨tn, rid, data, ver, del⟩ := r
  have h2 : tn = "practiceProgress" := h
  subst h2
  rfl

/-- applyNdStep on a userLearningLanguages record, evaluated. -/
theorem ndStep_ull (uid : Option String) (now : Int) (st : DbState)
    (aff : List String) (r : SyncRecord) (h : r.table_name = "userLearningLanguages") :
    applyNdStep uid now ⟨st, aff, none⟩ r =
      ⟨{ st with user_learning_languages := apply_user_learning_language_change now r st.user_learning_languages }, aff, none⟩ := by
  obtain ⟨tn, rid, data, ver, del⟩ := r
  have h2 : tn = "userLearningLanguages" := h
  subst h2
  rfl

/-- applyNdStep on a topics record, evaluated. -/
theorem ndStep_topic (uid : Option String) (now : Int) (st : DbState)
    (aff : List String) (r : SyncRecord) (h : r.table_name = "topics") :
    applyNdStep uid now ⟨st, aff, none⟩ r =
      ⟨{ st with topics := apply_topic_change now r st.topics }, aff, none⟩ := by
  obtain ⟨tn, rid, data, ver, del⟩ := r
  have h2 : tn = "topics" := h
  subst h2
  rfl

/-- applyNdStep on a tags record, evaluated. -/
theorem ndStep_tag (uid : Option String) (now : Int) (st : DbState)
    (aff : List String) (r : SyncRecord) (h : r.table_name = "tags") :
    applyNdStep uid now ⟨st, aff, none⟩ r =
      ⟨{ st with tags := apply_tag_change now r st.tags }, aff, none⟩ := by
  obtain ⟨tn, rid, data, ver, del⟩ := r
  have h2 : tn = "tags" := h
  subst h2
  rfl

/-- applyNdStep on a collectionSharedUsers record, evaluated. -/
theorem ndStep_csu (uid : Option String) (now : Int) (st : DbState)
    (aff : List String) (r : SyncRecord) (h : r.table_name = "collectionSharedUsers") :
    applyNdStep uid now ⟨st, aff, none⟩ r =
      ⟨{ st with collection_shared_users := apply_collection_shared_user_change now r st.collection_shared_users }, aff, none⟩ := by
  obtain ⟨tn, rid, data, ver, del⟩ := r
  have h2 : tn = "collectionSharedUsers" := h
  subst h2
  rfl

/-- applyNdStep on a record of a table outside the synced set only logs. -/
theorem ndStep_unknown (uid : Option String) (now : Int) (st : DbState)
    (aff : List String) (r : SyncRecord) (h : r.table_name ∉ SYNCED_TABLES) :
    applyNdStep uid now ⟨st, aff, none⟩ r = ⟨st, aff, none⟩ := by
  unfold applyNdStep
  dsimp only
  split <;> first
    | rfl
    | (rename_i heq; exact absurd (by rw [heq]; decide) h)

/-- applyDelStep on a deleted collections record: the rows go and the id
leaves the affected set. -/
theorem delStep_coll (st : DbState) (aff : List String) (r : SyncRecord)
    (h : r.table_name = "collections") :
    applyDelStep ⟨st, aff, none⟩ r =
      ⟨{ st with collections := deleteRows CollectionRow.id st.collections r.row_id },
        removeAffected r.row_id aff, none⟩ := by
  obtain ⟨tn, rid, data, ver, del⟩ := r
  have h2 : tn = "collections" := h
  subst h2
  rfl

/-- applyDelStep on a deleted vocabularies record: the rows go and the
collection of a still-present row joins the affected set. -/
theorem delStep_vocab (st : DbState) (aff : List String) (r : SyncRecord)
    (h : r.table_name = "vocabularies") :
    applyDelStep ⟨st, aff, none⟩ r =
      ⟨{ st with vocabularies := deleteRows VocabularyRow.id st.vocabularies r.row_id },
        (match findRow VocabularyRow.id st.vocabularies r.row_id with
         | some v => insertAffected v.collection_id aff
         | none => aff), none⟩ := by
  obtain ⟨tn, rid, data, ver, del⟩ := r
  have h2 : tn = "vocabularies" := h
  subst h2
  rfl

/-- applyDelStep on a deleted wordProgress record, evaluated. -/
theorem delStep_wp (st : DbState) (aff : List String) (r : SyncRecord)
    (h : r.table_name = "wordProgress") :
    applyDelStep ⟨st, aff, none⟩ r =
      ⟨{ st with word_progress := deleteRows WordProgressRow.id st.word_progress r.row_id }, aff, none⟩ := by
  obtain ⟨tn, rid, data, ver, del⟩ := r
  have h2 : tn = "wordProgress" := h
  subst h2
  rfl

/-- applyDelStep on a deleted learningSettings record, evaluated. -/
theorem delStep_ls (st : DbState) (aff : List String) (r : SyncRecord)
    (h : r.table_name = "learningSettings") :
    applyDelStep ⟨st, aff, none⟩ r =
      ⟨{ st with learning_settings := deleteRows LearningSettingsRow.id st.learning_settings r.row_id }, aff, none⟩ := by
  obtain ⟨tn, rid, data, ver, del⟩ := r
  have h2 : tn = "learningSettings" := h
  subst h2
  rfl

/-- applyDelStep on a deleted practiceSessions record, evaluated. -/
theorem delStep_ps (st : DbState) (aff : List String) (r : SyncRecord)
    (h : r.table_name = "practiceSessions") :
    applyDelStep ⟨st, aff, none⟩ r =
      ⟨{ st with practice_sessions := deleteRows PracticeSessionRow.id st.practice_sessions r.row_id }, aff, none⟩ := by
  obtain ⟨tn, rid, data, ver, del⟩ := r
  have h2 : tn = "practiceSessions" := h
  subst h2
  rfl

/-- applyDelStep on a deleted practiceProgress record, evaluated. -/
theorem delStep_pp (st : DbState) (aff : List String) (r : SyncRecord)
    (h : r.table_name = "practiceProgress") :
    applyDelStep ⟨st, aff, none⟩ r =
      ⟨{ st with practice_progress := deleteRows PracticeProgressRow.id st.practice_progress r.row_id }, aff, none⟩ := by
  obtain ⟨tn, rid, data, ver, del⟩ := r
  have h2 : tn = "practiceProgress" := h
  subst h2
  rfl

/-- applyDelStep on a deleted userLearningLanguages record, evaluated. -/
theorem delStep_ull (st : DbState) (aff : List String) (r : SyncRecord)
    (h : r.table_name = "userLearningLanguages") :
    applyDelStep ⟨st, aff, none⟩ r =
      ⟨{ st with user_learning_languages := deleteRows UserLearningLanguageRow.id st.user_learning_languages r.row_id }, aff, none⟩ := by
  obtain ⟨tn, rid, data, ver, del⟩ := r
  have h2 : tn = "userLearningLanguages" := h
  subst h2
  rfl

/-- applyDelStep on a deleted topics record, evaluated. -/
theorem delStep_topic (st : DbState) (aff : List String) (r : SyncRecord)
    (h : r.table_name = "topics") :
    applyDelStep ⟨st, aff, none⟩ r =
      ⟨{ st with topics := deleteRows TopicRow.id st.topics r.row_id }, aff, none⟩ := by
  obtain ⟨tn, rid, data, ver, del⟩ := r
  have h2 : tn = "topics" := h
  subst h2
  rfl

/-- applyDelStep on a deleted tags record, evaluated. -/
theorem delStep_tag (st : DbState) (aff : List String) (r : SyncRecord)
    (h : r.table_name = "tags") :
    applyDelStep ⟨st, aff, none⟩ r =
      ⟨{ st with tags := deleteRows TagRow.id st.tags r.row_id }, aff, none⟩ := by
  obtain ⟨tn, rid, data, ver, del⟩ := r
  have h2 : tn = "tags" := h
  subst h2
  rfl

/-- applyDelStep on a deleted collectionSharedUsers record, evaluated. -/
theorem delStep_csu (st : DbState) (aff : List String) (r : SyncRecord)
    (h : r.table_name = "collectionSharedUsers") :
    applyDelStep ⟨st, aff, none⟩ r =
      ⟨{ st with collection_shared_users := deleteRows CsuRow.id st.collection_shared_users r.row_id }, aff, none⟩ := by
  obtain ⟨tn, rid, data, ver, del⟩ := r
  have h2 : tn = "collectionSharedUsers" := h
  subst h2
  rfl

end ChamSync

namespace ChamSync

/-! ## Claim C3: replay steps are no-ops on a store with the row facts -/

/-- A non-deleted record whose row facts already hold rewrites identical
values: the step keeps the store and only re-inserts the vocabulary's
collection id (old = new on a replay) into the affected set. -/
theorem ndStep_noop (uid : Option String) (now : Int) (st : DbState)
    (aff : List String) (r : SyncRecord)
    (hfix : RowFixed uid now st r)
    (hcid : r.table_name = "vocabularies" →
      ((r.data.getField "collectionId").asStr).isSome = true) :
    applyNdStep uid now ⟨st, aff, none⟩ r =
      ⟨st, (if r.table_name == "vocabularies" then insertAffected (cidOf r) aff else aff), none⟩ := by
  obtain ⟨hc, hv, hw, hl, hp, hpp, hu, ht, hg, hcsu⟩ := hfix
  by_cases hmem : r.table_name ∈ SYNCED_TABLES
  · simp only [SYNCED_TABLES, List.mem_cons, List.not_mem_nil, or_false] at hmem
    rcases hmem with h|h|h|h|h|h|h|h|h|h
    · rw [ndStep_coll uid now st aff r h]
      rw [show apply_collection_change uid now r st.collections = st.collections from
        upsertRow_noop CollectionRow.id st.collections r.row_id _ _ (hc h).1 (hc h).2]
      rw [show (r.table_name == "vocabularies") = false from by rw [h]; rfl]
      rfl
    · rcases Option.isSome_iff_exists.mp (hcid h) with ⟨cid, hcv⟩
      have hcidOf : cidOf r = cid := by rw [cidOf, hcv]; rfl
      have hv2 := hv h
      rw [hcidOf] at hv2
      rw [applyNdStep_vocab uid now st aff r cid h hcv]
      rcases findRow_some_of_hasRow VocabularyRow.id st.vocabularies r.row_id
        hv2.1 with ⟨v, hfv, hvmem, hvkey⟩
      have hfixv : vocabUpd now r cid v = v := hv2.2 v hvmem hvkey
      have hvc : v.collection_id = cid :=
        (congrArg VocabularyRow.collection_id hfixv).symm.trans (by rfl)
      rw [hfv]
      dsimp only [Option.map]
      rw [hvc, insertAffected_idem]
      rw [show upsertRow VocabularyRow.id st.vocabularies r.row_id
          (vocabUpd now r cid (vocabBase now r)) (vocabUpd now r cid) = st.vocabularies from
        upsertRow_noop VocabularyRow.id st.vocabularies r.row_id _ _ hv2.1 hv2.2]
      rw [show (r.table_name == "vocabularies") = true from by rw [h]; rfl]
      rw [if_pos rfl, hcidOf]
    · rw [ndStep_wp uid now st aff r h]
      rw [show apply_word_progress_change now st.vocabularies r st.word_progress = st.word_progress from
        upsertRow_noop WordProgressRow.id st.word_progress r.row_id _ _ (hw h).1 (hw h).2]
      rw [show (r.table_name == "vocabularies") = false from by rw [h]; rfl]
      rfl
    · rw [ndStep_ls uid now st aff r h]
      rw [show apply_learning_settings_change now r st.learning_settings = st.learning_settings from
        upsertRow_noop LearningSettingsRow.id st.learning_settings r.row_id _ _ (hl h).1 (hl h).2]
      rw [show (r.table_name == "vocabularies") = false from by rw [h]; rfl]
      rfl
    · rw [ndStep_ps uid now st aff r h]
      rw [show apply_practice_session_change now r st.practice_sessions = st.practice_sessions from
        upsertRow_noop PracticeSessionRow.id st.practice_sessions r.row_id _ _ (hp h).1 (hp h).2]
      rw [show (r.table_name == "vocabularies") = false from by rw [h]; rfl]
      rfl
    · rw [ndStep_pp uid now st aff r h]
      rw [show apply_practice_progress_change now r st.practice_progress = st.practice_progress from
        upsertRow_noop PracticeProgressRow.id st.practice_progress r.row_id _ _ (hpp h).1 (hpp h).2]
      rw [show (r.table_name == "vocabularies") = false from by rw [h]; rfl]
      rfl
    · rw [ndStep_ull uid now st aff r h]
      rw [show apply_user_learning_language_change now r st.user_learning_languages = st.user_learning_languages from
        upsertRow_noop UserLearningLanguageRow.id st.user_learning_languages r.row_id _ _ (hu h).1 (hu h).2]
      rw [show (r.table_name == "vocabularies") = false from by rw [h]; rfl]
      rfl
    · rw [ndStep_topic uid now st aff r h]
      rw [show apply_topic_change now r st.topics = st.topics from
        upsertRow_noop TopicRow.id st.topics r.row_id _ _ (ht h).1 (ht h).2]
      rw [show (r.table_name == "vocabularies") = false from by rw [h]; rfl]
      rfl
    · rw [ndStep_tag uid now st aff r h]
      rw [show apply_tag_change now r st.tags = st.tags from
        upsertRow_noop TagRow.id st.tags r.row_id _ _ (hg h).1 (hg h).2]
      rw [show (r.table_name == "vocabularies") = false from by rw [h]; rfl]
      rfl
    · rw [ndStep_csu uid now st aff r h]
      rw [show apply_collection_shared_user_change now r st.collection_shared_users = st.collection_shared_users from
        upsertRow_noop CsuRow.id st.collection_shared_users r.row_id _ _ (hcsu h).1 (hcsu h).2]
      rw [show (r.table_name == "vocabularies") = false from by rw [h]; rfl]
      rfl
  · rw [ndStep_unknown uid now st aff r hmem]
    rw [show (r.table_name == "vocabularies") = false from
      beq_eq_false_iff_ne.mpr (fun he => hmem (by rw [he]; decide))]
    rfl

/-- A deleted record whose rows are already gone deletes nothing: the
step keeps the store, finds no vocabulary row to track, and only re-runs
the collections removal from the affected set. -/
theorem delStep_noop (st : DbState) (aff : List String) (r : SyncRecord)
    (hgone : RowGone st r) (hmem : r.table_name ∈ SYNCED_TABLES) :
    applyDelStep ⟨st, aff, none⟩ r =
      ⟨st, (if r.table_name == "collections" then removeAffected r.row_id aff else aff), none⟩ := by
  obtain ⟨hc, hv, hw, hl, hp, hpp, hu, ht, hg, hcsu⟩ := hgone
  simp only [SYNCED_TABLES, List.mem_cons, List.not_mem_nil, or_false] at hmem
  rcases hmem with h|h|h|h|h|h|h|h|h|h
  · rw [delStep_coll st aff r h,
      deleteRows_noRow CollectionRow.id st.collections r.row_id (hc h)]
    rw [show (r.table_name == "collections") = true from by rw [h]; rfl, if_pos rfl]
  · rw [delStep_vocab st aff r h,
      findRow_none_of_hasRow_false VocabularyRow.id st.vocabularies r.row_id (hv h),
      deleteRows_noRow VocabularyRow.id st.vocabularies r.row_id (hv h)]
    rw [show (r.table_name == "collections") = false from by rw [h]; rfl]
    rfl
  · rw [delStep_wp st aff r h,
      deleteRows_noRow WordProgressRow.id st.word_progress r.row_id (hw h)]
    rw [show (r.table_name == "collections") = false from by rw [h]; rfl]
    rfl
  · rw [delStep_ls st aff r h,
      deleteRows_noRow LearningSettingsRow.id st.learning_settings r.row_id (hl h)]
    rw [show (r.table_name == "collections") = false from by rw [h]; rfl]
    rfl
  · rw [delStep_ps st aff r h,
      deleteRows_noRow PracticeSessionRow.id st.practice_sessions r.row_id (hp h)]
    rw [show (r.table_name == "collections") = false from by rw [h]; rfl]
    rfl
  · rw [delStep_pp st aff r h,
      deleteRows_noRow PracticeProgressRow.id st.practice_progress r.row_id (hpp h)]
    rw [show (r.table_name == "collections") = false from by rw [h]; rfl]
    rfl
  · rw [delStep_ull st aff r h,
      deleteRows_noRow UserLearningLanguageRow.id st.user_learning_languages r.row_id (hu h)]
    rw [show (r.table_name == "collections") = false from by rw [h]; rfl]
    rfl
  · rw [delStep_topic st aff r h,
      deleteRows_noRow TopicRow.id st.topics r.row_id (ht h)]
    rw [show (r.table_name == "collections") = false from by rw [h]; rfl]
    rfl
  · rw [delStep_tag st aff r h,
      deleteRows_noRow TagRow.id st.tags r.row_id (hg h)]
    rw [show (r.table_name == "collections") = false from by rw [h]; rfl]
    rfl
  · rw [delStep_csu st aff r h,
      deleteRows_noRow CsuRow.id st.collection_shared_users r.row_id (hcsu h)]
    rw [show (r.table_name == "collections") = false from by rw [h]; rfl]
    rfl

end ChamSync

namespace ChamSync

/-- Replaying the whole non-deleted pass on a store in which every record
row is present and fixed keeps the store and accumulates exactly the
vocabulary collection ids. -/
theorem ndFold_noop (uid : Option String) (now : Int) (st : DbState) :
    ∀ (nds : List SyncRecord) (aff : List String),
      (∀ r ∈ nds, RowFixed uid now st r) →
      (∀ r ∈ nds, r.table_name = "vocabularies" →
        ((r.data.getField "collectionId").asStr).isSome = true) →
      List.foldl (applyNdStep uid now) ⟨st, aff, none⟩ nds = ⟨st, ndAff nds aff, none⟩ := by
  intro nds
  induction nds with
  | nil => intro aff _ _; rfl
  | cons r rs ih =>
    intro aff hfix hcid
    rw [List.foldl_cons, ndStep_noop uid now st aff r (hfix r (List.mem_cons_self _ _))
      (hcid r (List.mem_cons_self _ _))]
    exact ih _ (fun x hx => hfix x (List.mem_cons_of_mem _ hx))
      (fun x hx => hcid x (List.mem_cons_of_mem _ hx))

/-- Replaying the whole deleted pass on a store from which every record
row is already gone keeps the store and only replays the collections
removals from the affected set. -/
theorem delFold_noop (st : DbState) :
    ∀ (dls : List SyncRecord) (aff : List String),
      (∀ r ∈ dls, RowGone st r) →
      (∀ r ∈ dls, r.table_name ∈ SYNCED_TABLES) →
      List.foldl applyDelStep ⟨st, aff, none⟩ dls = ⟨st, dlAff dls aff, none⟩ := by
  intro dls
  induction dls with
  | nil => intro aff _ _; rfl
  | cons r rs ih =>
    intro aff hgone hmem
    rw [List.foldl_cons, delStep_noop st aff r (hgone r (List.mem_cons_self _ _))
      (hmem r (List.mem_cons_self _ _))]
    exact ih _ (fun x hx => hgone x (List.mem_cons_of_mem _ hx))
      (fun x hx => hmem x (List.mem_cons_of_mem _ hx))

end ChamSync

namespace ChamSync

/-! ## Claim C3: error and affected-set bookkeeping of a first pass -/

/-- An accumulator with no error is its own st/affected pair with a
literal none. -/
theorem applyAcc_eta_none (a : ApplyAcc) (h : a.err = none) :
    a = ⟨a.st, a.affected, none⟩ := by
  obtain ⟨s, f, e⟩ := a
  have he : e = none := h
  subst he
  rfl

/-- One non-deleted step keeps err = none when a vocabularies record
carries its collectionId. -/
theorem ndStep_err_none (uid : Option String) (now : Int) (acc : ApplyAcc)
    (r : SyncRecord) (hacc : acc.err = none)
    (hcid : r.table_name = "vocabularies" →
      ((r.data.getField "collectionId").asStr).isSome = true) :
    (applyNdStep uid now acc r).err = none := by
  obtain ⟨st, aff, err⟩ := acc
  have herr : err = none := hacc
  subst herr
  unfold applyNdStep
  split
  case _ heq => exact absurd heq (by simp)
  split
  all_goals try rfl
  rename_i htn
  rcases Option.isSome_iff_exists.mp (hcid htn) with ⟨cid, hcv⟩
  unfold apply_vocabulary_change
  rw [hcv]

/-- One deleted step keeps err = none when the record names a synced
table. -/
theorem delStep_err_none (acc : ApplyAcc) (r : SyncRecord)
    (hacc : acc.err = none) (hmem : r.table_name ∈ SYNCED_TABLES) :
    (applyDelStep acc r).err = none := by
  obtain ⟨st, aff, err⟩ := acc
  have herr : err = none := hacc
  subst herr
  have hdb : sync_to_db r.table_name ∈ DB_TABLES :=
    sync_to_db_mem_db_tables _ hmem
  have hsome := hard_delete_record_isSome (sync_to_db r.table_name) r.row_id st hdb
  rcases Option.isSome_iff_exists.mp hsome with ⟨st2, hst⟩
  unfold applyDelStep
  dsimp only
  rw [hst]
  dsimp only
  split <;> rfl

/-- The non-deleted loop never removes an id from the affected set. -/
theorem ndStep_aff_mono (uid : Option String) (now : Int) (acc : ApplyAcc)
    (r : SyncRecord) (x : String) (hx : x ∈ acc.affected) :
    x ∈ (applyNdStep uid now acc r).affected := by
  unfold applyNdStep
  split
  · exact hx
  split
  all_goals try exact hx
  split
  · exact hx
  · dsimp only
    split
    · split
      · exact mem_insertAffected_of_mem _ _ _ (mem_insertAffected_of_mem _ _ _ hx)
      · exact mem_insertAffected_of_mem _ _ _ hx
    · split
      · exact mem_insertAffected_of_mem _ _ _ hx
      · exact hx

theorem ndFold_aff_mono (uid : Option String) (now : Int) :
    ∀ (nds : List SyncRecord) (acc : ApplyAcc) (x : String),
      x ∈ acc.affected →
      x ∈ (List.foldl (applyNdStep uid now) acc nds).affected := by
  intro nds
  induction nds with
  | nil => intro acc x hx; exact hx
  | cons r rs ih =>
    intro acc x hx
    rw [List.foldl_cons]
    exact ih _ x (ndStep_aff_mono uid now acc r x hx)

/-- A vocabularies step puts its payload collection id into the affected
set. -/
theorem ndStep_vocab_cid_mem (uid : Option String) (now : Int)
    (acc : ApplyAcc) (r : SyncRecord) (hacc : acc.err = none)
    (htn : r.table_name = "vocabularies") (cid : String)
    (hcv : (r.data.getField "collectionId").asStr = some cid) :
    cid ∈ (applyNdStep uid now acc r).affected := by
  obtain ⟨st, aff, err⟩ := acc
  have herr : err = none := hacc
  subst herr
  rw [applyNdStep_vocab uid now st aff r cid htn hcv]
  dsimp only
  split
  · exact mem_insertAffected_of_mem _ _ _ (mem_insertAffected_self _ _)
  · exact mem_insertAffected_self _ _

/-- After the non-deleted pass, the payload collection id of every
vocabularies record of the pass is in the affected set. -/
theorem ndFold_cid_mem (uid : Option String) (now : Int) :
    ∀ (nds : List SyncRecord) (acc : ApplyAcc) (r : SyncRecord),
      acc.err = none →
      (∀ r' ∈ nds, r'.table_name = "vocabularies" →
        ((r'.data.getField "collectionId").asStr).isSome = true) →
      r ∈ nds → r.table_name = "vocabularies" →
      cidOf r ∈ (List.foldl (applyNdStep uid now) acc nds).affected := by
  intro nds
  induction nds with
  | nil => intro acc r _ _ hr; cases hr
  | cons r' rs ih =>
    intro acc r hacc hcid hr htn
    rw [List.foldl_cons]
    rcases List.mem_cons.mp hr with rfl | hr2
    · rcases Option.isSome_iff_exists.mp
        (hcid r (List.mem_cons_self _ _) htn) with ⟨cid, hcv⟩
      have hco : cidOf r = cid := by rw [cidOf, hcv]; rfl
      rw [hco]
      exact ndFold_aff_mono uid now rs _ cid
        (ndStep_vocab_cid_mem uid now acc r hacc htn cid hcv)
    · exact ih _ r
        (ndStep_err_none uid now acc r' hacc (hcid r' (List.mem_cons_self _ _)))
        (fun y hy h => hcid y (List.mem_cons_of_mem _ hy) h) hr2 htn

/-- The deleted loop keeps an affected id that no deleted collections
record removes. -/
theorem delStep_aff_keep (st : DbState) (aff : List String) (r : SyncRecord)
    (x : String) (hmem : r.table_name ∈ SYNCED_TABLES) (hx : x ∈ aff)
    (hne : r.table_name = "collections" → r.row_id ≠ x) :
    x ∈ (applyDelStep ⟨st, aff, none⟩ r).affected := by
  simp only [SYNCED_TABLES, List.mem_cons, List.not_mem_nil, or_false] at hmem
  rcases hmem with h|h|h|h|h|h|h|h|h|h
  · rw [delStep_coll st aff r h]
    exact (mem_removeAffected_iff x r.row_id aff).mpr ⟨hx, fun he => (hne h) he.symm⟩
  · rw [delStep_vocab st aff r h]
    dsimp only
    split
    · exact mem_insertAffected_of_mem _ _ _ hx
    · exact hx
  · rw [delStep_wp st aff r h]; exact hx
  · rw [delStep_ls st aff r h]; exact hx
  · rw [delStep_ps st aff r h]; exact hx
  · rw [delStep_pp st aff r h]; exact hx
  · rw [delStep_ull st aff r h]; exact hx
  · rw [delStep_topic st aff r h]; exact hx
  · rw [delStep_tag st aff r h]; exact hx
  · rw [delStep_csu st aff r h]; exact hx

theorem delFold_aff_keep :
    ∀ (dls : List SyncRecord) (st : DbState) (aff : List String) (x : String),
      (∀ d ∈ dls, d.table_name ∈ SYNCED_TABLES) → x ∈ aff →
      (∀ d ∈ dls, d.table_name = "collections" → d.row_id ≠ x) →
      x ∈ (List.foldl applyDelStep ⟨st, aff, none⟩ dls).affected := by
  intro dls
  induction dls with
  | nil => intro st aff x _ hx _; exact hx
  | cons d ds ih =>
    intro st aff x hmem hx hne
    rw [List.foldl_cons]
    have herr : (applyDelStep ⟨st, aff, none⟩ d).err = none :=
      delStep_err_none _ d rfl (hmem d (List.mem_cons_self _ _))
    rw [applyAcc_eta_none _ herr]
    exact ih _ _ x (fun y hy => hmem y (List.mem_cons_of_mem _ hy))
      (delStep_aff_keep st aff d x (hmem d (List.mem_cons_self _ _)) hx
        (hne d (List.mem_cons_self _ _)))
      (fun y hy => hne y (List.mem_cons_of_mem _ hy))

end ChamSync

namespace ChamSync

/-! ## Claim C3: row facts established by the first non-deleted pass -/

/-- After its own step, a non-deleted record's row exists and is a fixed
point of the record's column writes (a record of an unknown table has no
row facts to establish). -/
theorem ndStep_fix_self (uid : Option String) (now : Int) (st : DbState)
    (aff : List String) (r : SyncRecord)
    (hcid : r.table_name = "vocabularies" →
      ((r.data.getField "collectionId").asStr).isSome = true) :
    RowFixed uid now (applyNdStep uid now ⟨st, aff, none⟩ r).st r := by
  by_cases hmem : r.table_name ∈ SYNCED_TABLES
  · simp only [SYNCED_TABLES, List.mem_cons, List.not_mem_nil, or_false] at hmem
    rcases hmem with h|h|h|h|h|h|h|h|h|h
    · rw [ndStep_coll uid now st aff r h]
      refine ⟨fun _ => ⟨?_, ?_⟩, ?_, ?_, ?_, ?_, ?_, ?_, ?_, ?_, ?_⟩
      · dsimp only
        unfold apply_collection_change
        exact hasRow_upsert_self CollectionRow.id st.collections r.row_id _ _
          (collFresh_key uid now r) (collUpd_key uid now r)
      · dsimp only
        unfold apply_collection_change
        exact allKey_upsert_self CollectionRow.id st.collections r.row_id _ _
          (collUpd_idem uid now r) (collUpd_idem uid now r (collBase now r))
      all_goals (intro heq; exact absurd (h.symm.trans heq) (by decide))
    · rcases Option.isSome_iff_exists.mp (hcid h) with ⟨cid, hcv⟩
      have hco : cidOf r = cid := by rw [cidOf, hcv]; rfl
      rw [applyNdStep_vocab uid now st aff r cid h hcv]
      refine ⟨?_, fun _ => ⟨?_, ?_⟩, ?_, ?_, ?_, ?_, ?_, ?_, ?_, ?_⟩
      · intro heq
        exact absurd (h.symm.trans heq) (by decide)
      · exact hasRow_upsert_self VocabularyRow.id st.vocabularies r.row_id _ _
          (vocabFresh_key now r cid) (vocabUpd_key now r cid)
      · rw [hco]
        exact allKey_upsert_self VocabularyRow.id st.vocabularies r.row_id _ _
          (vocabUpd_idem now r cid) (vocabUpd_idem now r cid (vocabBase now r))
      all_goals (intro heq; exact absurd (h.symm.trans heq) (by decide))
    · rw [ndStep_wp uid now st aff r h]
      refine ⟨?_, ?_, fun _ => ⟨?_, ?_⟩, ?_, ?_, ?_, ?_, ?_, ?_, ?_⟩
      · intro heq
        exact absurd (h.symm.trans heq) (by decide)
      · intro heq
        exact absurd (h.symm.trans heq) (by decide)
      · dsimp only
        unfold apply_word_progress_change
        exact hasRow_upsert_self WordProgressRow.id st.word_progress r.row_id _ _
          (wpFresh_key now st.vocabularies r) (wpUpd_key now r)
      · dsimp only
        unfold apply_word_progress_change
        exact allKey_upsert_self WordProgressRow.id st.word_progress r.row_id _ _
          (wpUpd_idem now r) (wpUpd_idem now r (wpBase now st.vocabularies r))
      all_goals (intro heq; exact absurd (h.symm.trans heq) (by decide))
    · rw [ndStep_ls uid now st aff r h]
      refine ⟨?_, ?_, ?_, fun _ => ⟨?_, ?_⟩, ?_, ?_, ?_, ?_, ?_, ?_⟩
      · intro heq
        exact absurd (h.symm.trans heq) (by decide)
      · intro heq
        exact absurd (h.symm.trans heq) (by decide)
      · intro heq
        exact absurd (h.symm.trans heq) (by decide)
      · dsimp only
        unfold apply_learning_settings_change
        exact hasRow_upsert_self LearningSettingsRow.id st.learning_settings r.row_id _ _
          (lsFresh_key now r) (lsUpd_key now r)
      · dsimp only
        unfold apply_learning_settings_change
        exact allKey_upsert_self LearningSettingsRow.id st.learning_settings r.row_id _ _
          (lsUpd_idem now r) (lsUpd_idem now r (lsBase now r))
      all_goals (intro heq; exact absurd (h.symm.trans heq) (by decide))
    · rw [ndStep_ps uid now st aff r h]
      refine ⟨?_, ?_, ?_, ?_, fun _ => ⟨?_, ?_⟩, ?_, ?_, ?_, ?_, ?_⟩
      · intro heq
        exact absurd (h.symm.trans heq) (by decide)
      · intro heq
        exact absurd (h.symm.trans heq) (by decide)
      · intro heq
        exact absurd (h.symm.trans heq) (by decide)
      · intro heq
        exact absurd (h.symm.trans heq) (by decide)
      · dsimp only
        unfold apply_practice_session_change
        exact hasRow_upsert_self PracticeSessionRow.id st.practice_sessions r.row_id _ _
          (psFresh_key now r) (psUpd_key now r)
      · dsimp only
        unfold apply_practice_session_change
        exact allKey_upsert_self PracticeSessionRow.id st.practice_sessions r.row_id _ _
          (psUpd_idem now r) (psUpd_idem now r (psBase now r))
      all_goals (intro heq; exact absurd (h.symm.trans heq) (by decide))
    · rw [ndStep_pp uid now st aff r h]
      refine ⟨?_, ?_, ?_, ?_, ?_, fun _ => ⟨?_, ?_⟩, ?_, ?_, ?_, ?_⟩
      · intro heq
        exact absurd (h.symm.trans heq) (by decide)
      · intro heq
        exact absurd (h.symm.trans heq) (by decide)
      · intro heq
        exact absurd (h.symm.trans heq) (by decide)
      · intro heq
        exact absurd (h.symm.trans heq) (by decide)
      · intro heq
        exact absurd (h.symm.trans heq) (by decide)
      · dsimp only
        unfold apply_practice_progress_change
        exact hasRow_upsert_self PracticeProgressRow.id st.practice_progress r.row_id _ _
          (ppFresh_key now r) (ppUpd_key now r)
      · dsimp only
        unfold apply_practice_progress_change
        exact allKey_upsert_self PracticeProgressRow.id st.practice_progress r.row_id _ _
          (ppUpd_idem now r) (ppUpd_idem now r (ppBase now r))
      all_goals (intro heq; exact absurd (h.symm.trans heq) (by decide))
    · rw [ndStep_ull uid now st aff r h]
      refine ⟨?_, ?_, ?_, ?_, ?_, ?_, fun _ => ⟨?_, ?_⟩, ?_, ?_, ?_⟩
      · intro heq
        exact absurd (h.symm.trans heq) (by decide)
      · intro heq
        exact absurd (h.symm.trans heq) (by decide)
      · intro heq
        exact absurd (h.symm.trans heq) (by decide)
      · intro heq
        exact absurd (h.symm.trans heq) (by decide)
      · intro heq
        exact absurd (h.symm.trans heq) (by decide)
      · intro heq
        exact absurd (h.symm.trans heq) (by decide)
      · dsimp only
        unfold apply_user_learning_language_change
        exact hasRow_upsert_self UserLearningLanguageRow.id st.user_learning_languages r.row_id _ _
          (ullFresh_key now r) (ullUpd_key now r)
      · dsimp only
        unfold apply_user_learning_language_change
        exact allKey_upsert_self UserLearningLanguageRow.id st.user_learning_languages r.row_id _ _
          (ullUpd_idem now r) (ullUpd_idem now r (ullBase now r))
      all_goals (intro heq; exact absurd (h.symm.trans heq) (by decide))
    · rw [ndStep_topic uid now st aff r h]
      refine ⟨?_, ?_, ?_, ?_, ?_, ?_, ?_, fun _ => ⟨?_, ?_⟩, ?_, ?_⟩
      · intro heq
        exact absurd (h.symm.trans heq) (by decide)
      · intro heq
        exact absurd (h.symm.trans heq) (by decide)
      · intro heq
        exact absurd (h.symm.trans heq) (by decide)
      · intro heq
        exact absurd (h.symm.trans heq) (by decide)
      · intro heq
        exact absurd (h.symm.trans heq) (by decide)
      · intro heq
        exact absurd (h.symm.trans heq) (by decide)
      · intro heq
        exact absurd (h.symm.trans heq) (by decide)
      · dsimp only
        unfold apply_topic_change
        exact hasRow_upsert_self TopicRow.id st.topics r.row_id _ _
          (topicFresh_key now r) (topicUpd_key now r)
      · dsimp only
        unfold apply_topic_change
        exact allKey_upsert_self TopicRow.id st.topics r.row_id _ _
          (topicUpd_idem now r) (topicUpd_idem now r (topicBase now r))
      all_goals (intro heq; exact absurd (h.symm.trans heq) (by decide))
    · rw [ndStep_tag uid now st aff r h]
      refine ⟨?_, ?_, ?_, ?_, ?_, ?_, ?_, ?_, fun _ => ⟨?_, ?_⟩, ?_⟩
      · intro heq
        exact absurd (h.symm.trans heq) (by decide)
      · intro heq
        exact absurd (h.symm.trans heq) (by decide)
      · intro heq
        exact absurd (h.symm.trans heq) (by decide)
      · intro heq
        exact absurd (h.symm.trans heq) (by decide)
      · intro heq
        exact absurd (h.symm.trans heq) (by decide)
      · intro heq
        exact absurd (h.symm.trans heq) (by decide)
      · intro heq
        exact absurd (h.symm.trans heq) (by decide)
      · intro heq
        exact absurd (h.symm.trans heq) (by decide)
      · dsimp only
        unfold apply_tag_change
        exact hasRow_upsert_self TagRow.id st.tags r.row_id _ _
          (tagFresh_key now r) (tagUpd_key now r)
      · dsimp only
        unfold apply_tag_change
        exact allKey_upsert_self TagRow.id st.tags r.row_id _ _
          (tagUpd_idem now r) (tagUpd_idem now r (tagBase now r))
      all_goals (intro heq; exact absurd (h.symm.trans heq) (by decide))
    · rw [ndStep_csu uid now st aff r h]
      refine ⟨?_, ?_, ?_, ?_, ?_, ?_, ?_, ?_, ?_, fun _ => ⟨?_, ?_⟩⟩
      · intro heq
        exact absurd (h.symm.trans heq) (by decide)
      · intro heq
        exact absurd (h.symm.trans heq) (by decide)
      · intro heq
        exact absurd (h.symm.trans heq) (by decide)
      · intro heq
        exact absurd (h.symm.trans heq) (by decide)
      · intro heq
        exact absurd (h.symm.trans heq) (by decide)
      · intro heq
        exact absurd (h.symm.trans heq) (by decide)
      · intro heq
        exact absurd (h.symm.trans heq) (by decide)
      · intro heq
        exact absurd (h.symm.trans heq) (by decide)
      · intro heq
        exact absurd (h.symm.trans heq) (by decide)
      · dsimp only
        unfold apply_collection_shared_user_change
        exact hasRow_upsert_self CsuRow.id st.collection_shared_users r.row_id _ _
          (csuFresh_key now r) (csuUpd_key now r)
      · dsimp only
        unfold apply_collection_shared_user_change
        exact allKey_upsert_self CsuRow.id st.collection_shared_users r.row_id _ _
          (csuUpd_idem now r) (csuUpd_idem now r (csuBase now r))
  · rw [ndStep_unknown uid now st aff r hmem]
    refine ⟨?_, ?_, ?_, ?_, ?_, ?_, ?_, ?_, ?_, ?_⟩
    all_goals (intro heq; exact absurd (by rw [heq]; decide) hmem)

end ChamSync

namespace ChamSync

/-- A non-deleted step for a different (table, row_id) pair preserves a
record's row facts. -/
theorem ndStep_fix_pres (uid : Option String) (now : Int) (st : DbState)
    (aff : List String) (r' r : SyncRecord)
    (hcid : r'.table_name = "vocabularies" →
      ((r'.data.getField "collectionId").asStr).isSome = true)
    (hdis : r'.table_name = r.table_name → r'.row_id ≠ r.row_id)
    (hfix : RowFixed uid now st r) :
    RowFixed uid now (applyNdStep uid now ⟨st, aff, none⟩ r').st r := by
  obtain ⟨hc, hv, hw, hl, hp, hpp, hu, ht, hg, hcsu⟩ := hfix
  by_cases hmem : r'.table_name ∈ SYNCED_TABLES
  · simp only [SYNCED_TABLES, List.mem_cons, List.not_mem_nil, or_false] at hmem
    rcases hmem with h|h|h|h|h|h|h|h|h|h
    · rw [ndStep_coll uid now st aff r' h]
      refine ⟨fun heq => ⟨?_, ?_⟩, hv, hw, hl, hp, hpp, hu, ht, hg, hcsu⟩
      · have hne : r.row_id ≠ r'.row_id := Ne.symm (hdis (h.trans heq.symm))
        dsimp only
        unfold apply_collection_change
        rw [hasRow_upsert_ne CollectionRow.id st.collections r.row_id r'.row_id _ _
          (collFresh_key uid now r') (collUpd_key uid now r') hne]
        exact (hc heq).1
      · have hne : r.row_id ≠ r'.row_id := Ne.symm (hdis (h.trans heq.symm))
        exact allKey_upsert_ne CollectionRow.id st.collections r.row_id r'.row_id _ _
          (collFresh_key uid now r') (collUpd_key uid now r') hne _ ((hc heq).2)
    · rcases Option.isSome_iff_exists.mp (hcid h) with ⟨cid, hcv⟩
      rw [applyNdStep_vocab uid now st aff r' cid h hcv]
      refine ⟨hc, fun heq => ⟨?_, ?_⟩, hw, hl, hp, hpp, hu, ht, hg, hcsu⟩
      · have hne : r.row_id ≠ r'.row_id := Ne.symm (hdis (h.trans heq.symm))
        dsimp only
        rw [hasRow_upsert_ne VocabularyRow.id st.vocabularies r.row_id r'.row_id _ _
          (vocabFresh_key now r' cid) (vocabUpd_key now r' cid) hne]
        exact (hv heq).1
      · have hne : r.row_id ≠ r'.row_id := Ne.symm (hdis (h.trans heq.symm))
        exact allKey_upsert_ne VocabularyRow.id st.vocabularies r.row_id r'.row_id _ _
          (vocabFresh_key now r' cid) (vocabUpd_key now r' cid) hne _ ((hv heq).2)
    · rw [ndStep_wp uid now st aff r' h]
      refine ⟨hc, hv, fun heq => ⟨?_, ?_⟩, hl, hp, hpp, hu, ht, hg, hcsu⟩
      · have hne : r.row_id ≠ r'.row_id := Ne.symm (hdis (h.trans heq.symm))
        dsimp only
        unfold apply_word_progress_change
        rw [hasRow_upsert_ne WordProgressRow.id st.word_progress r.row_id r'.row_id _ _
          (wpFresh_key now st.vocabularies r') (wpUpd_key now r') hne]
        exact (hw heq).1
      · have hne : r.row_id ≠ r'.row_id := Ne.symm (hdis (h.trans heq.symm))
        exact allKey_upsert_ne WordProgressRow.id st.word_progress r.row_id r'.row_id _ _
          (wpFresh_key now st.vocabularies r') (wpUpd_key now r') hne _ ((hw heq).2)
    · rw [ndStep_ls uid now st aff r' h]
      refine ⟨hc, hv, hw, fun heq => ⟨?_, ?_⟩, hp, hpp, hu, ht, hg, hcsu⟩
      · have hne : r.row_id ≠ r'.row_id := Ne.symm (hdis (h.trans heq.symm))
        dsimp only
        unfold apply_learning_settings_change
        rw [hasRow_upsert_ne LearningSettingsRow.id st.learning_settings r.row_id r'.row_id _ _
          (lsFresh_key now r') (lsUpd_key now r') hne]
        exact (hl heq).1
      · have hne : r.row_id ≠ r'.row_id := Ne.symm (hdis (h.trans heq.symm))
        exact allKey_upsert_ne LearningSettingsRow.id st.learning_settings r.row_id r'.row_id _ _
          (lsFresh_key now r') (lsUpd_key now r') hne _ ((hl heq).2)
    · rw [ndStep_ps uid now st aff r' h]
      refine ⟨hc, hv, hw, hl, fun heq => ⟨?_, ?_⟩, hpp, hu, ht, hg, hcsu⟩
      · have hne : r.row_id ≠ r'.row_id := Ne.symm (hdis (h.trans heq.symm))
        dsimp only
        unfold apply_practice_session_change
        rw [hasRow_upsert_ne PracticeSessionRow.id st.practice_sessions r.row_id r'.row_id _ _
          (psFresh_key now r') (psUpd_key now r') hne]
        exact (hp heq).1
      · have hne : r.row_id ≠ r'.row_id := Ne.symm (hdis (h.trans heq.symm))
        exact allKey_upsert_ne PracticeSessionRow.id st.practice_sessions r.row_id r'.row_id _ _
          (psFresh_key now r') (psUpd_key now r') hne _ ((hp heq).2)
    · rw [ndStep_pp uid now st aff r' h]
      refine ⟨hc, hv, hw, hl, hp, fun heq => ⟨?_, ?_⟩, hu, ht, hg, hcsu⟩
      · have hne : r.row_id ≠ r'.row_id := Ne.symm (hdis (h.trans heq.symm))
        dsimp only
        unfold apply_practice_progress_change
        rw [hasRow_upsert_ne PracticeProgressRow.id st.practice_progress r.row_id r'.row_id _ _
          (ppFresh_key now r') (ppUpd_key now r') hne]
        exact (hpp heq).1
      · have hne : r.row_id ≠ r'.row_id := Ne.symm (hdis (h.trans heq.symm))
        exact allKey_upsert_ne PracticeProgressRow.id st.practice_progress r.row_id r'.row_id _ _
          (ppFresh_key now r') (ppUpd_key now r') hne _ ((hpp heq).2)
    · rw [ndStep_ull uid now st aff r' h]
      refine ⟨hc, hv, hw, hl, hp, hpp, fun heq => ⟨?_, ?_⟩, ht, hg, hcsu⟩
      · have hne : r.row_id ≠ r'.row_id := Ne.symm (hdis (h.trans heq.symm))
        dsimp only
        unfold apply_user_learning_language_change
        rw [hasRow_upsert_ne UserLearningLanguageRow.id st.user_learning_languages r.row_id r'.row_id _ _
          (ullFresh_key now r') (ullUpd_key now r') hne]
        exact (hu heq).1
      · have hne : r.row_id ≠ r'.row_id := Ne.symm (hdis (h.trans heq.symm))
        exact allKey_upsert_ne UserLearningLanguageRow.id st.user_learning_languages r.row_id r'.row_id _ _
          (ullFresh_key now r') (ullUpd_key now r') hne _ ((hu heq).2)
    · rw [ndStep_topic uid now st aff r' h]
      refine ⟨hc, hv, hw, hl, hp, hpp, hu, fun heq => ⟨?_, ?_⟩, hg, hcsu⟩
      · have hne : r.row_id ≠ r'.row_id := Ne.symm (hdis (h.trans heq.symm))
        dsimp only
        unfold apply_topic_change
        rw [hasRow_upsert_ne TopicRow.id st.topics r.row_id r'.row_id _ _
          (topicFresh_key now r') (topicUpd_key now r') hne]
        exact (ht heq).1
      · have hne : r.row_id ≠ r'.row_id := Ne.symm (hdis (h.trans heq.symm))
        exact allKey_upsert_ne TopicRow.id st.topics r.row_id r'.row_id _ _
          (topicFresh_key now r') (topicUpd_key now r') hne _ ((ht heq).2)
    · rw [ndStep_tag uid now st aff r' h]
      refine ⟨hc, hv, hw, hl, hp, hpp, hu, ht, fun heq => ⟨?_, ?_⟩, hcsu⟩
      · have hne : r.row_id ≠ r'.row_id := Ne.symm (hdis (h.trans heq.symm))
        dsimp only
        unfold apply_tag_change
        rw [hasRow_upsert_ne TagRow.id st.tags r.row_id r'.row_id _ _
          (tagFresh_key now r') (tagUpd_key now r') hne]
        exact (hg heq).1
      · have hne : r.row_id ≠ r'.row_id := Ne.symm (hdis (h.trans heq.symm))
        exact allKey_upsert_ne TagRow.id st.tags r.row_id r'.row_id _ _
          (tagFresh_key now r') (tagUpd_key now r') hne _ ((hg heq).2)
    · rw [ndStep_csu uid now st aff r' h]
      refine ⟨hc, hv, hw, hl, hp, hpp, hu, ht, hg, fun heq => ⟨?_, ?_⟩⟩
      · have hne : r.row_id ≠ r'.row_id := Ne.symm (hdis (h.trans heq.symm))
        dsimp only
        unfold apply_collection_shared_user_change
        rw [hasRow_upsert_ne CsuRow.id st.collection_shared_users r.row_id r'.row_id _ _
          (csuFresh_key now r') (csuUpd_key now r') hne]
        exact (hcsu heq).1
      · have hne : r.row_id ≠ r'.row_id := Ne.symm (hdis (h.trans heq.symm))
        exact allKey_upsert_ne CsuRow.id st.collection_shared_users r.row_id r'.row_id _ _
          (csuFresh_key now r') (csuUpd_key now r') hne _ ((hcsu heq).2)
  · rw [ndStep_unknown uid now st aff r' hmem]
    exact ⟨hc, hv, hw, hl, hp, hpp, hu, ht, hg, hcsu⟩

end ChamSync

namespace ChamSync

/-! ## Claim C3: row absence established by the first deleted pass -/

/-- After its own step, a deleted record's rows are gone. -/
theorem delStep_gone_self (st : DbState) (aff : List String) (r : SyncRecord)
    (hmem : r.table_name ∈ SYNCED_TABLES) :
    RowGone (applyDelStep ⟨st, aff, none⟩ r).st r := by
  simp only [SYNCED_TABLES, List.mem_cons, List.not_mem_nil, or_false] at hmem
  rcases hmem with h|h|h|h|h|h|h|h|h|h
  · rw [delStep_coll st aff r h]
    refine ⟨fun _ => hasRow_deleteRows_self CollectionRow.id st.collections r.row_id, ?_, ?_, ?_, ?_, ?_, ?_, ?_, ?_, ?_⟩
    all_goals (intro heq; exact absurd (h.symm.trans heq) (by decide))
  · rw [delStep_vocab st aff r h]
    refine ⟨?_, fun _ => hasRow_deleteRows_self VocabularyRow.id st.vocabularies r.row_id, ?_, ?_, ?_, ?_, ?_, ?_, ?_, ?_⟩
    all_goals (intro heq; exact absurd (h.symm.trans heq) (by decide))
  · rw [delStep_wp st aff r h]
    refine ⟨?_, ?_, fun _ => hasRow_deleteRows_self WordProgressRow.id st.word_progress r.row_id, ?_, ?_, ?_, ?_, ?_, ?_, ?_⟩
    all_goals (intro heq; exact absurd (h.symm.trans heq) (by decide))
  · rw [delStep_ls st aff r h]
    refine ⟨?_, ?_, ?_, fun _ => hasRow_deleteRows_self LearningSettingsRow.id st.learning_settings r.row_id, ?_, ?_, ?_, ?_, ?_, ?_⟩
    all_goals (intro heq; exact absurd (h.symm.trans heq) (by decide))
  · rw [delStep_ps st aff r h]
    refine ⟨?_, ?_, ?_, ?_, fun _ => hasRow_deleteRows_self PracticeSessionRow.id st.practice_sessions r.row_id, ?_, ?_, ?_, ?_, ?_⟩
    all_goals (intro heq; exact absurd (h.symm.trans heq) (by decide))
  · rw [delStep_pp st aff r h]
    refine ⟨?_, ?_, ?_, ?_, ?_, fun _ => hasRow_deleteRows_self PracticeProgressRow.id st.practice_progress r.row_id, ?_, ?_, ?_, ?_⟩
    all_goals (intro heq; exact absurd (h.symm.trans heq) (by decide))
  · rw [delStep_ull st aff r h]
    refine ⟨?_, ?_, ?_, ?_, ?_, ?_, fun _ => hasRow_deleteRows_self UserLearningLanguageRow.id st.user_learning_languages r.row_id, ?_, ?_, ?_⟩
    all_goals (intro heq; exact absurd (h.symm.trans heq) (by decide))
  · rw [delStep_topic st aff r h]
    refine ⟨?_, ?_, ?_, ?_, ?_, ?_, ?_, fun _ => hasRow_deleteRows_self TopicRow.id st.topics r.row_id, ?_, ?_⟩
    all_goals (intro heq; exact absurd (h.symm.trans heq) (by decide))
  · rw [delStep_tag st aff r h]
    refine ⟨?_, ?_, ?_, ?_, ?_, ?_, ?_, ?_, fun _ => hasRow_deleteRows_self TagRow.id st.tags r.row_id, ?_⟩
    all_goals (intro heq; exact absurd (h.symm.trans heq) (by decide))
  · rw [delStep_csu st aff r h]
    refine ⟨?_, ?_, ?_, ?_, ?_, ?_, ?_, ?_, ?_, fun _ => hasRow_deleteRows_self CsuRow.id st.collection_shared_users r.row_id⟩
    all_goals (intro heq; exact absurd (h.symm.trans heq) (by decide))

/-- A deleted step preserves another record's row absence. -/
theorem delStep_gone_pres (st : DbState) (aff : List String)
    (r' r : SyncRecord) (hmem : r'.table_name ∈ SYNCED_TABLES)
    (hgone : RowGone st r) :
    RowGone (applyDelStep ⟨st, aff, none⟩ r').st r := by
  obtain ⟨hc, hv, hw, hl, hp, hpp, hu, ht, hg, hcsu⟩ := hgone
  simp only [SYNCED_TABLES, List.mem_cons, List.not_mem_nil, or_false] at hmem
  rcases hmem with h|h|h|h|h|h|h|h|h|h
  · rw [delStep_coll st aff r' h]
    exact ⟨fun heq => hasRow_deleteRows_false CollectionRow.id st.collections r.row_id r'.row_id (hc heq), hv, hw, hl, hp, hpp, hu, ht, hg, hcsu⟩
  · rw [delStep_vocab st aff r' h]
    exact ⟨hc, fun heq => hasRow_deleteRows_false VocabularyRow.id st.vocabularies r.row_id r'.row_id (hv heq), hw, hl, hp, hpp, hu, ht, hg, hcsu⟩
  · rw [delStep_wp st aff r' h]
    exact ⟨hc, hv, fun heq => hasRow_deleteRows_false WordProgressRow.id st.word_progress r.row_id r'.row_id (hw heq), hl, hp, hpp, hu, ht, hg, hcsu⟩
  · rw [delStep_ls st aff r' h]
    exact ⟨hc, hv, hw, fun heq => hasRow_deleteRows_false LearningSettingsRow.id st.learning_settings r.row_id r'.row_id (hl heq), hp, hpp, hu, ht, hg, hcsu⟩
  · rw [delStep_ps st aff r' h]
    exact ⟨hc, hv, hw, hl, fun heq => hasRow_deleteRows_false PracticeSessionRow.id st.practice_sessions r.row_id r'.row_id (hp heq), hpp, hu, ht, hg, hcsu⟩
  · rw [delStep_pp st aff r' h]
    exact ⟨hc, hv, hw, hl, hp, fun heq => hasRow_deleteRows_false PracticeProgressRow.id st.practice_progress r.row_id r'.row_id (hpp heq), hu, ht, hg, hcsu⟩
  · rw [delStep_ull st aff r' h]
    exact ⟨hc, hv, hw, hl, hp, hpp, fun heq => hasRow_deleteRows_false UserLearningLanguageRow.id st.user_learning_languages r.row_id r'.row_id (hu heq), ht, hg, hcsu⟩
  · rw [delStep_topic st aff r' h]
    exact ⟨hc, hv, hw, hl, hp, hpp, hu, fun heq => hasRow_deleteRows_false TopicRow.id st.topics r.row_id r'.row_id (ht heq), hg, hcsu⟩
  · rw [delStep_tag st aff r' h]
    exact ⟨hc, hv, hw, hl, hp, hpp, hu, ht, fun heq => hasRow_deleteRows_false TagRow.id st.tags r.row_id r'.row_id (hg heq), hcsu⟩
  · rw [delStep_csu st aff r' h]
    exact ⟨hc, hv, hw, hl, hp, hpp, hu, ht, hg, fun heq => hasRow_deleteRows_false CsuRow.id st.collection_shared_users r.row_id r'.row_id (hcsu heq)⟩

/-- A deleted step for a different (table, row_id) pair preserves a
record's row facts. -/
theorem delStep_fix_pres (uid : Option String) (now : Int) (st : DbState)
    (aff : List String) (r' r : SyncRecord)
    (hmem : r'.table_name ∈ SYNCED_TABLES)
    (hdis : r'.table_name = r.table_name → r'.row_id ≠ r.row_id)
    (hfix : RowFixed uid now st r) :
    RowFixed uid now (applyDelStep ⟨st, aff, none⟩ r').st r := by
  obtain ⟨hc, hv, hw, hl, hp, hpp, hu, ht, hg, hcsu⟩ := hfix
  simp only [SYNCED_TABLES, List.mem_cons, List.not_mem_nil, or_false] at hmem
  rcases hmem with h|h|h|h|h|h|h|h|h|h
  · rw [delStep_coll st aff r' h]
    refine ⟨fun heq => ⟨?_, ?_⟩, hv, hw, hl, hp, hpp, hu, ht, hg, hcsu⟩
    · have hne : r.row_id ≠ r'.row_id := Ne.symm (hdis (h.trans heq.symm))
      dsimp only
      rw [hasRow_deleteRows_ne CollectionRow.id st.collections r.row_id r'.row_id hne]
      exact (hc heq).1
    · exact allKey_deleteRows CollectionRow.id st.collections r.row_id r'.row_id _
        ((hc heq).2)
  · rw [delStep_vocab st aff r' h]
    refine ⟨hc, fun heq => ⟨?_, ?_⟩, hw, hl, hp, hpp, hu, ht, hg, hcsu⟩
    · have hne : r.row_id ≠ r'.row_id := Ne.symm (hdis (h.trans heq.symm))
      dsimp only
      rw [hasRow_deleteRows_ne VocabularyRow.id st.vocabularies r.row_id r'.row_id hne]
      exact (hv heq).1
    · exact allKey_deleteRows VocabularyRow.id st.vocabularies r.row_id r'.row_id _
        ((hv heq).2)
  · rw [delStep_wp st aff r' h]
    refine ⟨hc, hv, fun heq => ⟨?_, ?_⟩, hl, hp, hpp, hu, ht, hg, hcsu⟩
    · have hne : r.row_id ≠ r'.row_id := Ne.symm (hdis (h.trans heq.symm))
      dsimp only
      rw [hasRow_deleteRows_ne WordProgressRow.id st.word_progress r.row_id r'.row_id hne]
      exact (hw heq).1
    · exact allKey_deleteRows WordProgressRow.id st.word_progress r.row_id r'.row_id _
        ((hw heq).2)
  · rw [delStep_ls st aff r' h]
    refine ⟨hc, hv, hw, fun heq => ⟨?_, ?_⟩, hp, hpp, hu, ht, hg, hcsu⟩
    · have hne : r.row_id ≠ r'.row_id := Ne.symm (hdis (h.trans heq.symm))
      dsimp only
      rw [hasRow_deleteRows_ne LearningSettingsRow.id st.learning_settings r.row_id r'.row_id hne]
      exact (hl heq).1
    · exact allKey_deleteRows LearningSettingsRow.id st.learning_settings r.row_id r'.row_id _
        ((hl heq).2)
  · rw [delStep_ps st aff r' h]
    refine ⟨hc, hv, hw, hl, fun heq => ⟨?_, ?_⟩, hpp, hu, ht, hg, hcsu⟩
    · have hne : r.row_id ≠ r'.row_id := Ne.symm (hdis (h.trans heq.symm))
      dsimp only
      rw [hasRow_deleteRows_ne PracticeSessionRow.id st.practice_sessions r.row_id r'.row_id hne]
      exact (hp heq).1
    · exact allKey_deleteRows PracticeSessionRow.id st.practice_sessions r.row_id r'.row_id _
        ((hp heq).2)
  · rw [delStep_pp st aff r' h]
    refine ⟨hc, hv, hw, hl, hp, fun heq => ⟨?_, ?_⟩, hu, ht, hg, hcsu⟩
    · have hne : r.row_id ≠ r'.row_id := Ne.symm (hdis (h.trans heq.symm))
      dsimp only
      rw [hasRow_deleteRows_ne PracticeProgressRow.id st.practice_progress r.row_id r'.row_id hne]
      exact (hpp heq).1
    · exact allKey_deleteRows PracticeProgressRow.id st.practice_progress r.row_id r'.row_id _
        ((hpp heq).2)
  · rw [delStep_ull st aff r' h]
    refine ⟨hc, hv, hw, hl, hp, hpp, fun heq => ⟨?_, ?_⟩, ht, hg, hcsu⟩
    · have hne : r.row_id ≠ r'.row_id := Ne.symm (hdis (h.trans heq.symm))
      dsimp only
      rw [hasRow_deleteRows_ne UserLearningLanguageRow.id st.user_learning_languages r.row_id r'.row_id hne]
      exact (hu heq).1
    · exact allKey_deleteRows UserLearningLanguageRow.id st.user_learning_languages r.row_id r'.row_id _
        ((hu heq).2)
  · rw [delStep_topic st aff r' h]
    refine ⟨hc, hv, hw, hl, hp, hpp, hu, fun heq => ⟨?_, ?_⟩, hg, hcsu⟩
    · have hne : r.row_id ≠ r'.row_id := Ne.symm (hdis (h.trans heq.symm))
      dsimp only
      rw [hasRow_deleteRows_ne TopicRow.id st.topics r.row_id r'.row_id hne]
      exact (ht heq).1
    · exact allKey_deleteRows TopicRow.id st.topics r.row_id r'.row_id _
        ((ht heq).2)
  · rw [delStep_tag st aff r' h]
    refine ⟨hc, hv, hw, hl, hp, hpp, hu, ht, fun heq => ⟨?_, ?_⟩, hcsu⟩
    · have hne : r.row_id ≠ r'.row_id := Ne.symm (hdis (h.trans heq.symm))
      dsimp only
      rw [hasRow_deleteRows_ne TagRow.id st.tags r.row_id r'.row_id hne]
      exact (hg heq).1
    · exact allKey_deleteRows TagRow.id st.tags r.row_id r'.row_id _
        ((hg heq).2)
  · rw [delStep_csu st aff r' h]
    refine ⟨hc, hv, hw, hl, hp, hpp, hu, ht, hg, fun heq => ⟨?_, ?_⟩⟩
    · have hne : r.row_id ≠ r'.row_id := Ne.symm (hdis (h.trans heq.symm))
      dsimp only
      rw [hasRow_deleteRows_ne CsuRow.id st.collection_shared_users r.row_id r'.row_id hne]
      exact (hcsu heq).1
    · exact allKey_deleteRows CsuRow.id st.collection_shared_users r.row_id r'.row_id _
        ((hcsu heq).2)

end ChamSync

namespace ChamSync

/-! ## Claim C3: row facts through whole passes -/

theorem ndFold_fix_pres (uid : Option String) (now : Int) :
    ∀ (rs : List SyncRecord) (st : DbState) (aff : List String) (r : SyncRecord),
      (∀ r' ∈ rs, r'.table_name = "vocabularies" →
        ((r'.data.getField "collectionId").asStr).isSome = true) →
      (∀ r' ∈ rs, r'.table_name = r.table_name → r'.row_id ≠ r.row_id) →
      RowFixed uid now st r →
      RowFixed uid now (List.foldl (applyNdStep uid now) ⟨st, aff, none⟩ rs).st r := by
  intro rs
  induction rs with
  | nil => intro st aff r _ _ hfix; exact hfix
  | cons r' rs ih =>
    intro st aff r hcid hdis hfix
    rw [List.foldl_cons]
    have herr : (applyNdStep uid now ⟨st, aff, none⟩ r').err = none :=
      ndStep_err_none uid now _ r' rfl (hcid r' (List.mem_cons_self _ _))
    rw [applyAcc_eta_none _ herr]
    exact ih _ _ r (fun y hy => hcid y (List.mem_cons_of_mem _ hy))
      (fun y hy => hdis y (List.mem_cons_of_mem _ hy))
      (ndStep_fix_pres uid now st aff r' r (hcid r' (List.mem_cons_self _ _))
        (hdis r' (List.mem_cons_self _ _)) hfix)

/-- After the first non-deleted pass, every record of the pass has its
row facts (keys pairwise distinct within the pass). -/
theorem ndFold_fix (uid : Option String) (now : Int) :
    ∀ (nds : List SyncRecord) (st : DbState) (aff : List String),
      (∀ r' ∈ nds, r'.table_name = "vocabularies" →
        ((r'.data.getField "collectionId").asStr).isSome = true) →
      List.Pairwise (fun a c => a.table_name = c.table_name → a.row_id ≠ c.row_id) nds →
      ∀ r ∈ nds,
        RowFixed uid now (List.foldl (applyNdStep uid now) ⟨st, aff, none⟩ nds).st r := by
  intro nds
  induction nds with
  | nil => intro st aff _ _ r hr; cases hr
  | cons r' rs ih =>
    intro st aff hcid hpw r hr
    rcases List.pairwise_cons.mp hpw with ⟨hhead, htail⟩
    rw [List.foldl_cons]
    have herr : (applyNdStep uid now ⟨st, aff, none⟩ r').err = none :=
      ndStep_err_none uid now _ r' rfl (hcid r' (List.mem_cons_self _ _))
    rw [applyAcc_eta_none _ herr]
    rcases List.mem_cons.mp hr with rfl | hr2
    · exact ndFold_fix_pres uid now rs _ _ r
        (fun y hy => hcid y (List.mem_cons_of_mem _ hy))
        (fun y hy he => Ne.symm (hhead y hy he.symm))
        (ndStep_fix_self uid now st aff r (hcid r (List.mem_cons_self _ _)))
    · exact ih _ _ (fun y hy => hcid y (List.mem_cons_of_mem _ hy)) htail r hr2

theorem delFold_gone_pres :
    ∀ (ds : List SyncRecord) (st : DbState) (aff : List String) (r : SyncRecord),
      (∀ d ∈ ds, d.table_name ∈ SYNCED_TABLES) →
      RowGone st r →
      RowGone (List.foldl applyDelStep ⟨st, aff, none⟩ ds).st r := by
  intro ds
  induction ds with
  | nil => intro st aff r _ hgone; exact hgone
  | cons d ds ih =>
    intro st aff r hmem hgone
    rw [List.foldl_cons]
    have herr : (applyDelStep ⟨st, aff, none⟩ d).err = none :=
      delStep_err_none _ d rfl (hmem d (List.mem_cons_self _ _))
    rw [applyAcc_eta_none _ herr]
    exact ih _ _ r (fun y hy => hmem y (List.mem_cons_of_mem _ hy))
      (delStep_gone_pres st aff d r (hmem d (List.mem_cons_self _ _)) hgone)

/-- After the first deleted pass, every record of the pass has its rows
gone. -/
theorem delFold_gone :
    ∀ (dls : List SyncRecord) (st : DbState) (aff : List String),
      (∀ d ∈ dls, d.table_name ∈ SYNCED_TABLES) →
      ∀ d ∈ dls, RowGone (List.foldl applyDelStep ⟨st, aff, none⟩ dls).st d := by
  intro dls
  induction dls with
  | nil => intro st aff _ d hd; cases hd
  | cons d' ds ih =>
    intro st aff hmem d hd
    rw [List.foldl_cons]
    have herr : (applyDelStep ⟨st, aff, none⟩ d').err = none :=
      delStep_err_none _ d' rfl (hmem d' (List.mem_cons_self _ _))
    rw [applyAcc_eta_none _ herr]
    rcases List.mem_cons.mp hd with rfl | hd2
    · exact delFold_gone_pres ds _ _ d
        (fun y hy => hmem y (List.mem_cons_of_mem _ hy))
        (delStep_gone_self st aff d (hmem d (List.mem_cons_self _ _)))
    · exact ih _ _ (fun y hy => hmem y (List.mem_cons_of_mem _ hy)) d hd2

/-- The deleted pass preserves the row facts of the non-deleted records
(their keys differ from every deleted key). -/
theorem delFold_fix_pres (uid : Option String) (now : Int) :
    ∀ (ds : List SyncRecord) (st : DbState) (aff : List String) (r : SyncRecord),
      (∀ d ∈ ds, d.table_name ∈ SYNCED_TABLES) →
      (∀ d ∈ ds, d.table_name = r.table_name → d.row_id ≠ r.row_id) →
      RowFixed uid now st r →
      RowFixed uid now (List.foldl applyDelStep ⟨st, aff, none⟩ ds).st r := by
  intro ds
  induction ds with
  | nil => intro st aff r _ _ hfix; exact hfix
  | cons d ds ih =>
    intro st aff r hmem hdis hfix
    rw [List.foldl_cons]
    have herr : (applyDelStep ⟨st, aff, none⟩ d).err = none :=
      delStep_err_none _ d rfl (hmem d (List.mem_cons_self _ _))
    rw [applyAcc_eta_none _ herr]
    exact ih _ _ r (fun y hy => hmem y (List.mem_cons_of_mem _ hy))
      (fun y hy => hdis y (List.mem_cons_of_mem _ hy))
      (delStep_fix_pres uid now st aff d r (hmem d (List.mem_cons_self _ _))
        (hdis d (List.mem_cons_self _ _)) hfix)

end ChamSync

namespace ChamSync

/-! ## Claim C3: row facts through the word-count recomputation -/

theorem recompRow_mem (V : List VocabularyRow) (aff : List String) (now : Int)
    (c : CollectionRow) (h : c.id ∈ aff) :
    recompRow V aff now c =
      { c with word_count := countVocab V c.id, updated_at := now } := by
  rw [recompRow, if_pos h]

theorem recompRow_not_mem (V : List VocabularyRow) (aff : List String) (now : Int)
    (c : CollectionRow) (h : c.id ∉ aff) : recompRow V aff now c = c := by
  rw [recompRow, if_neg h]

/-- The recomputation writes word_count and updated_at := now; a row that
is a fixed point of a record's column writes (which set updated_at := now
and never read or write word_count) stays one. -/
theorem collUpd_recompRow_fixed (uid : Option String) (now : Int) (r : SyncRecord)
    (V : List VocabularyRow) (aff : List String) (y : CollectionRow)
    (hy : collUpd uid now r y = y) :
    collUpd uid now r (recompRow V aff now y) = recompRow V aff now y := by
  by_cases h : y.id ∈ aff
  · rw [recompRow_mem V aff now y h]
    obtain ⟨i, n, d, lg, sh, pb, wc, ca, ua, sv, sa, dl⟩ := y
    simp only [collUpd] at hy ⊢
    rw [CollectionRow.mk.injEq] at hy ⊢
    obtain ⟨h0, h1, h2, h3, h4, h5, h6, h7, h8, h9, h10, h11⟩ := hy
    exact ⟨rfl, h1, h2, rfl, h4, h5, rfl, rfl, rfl, h9, h10, rfl⟩
  · rw [recompRow_not_mem V aff now y h]
    exact hy

theorem RowFixed_recomp (uid : Option String) (now : Int) (st : DbState)
    (aff : List String) (r : SyncRecord) (hfix : RowFixed uid now st r) :
    RowFixed uid now (recomputeAffected aff now st) r := by
  rw [recomputeAffected_eq]
  obtain ⟨hc, hv, hw, hl, hp, hpp, hu, ht, hg, hcsu⟩ := hfix
  refine ⟨fun heq => ⟨?_, ?_⟩, hv, hw, hl, hp, hpp, hu, ht, hg, hcsu⟩
  · dsimp only
    rw [hasRow_map CollectionRow.id st.collections r.row_id _
      (fun c => recompRow_id st.vocabularies aff now c)]
    exact (hc heq).1
  · exact allKey_map CollectionRow.id st.collections r.row_id _ _
      (fun c => recompRow_id st.vocabularies aff now c)
      (fun y hy => collUpd_recompRow_fixed uid now r st.vocabularies aff y hy)
      ((hc heq).2)

theorem RowGone_recomp (now : Int) (st : DbState) (aff : List String)
    (r : SyncRecord) (hgone : RowGone st r) :
    RowGone (recomputeAffected aff now st) r := by
  rw [recomputeAffected_eq]
  obtain ⟨hc, hv, hw, hl, hp, hpp, hu, ht, hg, hcsu⟩ := hgone
  refine ⟨fun heq => ?_, hv, hw, hl, hp, hpp, hu, ht, hg, hcsu⟩
  dsimp only
  rw [hasRow_map CollectionRow.id st.collections r.row_id _
    (fun c => recompRow_id st.vocabularies aff now c)]
  exact hc heq

/-- Recomputing a subset of the already-recomputed ids from the same
vocabularies table rewrites identical values. -/
theorem recompRow_subset_idem (V : List VocabularyRow) (aff aff2 : List String)
    (now : Int) (c : CollectionRow) (hsub : ∀ x ∈ aff2, x ∈ aff) :
    recompRow V aff2 now (recompRow V aff now c) = recompRow V aff now c := by
  by_cases hmem : c.id ∈ aff2
  · rw [recompRow_mem V aff now c (hsub _ hmem)]
    have h2 : ({ c with word_count := countVocab V c.id, updated_at := now } :
        CollectionRow).id ∈ aff2 := hmem
    rw [recompRow_mem V aff2 now _ h2]
  · rw [recompRow_not_mem V aff2 now _
      (by rw [recompRow_id V aff now c]; exact hmem)]

end ChamSync

namespace ChamSync

/-! ## Claim C3: key distinctness carries over to the two sorted passes -/

/-- Distinct (table, row_id) pairs survive the stable rank bucketing:
buckets of different ranks hold different table names, and each bucket is
a sublist of the input. -/
theorem nodup_pairs_bucketConcat (rank : String → Nat) (l : List SyncRecord) :
    ∀ (is : List Nat), is.Nodup →
      (l.map (fun x => (x.table_name, x.row_id))).Nodup →
      ((bucketConcat rank l is).map (fun x => (x.table_name, x.row_id))).Nodup := by
  intro is
  induction is with
  | nil => intro _ _; simp [bucketConcat]
  | cons i is ih =>
    intro hnd hl
    rcases List.nodup_cons.mp hnd with ⟨hi, his⟩
    rw [bucketConcat, List.map_append]
    refine List.Nodup.append
      (List.Nodup.sublist (List.Sublist.map _ (List.filter_sublist l)) hl)
      (ih his hl) ?_
    intro x hx1 hx2
    rcases List.mem_map.mp hx1 with ⟨a, ha, rfl⟩
    rcases List.mem_map.mp hx2 with ⟨c, hc, hpc⟩
    have hra : rank a.table_name = i := by
      simpa using (List.mem_filter.mp ha).2
    have hrc : rank c.table_name ∈ is := (mem_bucketConcat hc).2
    have htn : c.table_name = a.table_name := congrArg Prod.fst hpc
    exact hi (by rw [← hra, ← htn]; exact hrc)

/-- Within the non-deleted pass, (table, row_id) keys are pairwise
distinct whenever they are distinct in the batch. -/
theorem pairwise_keys_sortNonDeleted (b : List SyncRecord)
    (h : (b.map (fun x => (x.table_name, x.row_id))).Nodup) :
    List.Pairwise (fun a c => a.table_name = c.table_name → a.row_id ≠ c.row_id)
      (sortNonDeleted b) := by
  have h1 : ((b.filter (fun r => !r.deleted)).map
      (fun x => (x.table_name, x.row_id))).Nodup :=
    List.Nodup.sublist (List.Sublist.map _ (List.filter_sublist b)) h
  have h2 := nodup_pairs_bucketConcat nonDeletedRank _
    [0, 1, 2, 3, 4, 5, 6, 7, 8, 9, 10] (by decide) h1
  rw [← bucketsBy_eq_bucketConcat] at h2
  have h3 : List.Pairwise
      (fun a c => (a.table_name, a.row_id) ≠ (c.table_name, c.row_id))
      (sortNonDeleted b) := (List.pairwise_map).mp h2
  exact h3.imp (fun hne ht hr => hne (by rw [ht, hr]))

/-- A record of the deleted pass never shares its (table, row_id) key
with a record of the non-deleted pass. -/
theorem cross_keys_distinct (b : List SyncRecord)
    (h : (b.map (fun x => (x.table_name, x.row_id))).Nodup)
    (r d : SyncRecord) (hr : r ∈ sortNonDeleted b) (hd : d ∈ sortDeleted b) :
    d.table_name = r.table_name → d.row_id ≠ r.row_id := by
  intro ht hrid
  rcases mem_of_mem_sortNonDeleted hr with ⟨hrb, hrdel⟩
  rcases mem_of_mem_sortDeleted hd with ⟨hdb, hddel⟩
  have hdr : d = r := List.inj_on_of_nodup_map h hdb hrb (by rw [ht, hrid])
  rw [hdr, hrdel] at hddel
  exact Bool.false_ne_true hddel

end ChamSync

namespace ChamSync

/-- C3: applying the same pull response twice yields the same final local
state: under the pull contract (each (table, row_id) delivered at most
once per response, non-deleted vocabularies records carry their
collectionId, deleted records name synced tables), replaying
apply_remote_changes on the state produced by the first call returns that
state unchanged and without error — no duplicate rows and no word-count
drift. -/
theorem apply_remote_changes_idempotent (uid : Option String) (now : Int)
    (b : List SyncRecord) (s : DbState)
    (hnodup : (b.map (fun x => (x.table_name, x.row_id))).Nodup)
    (hvocab : ∀ r ∈ b, r.deleted = false → r.table_name = "vocabularies" →
      ((r.data.getField "collectionId").asStr).isSome = true)
    (hdel : ∀ r ∈ b, r.deleted = true → r.table_name ∈ SYNCED_TABLES) :
    apply_remote_changes uid now b (apply_remote_changes uid now b s).1 =
      ((apply_remote_changes uid now b s).1, none) := by
  have hvocabN : ∀ r ∈ sortNonDeleted b, r.table_name = "vocabularies" →
      ((r.data.getField "collectionId").asStr).isSome = true := by
    intro r hr htn
    rcases mem_of_mem_sortNonDeleted hr with ⟨hmem, hnd⟩
    exact hvocab r hmem hnd htn
  have hdelD : ∀ d ∈ sortDeleted b, d.table_name ∈ SYNCED_TABLES := by
    intro d hdm
    rcases mem_of_mem_sortDeleted hdm with ⟨hmem, hdl⟩
    exact hdel d hmem hdl
  have hA1err : (List.foldl (applyNdStep uid now) ⟨s, [], none⟩
      (sortNonDeleted b)).err = none :=
    ndFold_err_none uid now _ _ hvocabN rfl
  have hA1eta := applyAcc_eta_none _ hA1err
  have hA2err : (List.foldl applyDelStep
      (List.foldl (applyNdStep uid now) ⟨s, [], none⟩ (sortNonDeleted b))
      (sortDeleted b)).err = none :=
    delFold_err_none _ _ hdelD hA1err
  have hfirst : apply_remote_changes uid now b s =
      (recomputeAffected (List.foldl applyDelStep
          (List.foldl (applyNdStep uid now) ⟨s, [], none⟩ (sortNonDeleted b))
          (sortDeleted b)).affected now
        (List.foldl applyDelStep
          (List.foldl (applyNdStep uid now) ⟨s, [], none⟩ (sortNonDeleted b))
          (sortDeleted b)).st, none) := by
    unfold apply_remote_changes
    simp only [hA1err, hA2err]
  have hfixA1 : ∀ r ∈ sortNonDeleted b, RowFixed uid now
      (List.foldl (applyNdStep uid now) ⟨s, [], none⟩ (sortNonDeleted b)).st r :=
    ndFold_fix uid now _ s [] hvocabN (pairwise_keys_sortNonDeleted b hnodup)
  have hfixA2 : ∀ r ∈ sortNonDeleted b, RowFixed uid now
      (List.foldl applyDelStep
        (List.foldl (applyNdStep uid now) ⟨s, [], none⟩ (sortNonDeleted b))
        (sortDeleted b)).st r := by
    intro r hr
    rw [hA1eta]
    exact delFold_fix_pres uid now _ _ _ r hdelD
      (fun d hd => cross_keys_distinct b hnodup r d hr hd) (hfixA1 r hr)
  have hfixS : ∀ r ∈ sortNonDeleted b, RowFixed uid now
      (recomputeAffected (List.foldl applyDelStep
          (List.foldl (applyNdStep uid now) ⟨s, [], none⟩ (sortNonDeleted b))
          (sortDeleted b)).affected now
        (List.foldl applyDelStep
          (List.foldl (applyNdStep uid now) ⟨s, [], none⟩ (sortNonDeleted b))
          (sortDeleted b)).st) r :=
    fun r hr => RowFixed_recomp uid now _ _ r (hfixA2 r hr)
  have hgoneA2 : ∀ d ∈ sortDeleted b, RowGone
      (List.foldl applyDelStep
        (List.foldl (applyNdStep uid now) ⟨s, [], none⟩ (sortNonDeleted b))
        (sortDeleted b)).st d := by
    intro d hd
    rw [hA1eta]
    exact delFold_gone _ _ _ hdelD d hd
  have hgoneS : ∀ d ∈ sortDeleted b, RowGone
      (recomputeAffected (List.foldl applyDelStep
          (List.foldl (applyNdStep uid now) ⟨s, [], none⟩ (sortNonDeleted b))
          (sortDeleted b)).affected now
        (List.foldl applyDelStep
          (List.foldl (applyNdStep uid now) ⟨s, [], none⟩ (sortNonDeleted b))
          (sortDeleted b)).st) d :=
    fun d hd => RowGone_recomp now _ _ d (hgoneA2 d hd)
  have hsub : ∀ x ∈ dlAff (sortDeleted b) (ndAff (sortNonDeleted b) []),
      x ∈ (List.foldl applyDelStep
        (List.foldl (applyNdStep uid now) ⟨s, [], none⟩ (sortNonDeleted b))
        (sortDeleted b)).affected := by
    intro x hx
    rcases mem_dlAff _ _ x hx with ⟨hxnd, hnorem⟩
    rcases mem_ndAff _ _ x hxnd with hx0 | ⟨r, hrmem, hrtn, hrcid⟩
    · cases hx0
    · have h1 : cidOf r ∈ (List.foldl (applyNdStep uid now) ⟨s, [], none⟩
          (sortNonDeleted b)).affected :=
        ndFold_cid_mem uid now _ _ r rfl hvocabN hrmem hrtn
      rw [hrcid] at h1
      rw [hA1eta]
      exact delFold_aff_keep _ _ _ x hdelD h1 hnorem
  have hS'v : (recomputeAffected (List.foldl applyDelStep
        (List.foldl (applyNdStep uid now) ⟨s, [], none⟩ (sortNonDeleted b))
        (sortDeleted b)).affected now
      (List.foldl applyDelStep
        (List.foldl (applyNdStep uid now) ⟨s, [], none⟩ (sortNonDeleted b))
        (sortDeleted b)).st).vocabularies =
      (List.foldl applyDelStep
        (List.foldl (applyNdStep uid now) ⟨s, [], none⟩ (sortNonDeleted b))
        (sortDeleted b)).st.vocabularies := by
    rw [recomputeAffected_eq]
  have hS'c : (recomputeAffected (List.foldl applyDelStep
        (List.foldl (applyNdStep uid now) ⟨s, [], none⟩ (sortNonDeleted b))
        (sortDeleted b)).affected now
      (List.foldl applyDelStep
        (List.foldl (applyNdStep uid now) ⟨s, [], none⟩ (sortNonDeleted b))
        (sortDeleted b)).st).collections =
      (List.foldl applyDelStep
        (List.foldl (applyNdStep uid now) ⟨s, [], none⟩ (sortNonDeleted b))
        (sortDeleted b)).st.collections.map
        (recompRow (List.foldl applyDelStep
          (List.foldl (applyNdStep uid now) ⟨s, [], none⟩ (sortNonDeleted b))
          (sortDeleted b)).st.vocabularies
          (List.foldl applyDelStep
            (List.foldl (applyNdStep uid now) ⟨s, [], none⟩ (sortNonDeleted b))
            (sortDeleted b)).affected now) := by
    rw [recomputeAffected_eq]
  have hrecomp : recomputeAffected
      (dlAff (sortDeleted b) (ndAff (sortNonDeleted b) [])) now
      (recomputeAffected (List.foldl applyDelStep
          (List.foldl (applyNdStep uid now) ⟨s, [], none⟩ (sortNonDeleted b))
          (sortDeleted b)).affected now
        (List.foldl applyDelStep
          (List.foldl (applyNdStep uid now) ⟨s, [], none⟩ (sortNonDeleted b))
          (sortDeleted b)).st) =
      recomputeAffected (List.foldl applyDelStep
          (List.foldl (applyNdStep uid now) ⟨s, [], none⟩ (sortNonDeleted b))
          (sortDeleted b)).affected now
        (List.foldl applyDelStep
          (List.foldl (applyNdStep uid now) ⟨s, [], none⟩ (sortNonDeleted b))
          (sortDeleted b)).st := by
    rw [recomputeAffected_eq (dlAff (sortDeleted b) (ndAff (sortNonDeleted b) []))]
    have hmap : (recomputeAffected (List.foldl applyDelStep
          (List.foldl (applyNdStep uid now) ⟨s, [], none⟩ (sortNonDeleted b))
          (sortDeleted b)).affected now
        (List.foldl applyDelStep
          (List.foldl (applyNdStep uid now) ⟨s, [], none⟩ (sortNonDeleted b))
          (sortDeleted b)).st).collections.map
        (recompRow (recomputeAffected (List.foldl applyDelStep
            (List.foldl (applyNdStep uid now) ⟨s, [], none⟩ (sortNonDeleted b))
            (sortDeleted b)).affected now
          (List.foldl applyDelStep
            (List.foldl (applyNdStep uid now) ⟨s, [], none⟩ (sortNonDeleted b))
            (sortDeleted b)).st).vocabularies
          (dlAff (sortDeleted b) (ndAff (sortNonDeleted b) [])) now) =
        (recomputeAffected (List.foldl applyDelStep
            (List.foldl (applyNdStep uid now) ⟨s, [], none⟩ (sortNonDeleted b))
            (sortDeleted b)).affected now
          (List.foldl applyDelStep
            (List.foldl (applyNdStep uid now) ⟨s, [], none⟩ (sortNonDeleted b))
            (sortDeleted b)).st).collections := by
      rw [hS'c, hS'v, List.map_map]
      rw [List.map_congr_left (fun c _ => by
        simp only [Function.comp_apply]
        exact recompRow_subset_idem _ _ _ now c hsub)]
    rw [hmap]
  have hsecond : apply_remote_changes uid now b
      (recomputeAffected (List.foldl applyDelStep
          (List.foldl (applyNdStep uid now) ⟨s, [], none⟩ (sortNonDeleted b))
          (sortDeleted b)).affected now
        (List.foldl applyDelStep
          (List.foldl (applyNdStep uid now) ⟨s, [], none⟩ (sortNonDeleted b))
          (sortDeleted b)).st) =
      (recomputeAffected (List.foldl applyDelStep
          (List.foldl (applyNdStep uid now) ⟨s, [], none⟩ (sortNonDeleted b))
          (sortDeleted b)).affected now
        (List.foldl applyDelStep
          (List.foldl (applyNdStep uid now) ⟨s, [], none⟩ (sortNonDeleted b))
          (sortDeleted b)).st, none) := by
    unfold apply_remote_changes
    dsimp only
    rw [ndFold_noop uid now _ (sortNonDeleted b) [] hfixS hvocabN]
    dsimp only
    rw [delFold_noop _ (sortDeleted b) (ndAff (sortNonDeleted b) []) hgoneS hdelD]
    dsimp only
    rw [hrecomp]
  rw [hfirst]
  exact hsecond

end ChamSync

namespace ChamSync

/-- A non-deleted vocabularies record for the C3 witness. -/
def c3VocabRec : SyncRecord :=
  { table_name := "vocabularies", row_id := "v9",
    data := Json.obj [("collectionId", Json.str "cA")], version := 1,
    deleted := false }

/-- A deleted topics record for the C3 witness. -/
def c3DelTopic : SyncRecord :=
  { table_name := "topics", row_id := "t9", data := Json.obj [],
    version := 2, deleted := true }

/-- C3 witness: a concrete two-record pull response applied twice from
the empty store gives the once-applied state back, with no error. -/
theorem apply_remote_changes_idempotent_witness :
    (([c3VocabRec, c3DelTopic].map (fun x => (x.table_name, x.row_id))).Nodup) ∧
    (∀ r ∈ [c3VocabRec, c3DelTopic], r.deleted = false →
      r.table_name = "vocabularies" →
      ((r.data.getField "collectionId").asStr).isSome = true) ∧
    (∀ r ∈ [c3VocabRec, c3DelTopic], r.deleted = true →
      r.table_name ∈ SYNCED_TABLES) ∧
    apply_remote_changes none 5 [c3VocabRec, c3DelTopic]
        (apply_remote_changes none 5 [c3VocabRec, c3DelTopic] emptyState).1 =
      ((apply_remote_changes none 5 [c3VocabRec, c3DelTopic] emptyState).1, none) :=
  ⟨by decide, by decide, by decide,
    apply_remote_changes_idempotent none 5 [c3VocabRec, c3DelTopic] emptyState
      (by decide) (by decide) (by decide)⟩

end ChamSync
